import Mathlib

/-!
# Verification of the divergence latch engines

This development embeds the trace-processing ("divergence latch") engines of
the repository and proves the spec's testable properties about them.

Embedded source files:
* `src/scripts/pex-shadow.py` — the OR-latch engine (`process_trace`), namespace `OrEngine`;
  `src/scripts/pex_shadow_v2.py` has the same `process_trace` body over a pair list.
* `src/scripts/pex_shadow_2.py` — the AND-decay engine with continuity
  (`load_last_snapshot`, `process_trace`), namespace `AndEngine`.
* `src/scripts/pex_shadow2_v2.py` — the AND variant whose `load_last_snapshot`
  silently defaults when the previous clip's output is missing, namespace `V2`.
* `src/scripts/pex_generation_pipeline.py` — the per-clip orchestrator (`main`),
  namespace `Pipeline`.

Python dictionaries are modelled as association lists with `mget`/`mset`
(lookup with default / insert-or-overwrite).  Python `set` iteration order is
unspecified; the embedding fixes the iteration order of the `active` set to be
the (stable) list order of the surviving pairs.  Values are integers (`Int`),
node ids are `Nat`.
-/

namespace PexShadow

abbrev NodeId := Nat
abbrev Val := Int

/-- A Python dict from node id to value, as an association list. -/
abbrev Model := List (NodeId × Val)

/-- `d.get(k, dflt)`: the first binding of `k`, else the default.  (Python
dicts cannot hold a key twice, so "first" is exact.) -/
def mget : Model → NodeId → Val → Val
  | [], _, dflt => dflt
  | e :: m, k, dflt => if e.1 = k then e.2 else mget m k dflt

/-- `k in d`. -/
def hasKey : Model → NodeId → Bool
  | [], _ => false
  | e :: m, k => if e.1 = k then true else hasKey m k

/-- `d[k] = v`: overwrite in place, append if absent. -/
def mset : Model → NodeId → Val → Model
  | [], k, v => [(k, v)]
  | e :: m, k, v => if e.1 = k then (k, v) :: m else e :: mset m k v

/-- No key is bound twice (true of every model a Python dict produces). -/
def NodupKeys (m : Model) : Prop := (m.map Prod.fst).Nodup

theorem mget_mset (m : Model) (k k' : NodeId) (v d : Val) :
    mget (mset m k v) k' d = if k' = k then v else mget m k' d := by
  induction m with
  | nil =>
    by_cases h : k' = k
    · simp [mset, mget, h]
    · simp [mset, mget, h, Ne.symm h]
  | cons e m ih =>
    by_cases he : e.1 = k
    · by_cases h : k' = k
      · simp [mset, mget, he, h]
      · have he' : e.1 ≠ k' := by rw [he]; exact Ne.symm h
        simp [mset, mget, he, h, he', Ne.symm h]
    · by_cases hek : e.1 = k'
      · have h : k' ≠ k := fun hh => he (hek.trans hh)
        simp [mset, mget, he, hek, h]
      · simp [mset, mget, he, hek, ih]

theorem mget_mset_self (m : Model) (k : NodeId) (v d : Val) :
    mget (mset m k v) k d = v := by simp [mget_mset]

theorem mget_mset_ne (m : Model) (k k' : NodeId) (v d : Val) (h : k' ≠ k) :
    mget (mset m k v) k' d = mget m k' d := by simp [mget_mset, h]

theorem hasKey_mset (m : Model) (k k' : NodeId) (v : Val) :
    hasKey (mset m k v) k' = if k' = k then true else hasKey m k' := by
  induction m with
  | nil =>
    by_cases h : k' = k
    · simp [mset, hasKey, h]
    · simp [mset, hasKey, h, Ne.symm h]
  | cons e m ih =>
    by_cases he : e.1 = k
    · by_cases h : k' = k
      · simp [mset, hasKey, he, h]
      · have he' : e.1 ≠ k' := by rw [he]; exact Ne.symm h
        simp [mset, hasKey, he, h, he', Ne.symm h]
    · by_cases hek : e.1 = k'
      · have h : k' ≠ k := fun hh => he (hek.trans hh)
        simp [mset, hasKey, he, hek, h]
      · simp [mset, hasKey, he, hek, ih]

theorem hasKey_iff_mem_keys (m : Model) (k : NodeId) :
    hasKey m k = true ↔ k ∈ m.map Prod.fst := by
  induction m with
  | nil => simp [hasKey]
  | cons e t ih =>
    by_cases he : e.1 = k
    · simp [hasKey, he]
    · simp [hasKey, he, ih, Ne.symm he]

theorem keysMap_mset (m : Model) (k : NodeId) (v : Val) :
    (mset m k v).map Prod.fst =
      if hasKey m k then m.map Prod.fst else m.map Prod.fst ++ [k] := by
  induction m with
  | nil => simp [mset, hasKey]
  | cons e m ih =>
    by_cases he : e.1 = k
    · simp [mset, hasKey, he]
    · simp only [mset, if_neg he, hasKey, List.map_cons, ih]
      by_cases h : hasKey m k <;> simp [h, he]

theorem NodupKeys.mset (m : Model) (k : NodeId) (v : Val)
    (h : NodupKeys m) : NodupKeys (PexShadow.mset m k v) := by
  unfold NodupKeys at *
  rw [keysMap_mset]
  by_cases hk : hasKey m k
  · simpa [hk]
  · simp only [hk, if_false]
    refine List.Nodup.append h (List.nodup_singleton k) ?_
    intro a ha hb
    simp only [List.mem_singleton] at hb
    subst hb
    exact hk ((hasKey_iff_mem_keys m a).mpr ha)

theorem mget_default_irrelevant (m : Model) (k : NodeId) (d d' : Val)
    (h : hasKey m k = true) : mget m k d = mget m k d' := by
  induction m with
  | nil => simp [hasKey] at h
  | cons e t ih =>
    by_cases he : e.1 = k
    · simp [mget, he]
    · simp only [hasKey, if_neg he] at h
      simp [mget, he, ih h]

theorem mem_of_hasKey (m : Model) (k : NodeId) (d : Val)
    (h : hasKey m k = true) : (k, mget m k d) ∈ m := by
  induction m with
  | nil => simp [hasKey] at h
  | cons e t ih =>
    by_cases he : e.1 = k
    · rw [mget, if_pos he]
      have hk : (k, e.2) = e := by rw [← he]
      exact hk ▸ List.mem_cons_self e t
    · simp only [hasKey, if_neg he] at h
      right
      rw [mget, if_neg he]
      exact ih h

theorem mget_of_mem_nodup (m : Model) (k : NodeId) (v d : Val)
    (hnd : NodupKeys m) (h : (k, v) ∈ m) : mget m k d = v := by
  induction m with
  | nil => simp at h
  | cons e t ih =>
    rcases List.mem_cons.mp h with h1 | h2
    · rw [← h1, mget, if_pos rfl]
    · by_cases he : e.1 = k
      · exfalso
        have hk : k ∈ t.map Prod.fst :=
          List.mem_map.mpr ⟨(k, v), h2, rfl⟩
        have := (List.nodup_cons.mp hnd).1
        rw [he] at this
        exact this hk
      · rw [mget, if_neg he]
        exact ih (List.Nodup.of_cons hnd) h2

/-! ### Generic lemmas about `foldl`-of-`mset` writes -/

theorem mget_foldl_mset {α : Type} (l : List α) (f : α → NodeId)
    (F : NodeId → Val) (acc : Model) (k : NodeId) (d : Val) :
    mget (l.foldl (fun a p => mset a (f p) (F (f p))) acc) k d =
      if k ∈ l.map f then F k else mget acc k d := by
  induction l generalizing acc with
  | nil => simp
  | cons p rest ih =>
    simp only [List.foldl_cons, ih, List.map_cons, List.mem_cons]
    by_cases hr : k ∈ rest.map f
    · simp [hr]
    · by_cases hp : k = f p
      · simp [hr, hp, mget_mset_self]
      · simp [hr, hp, mget_mset_ne _ _ _ _ _ hp]

theorem hasKey_foldl_mset {α : Type} (l : List α) (f : α → NodeId)
    (g : α → Val) (acc : Model) (k : NodeId) :
    hasKey (l.foldl (fun a p => mset a (f p) (g p)) acc) k =
      if k ∈ l.map f then true else hasKey acc k := by
  induction l generalizing acc with
  | nil => simp
  | cons p rest ih =>
    simp only [List.foldl_cons, ih, List.map_cons, List.mem_cons]
    by_cases hr : k ∈ rest.map f
    · simp [hr]
    · by_cases hp : k = f p
      · simp [hr, hp, hasKey_mset]
      · simp [hr, hp, hasKey_mset]

theorem nodupKeys_foldl_mset {α : Type} (l : List α) (f : α → NodeId)
    (g : α → Val) (acc : Model) (h : NodupKeys acc) :
    NodupKeys (l.foldl (fun a p => mset a (f p) (g p)) acc) := by
  induction l generalizing acc with
  | nil => exact h
  | cons p rest ih => exact ih _ (NodupKeys.mset _ (f p) (g p) h)

/-- One per-cycle record of the trace: the `_model` mapping plus the
pass-through `is_start` marker. -/
structure Snapshot where
  model : Model
  is_start : Bool
deriving Repr, DecidableEq

/-- The signal pair table: `(monitored id, shadow id)` pairs, in iteration
order (`shadow_map.items()` in the scripts). -/
abbrev PairTable := List (NodeId × NodeId)

def oids (pairs : PairTable) : List NodeId := pairs.map Prod.fst

def sids (pairs : PairTable) : List NodeId := pairs.map Prod.snd

/-- `shadow_latched = {sid: 0 for sid in shadow_map.values()}`. -/
def initLatched (pairs : PairTable) : Model :=
  pairs.foldl (fun l p => mset l p.2 0) []

/-- Has the monitored value ever changed from its predecessor along the list
`p :: vs` of successive observations? -/
def anyChange (p : Val) : List Val → Bool
  | [] => false
  | v :: vs => (v != p) || anyChange v vs

/-- The raw value stream of node `o` over a trace (absent keys default to 0). -/
def vals (o : NodeId) (snaps : List Snapshot) : List Val :=
  snaps.map (fun s => mget s.model o 0)

namespace OrEngine

/-! ## `pex-shadow.py` — OR-latch `process_trace` (lines 77–137)

State carried across snapshots: `prev_vals`, `shadow_latched`, `active`. -/

structure St where
  prev_vals : Model
  shadow_latched : Model
  active : PairTable
deriving Repr, DecidableEq

/-- First snapshot (lines 97–104): zero every shadow entry, then seed
`prev_vals[oid] = model.get(oid, 0)` from the already-mutated model. -/
def firstSnap (pairs : PairTable) (st : St) (model : Model) : Model × St :=
  let model1 := st.shadow_latched.foldl (fun m e => mset m e.1 0) model
  let pv := pairs.foldl (fun pv p => mset pv p.1 (mget model1 p.1 0)) st.prev_vals
  (model1, ⟨pv, st.shadow_latched, st.active⟩)

/-- The `for oid, sid in active` loop (lines 109–121): returns the mutated
model, `prev_vals`, `shadow_latched` and the surviving `new_active`. -/
def loop : PairTable → Model → Model → Model → Model × Model × Model × PairTable
  | [], model, pv, lat => (model, pv, lat, [])
  | (oid, sid) :: rest, model, pv, lat =>
    let curr := mget model oid 0
    if curr = mget pv oid 0 then
      let r := loop rest (mset model sid (mget lat sid 0)) (mset pv oid curr) lat
      (r.1, r.2.1, r.2.2.1,
        if mget lat sid 0 = 0 then (oid, sid) :: r.2.2.2 else r.2.2.2)
    else
      loop rest (mset model sid 1) (mset pv oid curr) (mset lat sid 1)

/-- `for sid, val in shadow_latched.items(): if val == 1: model[sid] = 1`
(lines 126–128). -/
def forceOnes (lat : Model) (model : Model) : Model :=
  lat.foldl (fun m e => if e.2 = 1 then mset m e.1 1 else m) model

/-- One non-first snapshot (lines 106–128). -/
def step (st : St) (model : Model) : Model × St :=
  let r := loop st.active model st.prev_vals st.shadow_latched
  (forceOnes r.2.2.1 r.1, ⟨r.2.1, r.2.2.1, r.2.2.2⟩)

/-- The `for snap in data` loop with its `first` flag. -/
def runAux (pairs : PairTable) : Bool → St → List Snapshot → List Snapshot × St
  | _, st, [] => ([], st)
  | true, st, snap :: rest =>
    let r := firstSnap pairs st snap.model
    let r2 := runAux pairs false r.2 rest
    (⟨r.1, snap.is_start⟩ :: r2.1, r2.2)
  | false, st, snap :: rest =>
    let r := step st snap.model
    let r2 := runAux pairs false r.2 rest
    (⟨r.1, snap.is_start⟩ :: r2.1, r2.2)

/-- `process_trace` of `pex-shadow.py`: fresh state, then the snapshot loop. -/
def process_trace (pairs : PairTable) (snaps : List Snapshot) :
    List Snapshot × St :=
  runAux pairs true ⟨[], initLatched pairs, pairs⟩ snaps

end OrEngine

namespace AndEngine

/-! ## `pex_shadow_2.py` — AND-decay `process_trace` (lines 95–135) with
continuity seeding `load_last_snapshot` (lines 70–89). -/

structure St where
  prev_vals : Model
  shadow_latched : Model
  active : PairTable
deriving Repr, DecidableEq

/-- `load_last_snapshot` (lines 70–89), applied to the last snapshot's model:
seed `prev_orig_vals[oid] = last_model.get(oid, 0)` and
`prev_shadow_vals[sid] = last_model.get(sid, 1)`. -/
def load_last_snapshot (pairs : PairTable) (lastModel : Model) : Model × Model :=
  pairs.foldl
    (fun acc p => (mset acc.1 p.1 (mget lastModel p.1 0),
                   mset acc.2 p.2 (mget lastModel p.2 1)))
    ([], [])

/-- The `for oid, sid in active` loop (lines 110–119): no model writes here,
only `prev_vals` / `shadow_latched` updates and the `new_active` filter. -/
def loop : PairTable → Model → Model → Model → Model × Model × PairTable
  | [], _, pv, lat => (pv, lat, [])
  | (oid, sid) :: rest, model, pv, lat =>
    let curr := mget model oid 0
    let lat1 := if curr = mget pv oid 0 then lat else mset lat sid 0
    let r := loop rest model (mset pv oid curr) lat1
    (r.1, r.2.1, if mget lat1 sid 1 = 1 then (oid, sid) :: r.2.2 else r.2.2)

/-- `for sid, val in shadow_latched.items(): model[sid] = val` (lines 124–125). -/
def forceAll (lat : Model) (model : Model) : Model :=
  lat.foldl (fun m e => mset m e.1 e.2) model

/-- One snapshot (lines 105–125); the AND engine has no first-snapshot
special case. -/
def step (st : St) (model : Model) : Model × St :=
  let r := loop st.active model st.prev_vals st.shadow_latched
  (forceAll r.2.1 model, ⟨r.1, r.2.1, r.2.2⟩)

def runAux : St → List Snapshot → List Snapshot × St
  | st, [] => ([], st)
  | st, snap :: rest =>
    let r := step st snap.model
    let r2 := runAux r.2 rest
    (⟨r.1, snap.is_start⟩ :: r2.1, r2.2)

/-- `process_trace` of `pex_shadow_2.py`, with the previous clip's last
snapshot model already extracted (`data[-1]._model`). -/
def process_trace (pairs : PairTable) (prevLastModel : Model)
    (snaps : List Snapshot) : List Snapshot × St :=
  let seeds := load_last_snapshot pairs prevLastModel
  runAux ⟨seeds.1, seeds.2, pairs⟩ snaps

end AndEngine

namespace OrRef

/-! ## Reference behavior for C9, following the spec's words: "evaluating all
pairs every Snapshot" — the OR engine without the shrinking `active` set.
The loop body is that of `pex-shadow.py` lines 109–121 run over the whole
pair table, with no `new_active` bookkeeping. -/

def loop : PairTable → Model → Model → Model → Model × Model × Model
  | [], model, pv, lat => (model, pv, lat)
  | (oid, sid) :: rest, model, pv, lat =>
    let curr := mget model oid 0
    if curr = mget pv oid 0 then
      loop rest (mset model sid (mget lat sid 0)) (mset pv oid curr) lat
    else
      loop rest (mset model sid 1) (mset pv oid curr) (mset lat sid 1)

def step (pairs : PairTable) (pv lat : Model) (model : Model) :
    Model × Model × Model :=
  let r := loop pairs model pv lat
  (OrEngine.forceOnes r.2.2 r.1, r.2.1, r.2.2)

def runAux (pairs : PairTable) :
    Bool → Model → Model → List Snapshot → List Snapshot × Model × Model
  | _, pv, lat, [] => ([], pv, lat)
  | true, pv, lat, snap :: rest =>
    let model1 := lat.foldl (fun m e => mset m e.1 0) snap.model
    let pv1 := pairs.foldl (fun pv p => mset pv p.1 (mget model1 p.1 0)) pv
    let r2 := runAux pairs false pv1 lat rest
    (⟨model1, snap.is_start⟩ :: r2.1, r2.2)
  | false, pv, lat, snap :: rest =>
    let r := step pairs pv lat snap.model
    let r2 := runAux pairs false r.2.1 r.2.2 rest
    (⟨r.1, snap.is_start⟩ :: r2.1, r2.2)

def process_trace (pairs : PairTable) (snaps : List Snapshot) :
    List Snapshot × Model × Model :=
  runAux pairs true [] (initLatched pairs) snaps

end OrRef

namespace AndRef

/-! ## Reference behavior for C9 on the AND side: the `pex_shadow_2.py` loop
body (lines 110–119) evaluated over every pair of the table at every
snapshot, with no `active` filtering. -/

def loop : PairTable → Model → Model → Model → Model × Model
  | [], _, pv, lat => (pv, lat)
  | (oid, sid) :: rest, model, pv, lat =>
    let curr := mget model oid 0
    let lat1 := if curr = mget pv oid 0 then lat else mset lat sid 0
    loop rest model (mset pv oid curr) lat1

def step (pairs : PairTable) (pv lat : Model) (model : Model) :
    Model × Model × Model :=
  let r := loop pairs model pv lat
  (AndEngine.forceAll r.2 model, r.1, r.2)

def runAux (pairs : PairTable) :
    Model → Model → List Snapshot → List Snapshot × Model × Model
  | pv, lat, [] => ([], pv, lat)
  | pv, lat, snap :: rest =>
    let r := step pairs pv lat snap.model
    let r2 := runAux pairs r.2.1 r.2.2 rest
    (⟨r.1, snap.is_start⟩ :: r2.1, r2.2)

def process_trace (pairs : PairTable) (prevLastModel : Model)
    (snaps : List Snapshot) : List Snapshot × Model × Model :=
  let seeds := AndEngine.load_last_snapshot pairs prevLastModel
  runAux pairs seeds.1 seeds.2 snaps

end AndRef

namespace V2

/-! ## `pex_shadow2_v2.py` — `load_last_snapshot` (lines 107–143) and
`process_trace` (lines 148–203).

The previous clip's output is `none` when the file is missing
(`FileNotFoundError`, lines 118–122) and `some []` when it holds no
snapshots (lines 124–127); in both cases the function silently returns
default seeds instead of failing. -/

def defaultSeeds (pairs : PairTable) : Model × Model :=
  (pairs.foldl (fun m p => mset m p.1 0) [],
   pairs.foldl (fun m p => mset m p.2 1) [])

def load_last_snapshot (pairs : PairTable) :
    Option (List Snapshot) → Model × Model
  | none => defaultSeeds pairs
  | some [] => defaultSeeds pairs
  | some (s :: rest) =>
    AndEngine.load_last_snapshot pairs ((s :: rest).getLast (by simp)).model

/-- `process_trace` of `pex_shadow2_v2.py`: identical loop body to
`pex_shadow_2.py` (lines 171–192), but seeded through the defaulting
`load_last_snapshot`.  It always produces an annotated trace, never an
error. -/
def process_trace (pairs : PairTable) (prevData : Option (List Snapshot))
    (snaps : List Snapshot) : List Snapshot × AndEngine.St :=
  let seeds := load_last_snapshot pairs prevData
  AndEngine.runAux ⟨seeds.1, seeds.2, pairs⟩ snaps

end V2

namespace Pipeline

/-! ## `pex_generation_pipeline.py` — `main` (lines 53–106).

The per-clip loop: policy `0` runs the OR engine (`pex_shadow.py`) on the
clip, policy `1` (AND) requires `prev_shadowed`; if it is `None` (first
clip) the run raises `RuntimeError("AND-decay used on first clip ...")`
(lines 95–98).  The AND engine then seeds from the last snapshot of the
previous output (`pex_shadow_2.py`, `data[-1]`, which raises `IndexError`
on an empty previous output).  File plumbing is abstracted: each clip is
an in-memory trace segment. -/

def runClips (pairs : PairTable) :
    Option (List Snapshot) → List (Nat × List Snapshot) →
    Except String (Option (List Snapshot))
  | prev, [] => Except.ok prev
  | prev, (pol, clip) :: rest =>
    if pol = 0 then
      runClips pairs (some (OrEngine.process_trace pairs clip).1) rest
    else
      match prev with
      | none => Except.error "AND-decay used on first clip"
      | some prevOut =>
        match prevOut.getLast? with
        | none => Except.error "IndexError: list index out of range"
        | some lastSnap =>
          runClips pairs
            (some (AndEngine.process_trace pairs lastSnap.model clip).1) rest

/-- `main`: the `--shadow-policy` list must match the clip count
(`ValueError` otherwise), then the clips run in order from a fresh session
(`prev_shadowed = None`). -/
def main (pairs : PairTable) (policies : List Nat)
    (clips : List (List Snapshot)) : Except String (Option (List Snapshot)) :=
  if policies.length = clips.length then
    runClips pairs none (policies.zip clips)
  else
    Except.error "shadow-policy length must equal number of clips"

end Pipeline

/-! ### Lemmas about the force-write loops -/

theorem forceOnes_mget (lat : Model) (m : Model) (k : NodeId) (d : Val) :
    mget (OrEngine.forceOnes lat m) k d =
      if ∃ e ∈ lat, e.1 = k ∧ e.2 = 1 then 1 else mget m k d := by
  induction lat generalizing m with
  | nil => simp [OrEngine.forceOnes]
  | cons e rest ih =>
    show mget (OrEngine.forceOnes rest (if e.2 = 1 then mset m e.1 1 else m)) k d = _
    rw [ih]
    by_cases hr : ∃ e' ∈ rest, e'.1 = k ∧ e'.2 = 1
    · have : ∃ e' ∈ e :: rest, e'.1 = k ∧ e'.2 = 1 := by
        obtain ⟨x, hx, hxx⟩ := hr
        exact ⟨x, List.mem_cons_of_mem e hx, hxx⟩
      simp [hr, this]
    · by_cases hh : e.1 = k ∧ e.2 = 1
      · have : ∃ e' ∈ e :: rest, e'.1 = k ∧ e'.2 = 1 :=
          ⟨e, List.mem_cons_self e rest, hh⟩
        simp [hr, this, hh.2, hh.1, mget_mset_self]
      · have hnone : ¬ ∃ e' ∈ e :: rest, e'.1 = k ∧ e'.2 = 1 := by
          intro ⟨x, hx, hxx⟩
          rcases List.mem_cons.mp hx with h1 | h2
          · exact hh (h1 ▸ hxx)
          · exact hr ⟨x, h2, hxx⟩
        by_cases he2 : e.2 = 1
        · have hek : e.1 ≠ k := fun hk => hh ⟨hk, he2⟩
          simp [hr, hnone, he2, mget_mset_ne _ _ _ _ _ (Ne.symm hek), hek]
        · simp [hr, hnone, he2]

theorem forceOnes_hasKey (lat : Model) (m : Model) (k : NodeId) :
    hasKey (OrEngine.forceOnes lat m) k =
      if ∃ e ∈ lat, e.1 = k ∧ e.2 = 1 then true else hasKey m k := by
  induction lat generalizing m with
  | nil => simp [OrEngine.forceOnes]
  | cons e rest ih =>
    show hasKey (OrEngine.forceOnes rest (if e.2 = 1 then mset m e.1 1 else m)) k = _
    rw [ih]
    by_cases hr : ∃ e' ∈ rest, e'.1 = k ∧ e'.2 = 1
    · have : ∃ e' ∈ e :: rest, e'.1 = k ∧ e'.2 = 1 := by
        obtain ⟨x, hx, hxx⟩ := hr
        exact ⟨x, List.mem_cons_of_mem e hx, hxx⟩
      simp [hr, this]
    · by_cases hh : e.1 = k ∧ e.2 = 1
      · have : ∃ e' ∈ e :: rest, e'.1 = k ∧ e'.2 = 1 :=
          ⟨e, List.mem_cons_self e rest, hh⟩
        simp [hr, this, hh.2, hh.1, hasKey_mset]
      · have hnone : ¬ ∃ e' ∈ e :: rest, e'.1 = k ∧ e'.2 = 1 := by
          intro ⟨x, hx, hxx⟩
          rcases List.mem_cons.mp hx with h1 | h2
          · exact hh (h1 ▸ hxx)
          · exact hr ⟨x, h2, hxx⟩
        by_cases he2 : e.2 = 1
        · have hek : e.1 ≠ k := fun hk => hh ⟨hk, he2⟩
          simp [hr, hnone, he2, hasKey_mset, Ne.symm hek, hek]
        · simp [hr, hnone, he2]

theorem exists_one_iff_nodup (lat : Model) (k : NodeId) (hnd : NodupKeys lat) :
    (∃ e ∈ lat, e.1 = k ∧ e.2 = 1) ↔ (hasKey lat k = true ∧ mget lat k 0 = 1) := by
  constructor
  · intro ⟨e, he, hk, hv⟩
    have hm : (k, (1 : Val)) ∈ lat := by
      have : e = (k, 1) := by
        obtain ⟨a, b⟩ := e
        simp only at hk hv
        rw [hk, hv]
      exact this ▸ he
    refine ⟨?_, mget_of_mem_nodup _ _ _ _ hnd hm⟩
    exact (hasKey_iff_mem_keys _ _).mpr (List.mem_map.mpr ⟨(k, 1), hm, rfl⟩)
  · intro ⟨hk, hv⟩
    exact ⟨(k, mget lat k 0), mem_of_hasKey _ _ _ hk, rfl, hv⟩

theorem forceOnes_mget_nodup (lat : Model) (m : Model) (k : NodeId) (d : Val)
    (hnd : NodupKeys lat) :
    mget (OrEngine.forceOnes lat m) k d =
      if hasKey lat k = true ∧ mget lat k 0 = 1 then 1 else mget m k d := by
  rw [forceOnes_mget, if_congr (exists_one_iff_nodup lat k hnd) rfl rfl]

theorem forceAll_mget_frame (lat : Model) (m : Model) (k : NodeId) (d : Val)
    (h : hasKey lat k = false) :
    mget (AndEngine.forceAll lat m) k d = mget m k d := by
  induction lat generalizing m with
  | nil => simp [AndEngine.forceAll]
  | cons e rest ih =>
    show mget (AndEngine.forceAll rest (mset m e.1 e.2)) k d = _
    by_cases he : e.1 = k
    · simp [hasKey, he] at h
    · simp only [hasKey, if_neg he] at h
      rw [ih _ h, mget_mset_ne _ _ _ _ _ (Ne.symm he)]

theorem forceAll_hasKey (lat : Model) (m : Model) (k : NodeId) :
    hasKey (AndEngine.forceAll lat m) k =
      if hasKey lat k = true then true else hasKey m k := by
  induction lat generalizing m with
  | nil => simp [AndEngine.forceAll, hasKey]
  | cons e rest ih =>
    show hasKey (AndEngine.forceAll rest (mset m e.1 e.2)) k = _
    rw [ih, hasKey_mset]
    by_cases he : e.1 = k
    · by_cases hr : hasKey rest k = true <;> simp [hasKey, he, hr]
    · by_cases hr : hasKey rest k = true <;> simp [hasKey, he, hr, Ne.symm he]

theorem forceAll_mget_nodup (lat : Model) (m : Model) (k : NodeId) (d d0 : Val)
    (hnd : NodupKeys lat) (h : hasKey lat k = true) :
    mget (AndEngine.forceAll lat m) k d = mget lat k d0 := by
  induction lat generalizing m with
  | nil => simp [hasKey] at h
  | cons e rest ih =>
    show mget (AndEngine.forceAll rest (mset m e.1 e.2)) k d = _
    by_cases he : e.1 = k
    · have hrk : hasKey rest k = false := by
        by_contra hc
        have hmem : k ∈ rest.map Prod.fst :=
          (hasKey_iff_mem_keys _ _).mp (by revert hc; cases hasKey rest k <;> simp)
        have := (List.nodup_cons.mp hnd).1
        rw [he] at this
        exact this hmem
      rw [forceAll_mget_frame _ _ _ _ hrk, mget_mset, if_pos he.symm]
      simp [mget, he]
    · simp only [hasKey, if_neg he] at h
      rw [ih _ (List.Nodup.of_cons hnd) h]
      simp [mget, he]

/-! ### Lemmas about the seed folds -/

theorem initLatched_mget (pairs : PairTable) (k : NodeId) (d : Val) :
    mget (initLatched pairs) k d = if k ∈ sids pairs then 0 else d := by
  exact mget_foldl_mset pairs Prod.snd (fun _ => 0) [] k d

theorem initLatched_hasKey (pairs : PairTable) (k : NodeId) :
    hasKey (initLatched pairs) k = if k ∈ sids pairs then true else false := by
  exact hasKey_foldl_mset pairs Prod.snd (fun _ => 0) [] k

theorem initLatched_nodup (pairs : PairTable) : NodupKeys (initLatched pairs) := by
  exact nodupKeys_foldl_mset pairs Prod.snd (fun _ => 0) [] (by simp [NodupKeys])

theorem load_last_snapshot_eq (pairs : PairTable) (lm : Model) :
    AndEngine.load_last_snapshot pairs lm =
      (pairs.foldl (fun a p => mset a p.1 (mget lm p.1 0)) [],
       pairs.foldl (fun a p => mset a p.2 (mget lm p.2 1)) []) := by
  suffices h : ∀ acc1 acc2 : Model,
      pairs.foldl
        (fun acc p => (mset acc.1 p.1 (mget lm p.1 0), mset acc.2 p.2 (mget lm p.2 1)))
        (acc1, acc2) =
      (pairs.foldl (fun a p => mset a p.1 (mget lm p.1 0)) acc1,
       pairs.foldl (fun a p => mset a p.2 (mget lm p.2 1)) acc2) by
    exact h [] []
  induction pairs with
  | nil => intro acc1 acc2; rfl
  | cons p rest ih => intro acc1 acc2; exact ih _ _

theorem load_last_snapshot_fst (pairs : PairTable) (lm : Model) (k : NodeId) (d : Val) :
    mget (AndEngine.load_last_snapshot pairs lm).1 k d =
      if k ∈ oids pairs then mget lm k 0 else d := by
  rw [load_last_snapshot_eq]
  exact mget_foldl_mset pairs Prod.fst (fun x => mget lm x 0) [] k d

theorem load_last_snapshot_snd (pairs : PairTable) (lm : Model) (k : NodeId) (d : Val) :
    mget (AndEngine.load_last_snapshot pairs lm).2 k d =
      if k ∈ sids pairs then mget lm k 1 else d := by
  rw [load_last_snapshot_eq]
  exact mget_foldl_mset pairs Prod.snd (fun x => mget lm x 1) [] k d

theorem load_last_snapshot_snd_hasKey (pairs : PairTable) (lm : Model) (k : NodeId) :
    hasKey (AndEngine.load_last_snapshot pairs lm).2 k =
      if k ∈ sids pairs then true else false := by
  rw [load_last_snapshot_eq]
  exact hasKey_foldl_mset pairs Prod.snd (fun p => mget lm p.2 1) [] k

theorem load_last_snapshot_snd_nodup (pairs : PairTable) (lm : Model) :
    NodupKeys (AndEngine.load_last_snapshot pairs lm).2 := by
  rw [load_last_snapshot_eq]
  exact nodupKeys_foldl_mset pairs Prod.snd (fun p => mget lm p.2 1) [] (by simp [NodupKeys])

/-! ### Effect lemmas for the OR pair loop -/

theorem orLoop_model_frame (act : PairTable) (model pv lat : Model) (k : NodeId)
    (d : Val) (h : ∀ q ∈ act, q.2 ≠ k) :
    mget (OrEngine.loop act model pv lat).1 k d = mget model k d := by
  induction act generalizing model pv lat with
  | nil => rfl
  | cons p rest ih =>
    obtain ⟨oid, sid⟩ := p
    have hs : sid ≠ k := h (oid, sid) (List.mem_cons_self _ _)
    have hr : ∀ q ∈ rest, q.2 ≠ k := fun q hq => h q (List.mem_cons_of_mem _ hq)
    simp only [OrEngine.loop]
    by_cases hc : mget model oid 0 = mget pv oid 0
    · simp only [if_pos hc]
      rw [ih _ _ _ hr, mget_mset_ne _ _ _ _ _ (Ne.symm hs)]
    · simp only [if_neg hc]
      rw [ih _ _ _ hr, mget_mset_ne _ _ _ _ _ (Ne.symm hs)]

theorem orLoop_pv_frame (act : PairTable) (model pv lat : Model) (k : NodeId)
    (d : Val) (h : ∀ q ∈ act, q.1 ≠ k) :
    mget (OrEngine.loop act model pv lat).2.1 k d = mget pv k d := by
  induction act generalizing model pv lat with
  | nil => rfl
  | cons p rest ih =>
    obtain ⟨oid, sid⟩ := p
    have ho : oid ≠ k := h (oid, sid) (List.mem_cons_self _ _)
    have hr : ∀ q ∈ rest, q.1 ≠ k := fun q hq => h q (List.mem_cons_of_mem _ hq)
    simp only [OrEngine.loop]
    by_cases hc : mget model oid 0 = mget pv oid 0
    · simp only [if_pos hc]
      rw [ih _ _ _ hr, mget_mset_ne _ _ _ _ _ (Ne.symm ho)]
    · simp only [if_neg hc]
      rw [ih _ _ _ hr, mget_mset_ne _ _ _ _ _ (Ne.symm ho)]

theorem orLoop_lat_frame (act : PairTable) (model pv lat : Model) (k : NodeId)
    (d : Val) (h : ∀ q ∈ act, q.2 ≠ k) :
    mget (OrEngine.loop act model pv lat).2.2.1 k d = mget lat k d := by
  induction act generalizing model pv lat with
  | nil => rfl
  | cons p rest ih =>
    obtain ⟨oid, sid⟩ := p
    have hs : sid ≠ k := h (oid, sid) (List.mem_cons_self _ _)
    have hr : ∀ q ∈ rest, q.2 ≠ k := fun q hq => h q (List.mem_cons_of_mem _ hq)
    simp only [OrEngine.loop]
    by_cases hc : mget model oid 0 = mget pv oid 0
    · simp only [if_pos hc]
      rw [ih _ _ _ hr]
    · simp only [if_neg hc]
      rw [ih _ _ _ hr, mget_mset_ne _ _ _ _ _ (Ne.symm hs)]

theorem orLoop_lat_one (act : PairTable) (model pv lat : Model) (k : NodeId)
    (h : mget lat k 0 = 1) :
    mget (OrEngine.loop act model pv lat).2.2.1 k 0 = 1 := by
  induction act generalizing model pv lat with
  | nil => exact h
  | cons p rest ih =>
    obtain ⟨oid, sid⟩ := p
    simp only [OrEngine.loop]
    by_cases hc : mget model oid 0 = mget pv oid 0
    · simp only [if_pos hc]
      exact ih _ _ _ h
    · simp only [if_neg hc]
      refine ih _ _ _ ?_
      by_cases hk : k = sid
      · rw [hk, mget_mset_self]
      · rw [mget_mset_ne _ _ _ _ _ hk]
        exact h

theorem orLoop_lat_cases (act : PairTable) (model pv lat : Model) (k : NodeId) :
    mget (OrEngine.loop act model pv lat).2.2.1 k 0 = mget lat k 0 ∨
    mget (OrEngine.loop act model pv lat).2.2.1 k 0 = 1 := by
  induction act generalizing model pv lat with
  | nil => exact Or.inl rfl
  | cons p rest ih =>
    obtain ⟨oid, sid⟩ := p
    simp only [OrEngine.loop]
    by_cases hc : mget model oid 0 = mget pv oid 0
    · simp only [if_pos hc]
      exact ih _ _ _
    · simp only [if_neg hc]
      rcases ih (mset model sid 1) (mset pv oid (mget model oid 0)) (mset lat sid 1) with h | h
      · by_cases hk : k = sid
        · right
          rw [h, hk, mget_mset_self]
        · left
          rw [h, mget_mset_ne _ _ _ _ _ hk]
      · exact Or.inr h

theorem orLoop_lat_zero_of (act : PairTable) (model pv lat : Model) (k : NodeId)
    (h : mget (OrEngine.loop act model pv lat).2.2.1 k 0 = 0) :
    mget lat k 0 = 0 := by
  rcases orLoop_lat_cases act model pv lat k with hcase | hcase
  · rw [← hcase]; exact h
  · rw [hcase] at h; exact absurd h (by decide)

theorem orLoop_active_sublist (act : PairTable) (model pv lat : Model) :
    (OrEngine.loop act model pv lat).2.2.2.Sublist act := by
  induction act generalizing model pv lat with
  | nil => exact List.Sublist.refl _
  | cons p rest ih =>
    obtain ⟨oid, sid⟩ := p
    simp only [OrEngine.loop]
    by_cases hc : mget model oid 0 = mget pv oid 0
    · simp only [if_pos hc]
      by_cases hk : mget lat sid 0 = 0
      · simp only [if_pos hk]
        exact List.Sublist.cons₂ _ (ih _ _ _)
      · simp only [if_neg hk]
        exact List.Sublist.cons _ (ih _ _ _)
    · simp only [if_neg hc]
      exact List.Sublist.cons _ (ih _ _ _)

theorem orLoop_keep (act : PairTable) (model pv lat : Model) (o s : NodeId)
    (hmem : (o, s) ∈ act)
    (h0 : mget (OrEngine.loop act model pv lat).2.2.1 s 0 = 0) :
    (o, s) ∈ (OrEngine.loop act model pv lat).2.2.2 := by
  induction act generalizing model pv lat with
  | nil => simp at hmem
  | cons p rest ih =>
    obtain ⟨oid, sid⟩ := p
    simp only [OrEngine.loop] at h0 ⊢
    by_cases hc : mget model oid 0 = mget pv oid 0
    · simp only [if_pos hc] at h0 ⊢
      rcases List.mem_cons.mp hmem with h1 | h2
      · have ho : o = oid := congrArg Prod.fst h1
        have hs : s = sid := congrArg Prod.snd h1
        rw [hs] at h0
        have hlz : mget lat sid 0 = 0 := orLoop_lat_zero_of _ _ _ _ _ h0
        rw [ho, hs]
        simp only [if_pos hlz]
        exact List.mem_cons_self _ _
      · have hrec := ih _ _ _ h2 h0
        by_cases hk : mget lat sid 0 = 0
        · simp only [if_pos hk]
          exact List.mem_cons_of_mem _ hrec
        · simp only [if_neg hk]
          exact hrec
    · simp only [if_neg hc] at h0 ⊢
      rcases List.mem_cons.mp hmem with h1 | h2
      · exfalso
        have hs : s = sid := congrArg Prod.snd h1
        rw [hs] at h0
        have h1' : mget (mset lat sid 1) sid 0 = 1 := mget_mset_self _ _ _ _
        have := orLoop_lat_one rest (mset model sid 1)
          (mset pv oid (mget model oid 0)) (mset lat sid 1) sid h1'
        rw [this] at h0
        exact absurd h0 (by decide)
      · exact ih _ _ _ h2 h0

theorem orLoop_model_zero (act : PairTable) (model pv lat : Model) (s : NodeId)
    (d : Val) (h0 : mget (OrEngine.loop act model pv lat).2.2.1 s 0 = 0) :
    mget (OrEngine.loop act model pv lat).1 s d =
      if ∃ q ∈ act, q.2 = s then 0 else mget model s d := by
  induction act generalizing model pv lat with
  | nil => simp [OrEngine.loop]
  | cons p rest ih =>
    obtain ⟨oid, sid⟩ := p
    simp only [OrEngine.loop] at h0 ⊢
    by_cases hc : mget model oid 0 = mget pv oid 0
    · simp only [if_pos hc] at h0 ⊢
      rw [ih _ _ _ h0]
      by_cases hsid : sid = s
      · subst hsid
        have hlz : mget lat sid 0 = 0 := orLoop_lat_zero_of _ _ _ _ _ h0
        have hex : ∃ q ∈ (oid, sid) :: rest, q.2 = sid :=
          ⟨(oid, sid), List.mem_cons_self _ _, rfl⟩
        by_cases hr : ∃ q ∈ rest, q.2 = sid
        · simp [hr, hex]
        · simp only [if_neg hr, if_pos hex]
          rw [mget_mset_self, hlz]
      · by_cases hr : ∃ q ∈ rest, q.2 = s
        · have hex : ∃ q ∈ (oid, sid) :: rest, q.2 = s := by
            obtain ⟨q, hq, hq2⟩ := hr
            exact ⟨q, List.mem_cons_of_mem _ hq, hq2⟩
          simp [hr, hex]
        · have hnone : ¬ ∃ q ∈ (oid, sid) :: rest, q.2 = s := by
            intro ⟨q, hq, hq2⟩
            rcases List.mem_cons.mp hq with h1 | h2
            · rw [h1] at hq2
              exact hsid hq2
            · exact hr ⟨q, h2, hq2⟩
          simp only [if_neg hr, if_neg hnone]
          exact mget_mset_ne _ _ _ _ _ (Ne.symm hsid)
    · simp only [if_neg hc] at h0 ⊢
      by_cases hsid : sid = s
      · exfalso
        subst hsid
        have h1' : mget (mset lat sid 1) sid 0 = 1 := mget_mset_self _ _ _ _
        have := orLoop_lat_one rest (mset model sid 1)
          (mset pv oid (mget model oid 0)) (mset lat sid 1) sid h1'
        rw [this] at h0
        exact absurd h0 (by decide)
      · rw [ih _ _ _ h0]
        by_cases hr : ∃ q ∈ rest, q.2 = s
        · have hex : ∃ q ∈ (oid, sid) :: rest, q.2 = s := by
            obtain ⟨q, hq, hq2⟩ := hr
            exact ⟨q, List.mem_cons_of_mem _ hq, hq2⟩
          simp [hr, hex]
        · have hnone : ¬ ∃ q ∈ (oid, sid) :: rest, q.2 = s := by
            intro ⟨q, hq, hq2⟩
            rcases List.mem_cons.mp hq with h1 | h2
            · rw [h1] at hq2
              exact hsid hq2
            · exact hr ⟨q, h2, hq2⟩
          simp only [if_neg hr, if_neg hnone]
          exact mget_mset_ne _ _ _ _ _ (Ne.symm hsid)

/-- Complete effect of one OR pair-loop pass on a pair `(o, s)` whose
monitored id and shadow id are owned by it alone (no other pair of the
active list uses `o` or `s`, and no shadow id equals `o`). -/
theorem orLoop_pair (act : PairTable) (o s : NodeId) :
    ∀ (model pv lat : Model),
    (o, s) ∈ act → act.Nodup →
    (∀ q ∈ act, q.1 = o → q = (o, s)) →
    (∀ q ∈ act, q.2 = s → q = (o, s)) →
    (∀ q ∈ act, q.2 ≠ o) →
    (∀ d, mget (OrEngine.loop act model pv lat).2.1 o d = mget model o 0) ∧
    (∀ d, mget (OrEngine.loop act model pv lat).2.2.1 s d =
      if mget model o 0 = mget pv o 0 then mget lat s d else 1) ∧
    (∀ d, mget (OrEngine.loop act model pv lat).1 s d =
      if mget model o 0 = mget pv o 0 then mget lat s 0 else 1) ∧
    ((o, s) ∈ (OrEngine.loop act model pv lat).2.2.2 ↔
      (mget model o 0 = mget pv o 0 ∧ mget lat s 0 = 0)) := by
  induction act with
  | nil =>
    intro model pv lat hmem
    simp at hmem
  | cons p rest ih =>
    intro model pv lat hmem hnd huo hus hso
    by_cases hp : p = (o, s)
    · subst hp
      have hnotin : (o, s) ∉ rest := (List.nodup_cons.mp hnd).1
      have hrs : ∀ q ∈ rest, q.2 ≠ s := by
        intro q hq h2
        have := hus q (List.mem_cons_of_mem _ hq) h2
        exact hnotin (this ▸ hq)
      have hro : ∀ q ∈ rest, q.1 ≠ o := by
        intro q hq h2
        have := huo q (List.mem_cons_of_mem _ hq) h2
        exact hnotin (this ▸ hq)
      simp only [OrEngine.loop]
      by_cases hc : mget model o 0 = mget pv o 0
      · simp only [if_pos hc]
        refine ⟨?_, ?_, ?_, ?_⟩
        · intro d
          rw [orLoop_pv_frame _ _ _ _ _ _ hro, mget_mset_self]
        · intro d
          rw [orLoop_lat_frame _ _ _ _ _ _ hrs]
        · intro d
          rw [orLoop_model_frame _ _ _ _ _ _ hrs, mget_mset_self]
        · by_cases hk : mget lat s 0 = 0
          · simp only [if_pos hk]
            constructor
            · intro _; exact ⟨hc, hk⟩
            · intro _; exact List.mem_cons_self _ _
          · simp only [if_neg hk]
            constructor
            · intro hin
              exact absurd
                ((orLoop_active_sublist rest _ _ _).subset hin) hnotin
            · intro ⟨_, hk'⟩; exact absurd hk' hk
      · simp only [if_neg hc]
        refine ⟨?_, ?_, ?_, ?_⟩
        · intro d
          rw [orLoop_pv_frame _ _ _ _ _ _ hro, mget_mset_self]
        · intro d
          rw [orLoop_lat_frame _ _ _ _ _ _ hrs, mget_mset_self]
        · intro d
          rw [orLoop_model_frame _ _ _ _ _ _ hrs, mget_mset_self]
        · constructor
          · intro hin
            exact absurd
              ((orLoop_active_sublist rest _ _ _).subset hin) hnotin
          · intro ⟨hc', _⟩; exact absurd hc' hc
    · obtain ⟨oid, sid⟩ := p
      have hmem2 : (o, s) ∈ rest := by
        rcases List.mem_cons.mp hmem with h1 | h2
        · exact absurd h1.symm hp
        · exact h2
      have hpo : oid ≠ o := by
        intro he
        exact hp (huo (oid, sid) (List.mem_cons_self _ _) he)
      have hps : sid ≠ s := by
        intro he
        exact hp (hus (oid, sid) (List.mem_cons_self _ _) he)
      have hpso : sid ≠ o := hso (oid, sid) (List.mem_cons_self _ _)
      have hnd2 : rest.Nodup := List.Nodup.of_cons hnd
      have huo2 : ∀ q ∈ rest, q.1 = o → q = (o, s) :=
        fun q hq => huo q (List.mem_cons_of_mem _ hq)
      have hus2 : ∀ q ∈ rest, q.2 = s → q = (o, s) :=
        fun q hq => hus q (List.mem_cons_of_mem _ hq)
      have hso2 : ∀ q ∈ rest, q.2 ≠ o :=
        fun q hq => hso q (List.mem_cons_of_mem _ hq)
      simp only [OrEngine.loop]
      by_cases hc : mget model oid 0 = mget pv oid 0
      · simp only [if_pos hc]
        obtain ⟨ih1, ih2, ih3, ih4⟩ :=
          ih (mset model sid (mget lat sid 0)) (mset pv oid (mget model oid 0))
            lat hmem2 hnd2 huo2 hus2 hso2
        have hm : mget (mset model sid (mget lat sid 0)) o 0 = mget model o 0 :=
          mget_mset_ne _ _ _ _ _ (Ne.symm hpso)
        have hpv : mget (mset pv oid (mget model oid 0)) o 0 = mget pv o 0 :=
          mget_mset_ne _ _ _ _ _ (Ne.symm hpo)
        refine ⟨?_, ?_, ?_, ?_⟩
        · intro d
          rw [ih1 d, hm]
        · intro d
          rw [ih2 d, hm, hpv]
        · intro d
          rw [ih3 d, hm, hpv]
        · have hacc := ih4
          rw [hm, hpv] at hacc
          by_cases hk : mget lat sid 0 = 0
          · simp only [if_pos hk, List.mem_cons]
            rw [← hacc]
            constructor
            · intro h
              rcases h with h1 | h2
              · exact absurd h1.symm hp
              · exact h2
            · intro h; exact Or.inr h
          · simp only [if_neg hk]
            exact hacc
      · simp only [if_neg hc]
        obtain ⟨ih1, ih2, ih3, ih4⟩ :=
          ih (mset model sid 1) (mset pv oid (mget model oid 0))
            (mset lat sid 1) hmem2 hnd2 huo2 hus2 hso2
        have hm : mget (mset model sid 1) o 0 = mget model o 0 :=
          mget_mset_ne _ _ _ _ _ (Ne.symm hpso)
        have hpv : mget (mset pv oid (mget model oid 0)) o 0 = mget pv o 0 :=
          mget_mset_ne _ _ _ _ _ (Ne.symm hpo)
        have hlat : ∀ d, mget (mset lat sid 1) s d = mget lat s d :=
          fun d => mget_mset_ne _ _ _ _ _ (Ne.symm hps)
        refine ⟨?_, ?_, ?_, ?_⟩
        · intro d
          rw [ih1 d, hm]
        · intro d
          rw [ih2 d, hm, hpv, hlat d]
        · intro d
          rw [ih3 d, hm, hpv, hlat 0]
        · have hacc := ih4
          rw [hm, hpv, hlat 0] at hacc
          exact hacc

/-! ### Effect lemmas for the AND pair loop -/

theorem andLoop_pv (act : PairTable) (model pv lat : Model) (k : NodeId) (d : Val) :
    mget (AndEngine.loop act model pv lat).1 k d =
      if ∃ q ∈ act, q.1 = k then mget model k 0 else mget pv k d := by
  induction act generalizing pv lat with
  | nil => simp [AndEngine.loop]
  | cons p rest ih =>
    obtain ⟨oid, sid⟩ := p
    simp only [AndEngine.loop]
    rw [ih]
    by_cases hr : ∃ q ∈ rest, q.1 = k
    · have hex : ∃ q ∈ (oid, sid) :: rest, q.1 = k := by
        obtain ⟨q, hq, hq1⟩ := hr
        exact ⟨q, List.mem_cons_of_mem _ hq, hq1⟩
      simp [hr, hex]
    · by_cases ho : oid = k
      · have hex : ∃ q ∈ (oid, sid) :: rest, q.1 = k :=
          ⟨(oid, sid), List.mem_cons_self _ _, ho⟩
        simp only [if_neg hr, if_pos hex]
        rw [← ho, mget_mset_self, ho]
      · have hnone : ¬ ∃ q ∈ (oid, sid) :: rest, q.1 = k := by
          intro ⟨q, hq, hq1⟩
          rcases List.mem_cons.mp hq with h1 | h2
          · rw [h1] at hq1
            exact ho hq1
          · exact hr ⟨q, h2, hq1⟩
        simp only [if_neg hr, if_neg hnone]
        exact mget_mset_ne _ _ _ _ _ (Ne.symm ho)

theorem andLoop_lat_frame (act : PairTable) (model pv lat : Model) (k : NodeId)
    (d : Val) (h : ∀ q ∈ act, q.2 ≠ k) :
    mget (AndEngine.loop act model pv lat).2.1 k d = mget lat k d := by
  induction act generalizing pv lat with
  | nil => rfl
  | cons p rest ih =>
    obtain ⟨oid, sid⟩ := p
    have hs : sid ≠ k := h (oid, sid) (List.mem_cons_self _ _)
    have hr : ∀ q ∈ rest, q.2 ≠ k := fun q hq => h q (List.mem_cons_of_mem _ hq)
    simp only [AndEngine.loop]
    rw [ih _ _ hr]
    by_cases hc : mget model oid 0 = mget pv oid 0
    · simp [hc]
    · simp [hc, mget_mset_ne _ _ _ _ _ (Ne.symm hs)]

theorem andLoop_lat_zero (act : PairTable) (model pv lat : Model) (k : NodeId)
    (h : mget lat k 1 = 0) :
    mget (AndEngine.loop act model pv lat).2.1 k 1 = 0 := by
  induction act generalizing pv lat with
  | nil => exact h
  | cons p rest ih =>
    obtain ⟨oid, sid⟩ := p
    simp only [AndEngine.loop]
    refine ih _ _ ?_
    by_cases hc : mget model oid 0 = mget pv oid 0
    · simpa [hc]
    · simp only [if_neg hc]
      by_cases hk : k = sid
      · rw [hk, mget_mset_self]
      · rw [mget_mset_ne _ _ _ _ _ hk]
        exact h

theorem andLoop_lat_cases (act : PairTable) (model pv lat : Model) (k : NodeId) :
    mget (AndEngine.loop act model pv lat).2.1 k 1 = mget lat k 1 ∨
    mget (AndEngine.loop act model pv lat).2.1 k 1 = 0 := by
  induction act generalizing pv lat with
  | nil => exact Or.inl rfl
  | cons p rest ih =>
    obtain ⟨oid, sid⟩ := p
    simp only [AndEngine.loop]
    by_cases hc : mget model oid 0 = mget pv oid 0
    · simp only [if_pos hc]
      exact ih _ _
    · simp only [if_neg hc]
      rcases ih (mset pv oid (mget model oid 0)) (mset lat sid 0) with h | h
      · by_cases hk : k = sid
        · right
          rw [h, hk, mget_mset_self]
        · left
          rw [h, mget_mset_ne _ _ _ _ _ hk]
      · exact Or.inr h

theorem andLoop_lat_one_of (act : PairTable) (model pv lat : Model) (k : NodeId)
    (h : mget (AndEngine.loop act model pv lat).2.1 k 1 = 1) :
    mget lat k 1 = 1 := by
  rcases andLoop_lat_cases act model pv lat k with hcase | hcase
  · rw [← hcase]; exact h
  · rw [hcase] at h; exact absurd h (by decide)

theorem andLoop_active_sublist (act : PairTable) (model pv lat : Model) :
    (AndEngine.loop act model pv lat).2.2.Sublist act := by
  induction act generalizing pv lat with
  | nil => exact List.Sublist.refl _
  | cons p rest ih =>
    obtain ⟨oid, sid⟩ := p
    simp only [AndEngine.loop]
    by_cases hk :
        mget (if mget model oid 0 = mget pv oid 0 then lat else mset lat sid 0) sid 1 = 1
    · simp only [if_pos hk]
      exact List.Sublist.cons₂ _ (ih _ _)
    · simp only [if_neg hk]
      exact List.Sublist.cons _ (ih _ _)

/-- Complete effect of one AND pair-loop pass on a pair `(o, s)` that alone
owns its monitored id and shadow id within the active list. -/
theorem andLoop_pair (act : PairTable) (o s : NodeId) :
    ∀ (model pv lat : Model),
    (o, s) ∈ act → act.Nodup →
    (∀ q ∈ act, q.1 = o → q = (o, s)) →
    (∀ q ∈ act, q.2 = s → q = (o, s)) →
    (∀ d, mget (AndEngine.loop act model pv lat).2.1 s d =
      if mget model o 0 = mget pv o 0 then mget lat s d else 0) ∧
    ((o, s) ∈ (AndEngine.loop act model pv lat).2.2 ↔
      (if mget model o 0 = mget pv o 0 then mget lat s 1 else 0) = 1) := by
  induction act with
  | nil =>
    intro model pv lat hmem
    simp at hmem
  | cons p rest ih =>
    intro model pv lat hmem hnd huo hus
    by_cases hp : p = (o, s)
    · subst hp
      have hnotin : (o, s) ∉ rest := (List.nodup_cons.mp hnd).1
      have hrs : ∀ q ∈ rest, q.2 ≠ s := by
        intro q hq h2
        have := hus q (List.mem_cons_of_mem _ hq) h2
        exact hnotin (this ▸ hq)
      simp only [AndEngine.loop]
      by_cases hc : mget model o 0 = mget pv o 0
      · simp only [if_pos hc]
        refine ⟨?_, ?_⟩
        · intro d
          rw [andLoop_lat_frame _ _ _ _ _ _ hrs]
        · by_cases hk : mget lat s 1 = 1
          · simp only [if_pos hk]
            constructor
            · intro _; exact hk
            · intro _; exact List.mem_cons_self _ _
          · simp only [if_neg hk]
            constructor
            · intro hin
              exact absurd
                ((andLoop_active_sublist rest _ _ _).subset hin) hnotin
            · intro hk'; exact absurd hk' hk
      · simp only [if_neg hc]
        have hms : mget (mset lat s 0) s 1 = 0 := mget_mset_self _ _ _ _
        refine ⟨?_, ?_⟩
        · intro d
          rw [andLoop_lat_frame _ _ _ _ _ _ hrs, mget_mset_self]
        · have hcond : ¬ mget (mset lat s 0) s 1 = 1 := by
            rw [hms]; decide
          simp only [if_neg hcond]
          constructor
          · intro hin
            exact absurd
              ((andLoop_active_sublist rest _ _ _).subset hin) hnotin
          · intro h0
            exact absurd h0 (by decide)
    · obtain ⟨oid, sid⟩ := p
      have hmem2 : (o, s) ∈ rest := by
        rcases List.mem_cons.mp hmem with h1 | h2
        · exact absurd h1.symm hp
        · exact h2
      have hpo : oid ≠ o := by
        intro he
        exact hp (huo (oid, sid) (List.mem_cons_self _ _) he)
      have hps : sid ≠ s := by
        intro he
        exact hp (hus (oid, sid) (List.mem_cons_self _ _) he)
      have hnd2 : rest.Nodup := List.Nodup.of_cons hnd
      have huo2 : ∀ q ∈ rest, q.1 = o → q = (o, s) :=
        fun q hq => huo q (List.mem_cons_of_mem _ hq)
      have hus2 : ∀ q ∈ rest, q.2 = s → q = (o, s) :=
        fun q hq => hus q (List.mem_cons_of_mem _ hq)
      simp only [AndEngine.loop]
      obtain ⟨ih1, ih2⟩ :=
        ih model (mset pv oid (mget model oid 0))
          (if mget model oid 0 = mget pv oid 0 then lat else mset lat sid 0)
          hmem2 hnd2 huo2 hus2
      have hpv : mget (mset pv oid (mget model oid 0)) o 0 = mget pv o 0 :=
        mget_mset_ne _ _ _ _ _ (Ne.symm hpo)
      have hlat : ∀ d,
          mget (if mget model oid 0 = mget pv oid 0 then lat else mset lat sid 0) s d =
            mget lat s d := by
        intro d
        by_cases hc : mget model oid 0 = mget pv oid 0
        · rw [if_pos hc]
        · rw [if_neg hc, mget_mset_ne _ _ _ _ _ (Ne.symm hps)]
      refine ⟨?_, ?_⟩
      · intro d
        rw [ih1 d, hpv, hlat d]
      · have hacc := ih2
        rw [hpv, hlat 1] at hacc
        rw [← hacc]
        by_cases hk :
            mget (if mget model oid 0 = mget pv oid 0 then lat else mset lat sid 0) sid 1 = 1
        · simp only [if_pos hk, List.mem_cons]
          constructor
          · intro h
            rcases h with h1 | h2
            · exact absurd h1.symm hp
            · exact h2
          · intro h; exact Or.inr h
        · simp only [if_neg hk]

/-! ### Key-set and nodup preservation through the pair loops -/

theorem orLoop_lat_nodup (act : PairTable) (model pv lat : Model)
    (h : NodupKeys lat) : NodupKeys (OrEngine.loop act model pv lat).2.2.1 := by
  induction act generalizing model pv lat with
  | nil => exact h
  | cons p rest ih =>
    obtain ⟨oid, sid⟩ := p
    simp only [OrEngine.loop]
    by_cases hc : mget model oid 0 = mget pv oid 0
    · simp only [if_pos hc]
      exact ih _ _ _ h
    · simp only [if_neg hc]
      exact ih _ _ _ (NodupKeys.mset _ _ _ h)

theorem orLoop_lat_hasKey_mono (act : PairTable) (model pv lat : Model)
    (k : NodeId) (h : hasKey lat k = true) :
    hasKey (OrEngine.loop act model pv lat).2.2.1 k = true := by
  induction act generalizing model pv lat with
  | nil => exact h
  | cons p rest ih =>
    obtain ⟨oid, sid⟩ := p
    simp only [OrEngine.loop]
    by_cases hc : mget model oid 0 = mget pv oid 0
    · simp only [if_pos hc]
      exact ih _ _ _ h
    · simp only [if_neg hc]
      refine ih _ _ _ ?_
      rw [hasKey_mset]
      by_cases hk : k = sid <;> simp [hk, h]

theorem orLoop_lat_hasKey_cases (act : PairTable) (model pv lat : Model)
    (k : NodeId) (h : hasKey (OrEngine.loop act model pv lat).2.2.1 k = true) :
    hasKey lat k = true ∨ k ∈ act.map Prod.snd := by
  induction act generalizing model pv lat with
  | nil => exact Or.inl h
  | cons p rest ih =>
    obtain ⟨oid, sid⟩ := p
    simp only [OrEngine.loop] at h
    by_cases hc : mget model oid 0 = mget pv oid 0
    · simp only [if_pos hc] at h
      rcases ih _ _ _ h with h1 | h2
      · exact Or.inl h1
      · exact Or.inr (List.mem_cons_of_mem _ h2)
    · simp only [if_neg hc] at h
      rcases ih _ _ _ h with h1 | h2
      · rw [hasKey_mset] at h1
        by_cases hk : k = sid
        · exact Or.inr (by simp [hk])
        · rw [if_neg hk] at h1
          exact Or.inl h1
      · exact Or.inr (List.mem_cons_of_mem _ h2)

theorem andLoop_lat_nodup (act : PairTable) (model pv lat : Model)
    (h : NodupKeys lat) : NodupKeys (AndEngine.loop act model pv lat).2.1 := by
  induction act generalizing pv lat with
  | nil => exact h
  | cons p rest ih =>
    obtain ⟨oid, sid⟩ := p
    simp only [AndEngine.loop]
    refine ih _ _ ?_
    by_cases hc : mget model oid 0 = mget pv oid 0
    · simpa [hc]
    · simp only [if_neg hc]
      exact NodupKeys.mset _ _ _ h

theorem andLoop_lat_hasKey_mono (act : PairTable) (model pv lat : Model)
    (k : NodeId) (h : hasKey lat k = true) :
    hasKey (AndEngine.loop act model pv lat).2.1 k = true := by
  induction act generalizing pv lat with
  | nil => exact h
  | cons p rest ih =>
    obtain ⟨oid, sid⟩ := p
    simp only [AndEngine.loop]
    refine ih _ _ ?_
    by_cases hc : mget model oid 0 = mget pv oid 0
    · simpa [hc]
    · simp only [if_neg hc]
      rw [hasKey_mset]
      by_cases hk : k = sid <;> simp [hk, h]

theorem andLoop_lat_hasKey_cases (act : PairTable) (model pv lat : Model)
    (k : NodeId) (h : hasKey (AndEngine.loop act model pv lat).2.1 k = true) :
    hasKey lat k = true ∨ k ∈ act.map Prod.snd := by
  induction act generalizing pv lat with
  | nil => exact Or.inl h
  | cons p rest ih =>
    obtain ⟨oid, sid⟩ := p
    simp only [AndEngine.loop] at h
    rcases ih _ _ h with h1 | h2
    · by_cases hc : mget model oid 0 = mget pv oid 0
      · rw [if_pos hc] at h1
        exact Or.inl h1
      · rw [if_neg hc, hasKey_mset] at h1
        by_cases hk : k = sid
        · exact Or.inr (by simp [hk])
        · rw [if_neg hk] at h1
          exact Or.inl h1
    · exact Or.inr (List.mem_cons_of_mem _ h2)

/-! ### Effect lemmas for the all-pairs reference loops (C9) -/

theorem orRefLoop_model_frame (act : PairTable) (model pv lat : Model)
    (k : NodeId) (d : Val) (h : ∀ q ∈ act, q.2 ≠ k) :
    mget (OrRef.loop act model pv lat).1 k d = mget model k d := by
  induction act generalizing model pv lat with
  | nil => rfl
  | cons p rest ih =>
    obtain ⟨oid, sid⟩ := p
    have hs : sid ≠ k := h (oid, sid) (List.mem_cons_self _ _)
    have hr : ∀ q ∈ rest, q.2 ≠ k := fun q hq => h q (List.mem_cons_of_mem _ hq)
    simp only [OrRef.loop]
    by_cases hc : mget model oid 0 = mget pv oid 0
    · simp only [if_pos hc]
      rw [ih _ _ _ hr, mget_mset_ne _ _ _ _ _ (Ne.symm hs)]
    · simp only [if_neg hc]
      rw [ih _ _ _ hr, mget_mset_ne _ _ _ _ _ (Ne.symm hs)]

theorem orRefLoop_pv_frame (act : PairTable) (model pv lat : Model)
    (k : NodeId) (d : Val) (h : ∀ q ∈ act, q.1 ≠ k) :
    mget (OrRef.loop act model pv lat).2.1 k d = mget pv k d := by
  induction act generalizing model pv lat with
  | nil => rfl
  | cons p rest ih =>
    obtain ⟨oid, sid⟩ := p
    have ho : oid ≠ k := h (oid, sid) (List.mem_cons_self _ _)
    have hr : ∀ q ∈ rest, q.1 ≠ k := fun q hq => h q (List.mem_cons_of_mem _ hq)
    simp only [OrRef.loop]
    by_cases hc : mget model oid 0 = mget pv oid 0
    · simp only [if_pos hc]
      rw [ih _ _ _ hr, mget_mset_ne _ _ _ _ _ (Ne.symm ho)]
    · simp only [if_neg hc]
      rw [ih _ _ _ hr, mget_mset_ne _ _ _ _ _ (Ne.symm ho)]

theorem orRefLoop_lat_frame (act : PairTable) (model pv lat : Model)
    (k : NodeId) (d : Val) (h : ∀ q ∈ act, q.2 ≠ k) :
    mget (OrRef.loop act model pv lat).2.2 k d = mget lat k d := by
  induction act generalizing model pv lat with
  | nil => rfl
  | cons p rest ih =>
    obtain ⟨oid, sid⟩ := p
    have hs : sid ≠ k := h (oid, sid) (List.mem_cons_self _ _)
    have hr : ∀ q ∈ rest, q.2 ≠ k := fun q hq => h q (List.mem_cons_of_mem _ hq)
    simp only [OrRef.loop]
    by_cases hc : mget model oid 0 = mget pv oid 0
    · simp only [if_pos hc]
      rw [ih _ _ _ hr]
    · simp only [if_neg hc]
      rw [ih _ _ _ hr, mget_mset_ne _ _ _ _ _ (Ne.symm hs)]

theorem orRefLoop_lat_nodup (act : PairTable) (model pv lat : Model)
    (h : NodupKeys lat) : NodupKeys (OrRef.loop act model pv lat).2.2 := by
  induction act generalizing model pv lat with
  | nil => exact h
  | cons p rest ih =>
    obtain ⟨oid, sid⟩ := p
    simp only [OrRef.loop]
    by_cases hc : mget model oid 0 = mget pv oid 0
    · simp only [if_pos hc]
      exact ih _ _ _ h
    · simp only [if_neg hc]
      exact ih _ _ _ (NodupKeys.mset _ _ _ h)

theorem orRefLoop_lat_hasKey_mono (act : PairTable) (model pv lat : Model)
    (k : NodeId) (h : hasKey lat k = true) :
    hasKey (OrRef.loop act model pv lat).2.2 k = true := by
  induction act generalizing model pv lat with
  | nil => exact h
  | cons p rest ih =>
    obtain ⟨oid, sid⟩ := p
    simp only [OrRef.loop]
    by_cases hc : mget model oid 0 = mget pv oid 0
    · simp only [if_pos hc]
      exact ih _ _ _ h
    · simp only [if_neg hc]
      refine ih _ _ _ ?_
      rw [hasKey_mset]
      by_cases hk : k = sid <;> simp [hk, h]

/-- Complete effect of one all-pairs OR reference pass on a pair `(o, s)`
that alone owns its ids. -/
theorem orRefLoop_pair (act : PairTable) (o s : NodeId) :
    ∀ (model pv lat : Model),
    (o, s) ∈ act → act.Nodup →
    (∀ q ∈ act, q.1 = o → q = (o, s)) →
    (∀ q ∈ act, q.2 = s → q = (o, s)) →
    (∀ q ∈ act, q.2 ≠ o) →
    (∀ d, mget (OrRef.loop act model pv lat).2.1 o d = mget model o 0) ∧
    (∀ d, mget (OrRef.loop act model pv lat).2.2 s d =
      if mget model o 0 = mget pv o 0 then mget lat s d else 1) ∧
    (∀ d, mget (OrRef.loop act model pv lat).1 s d =
      if mget model o 0 = mget pv o 0 then mget lat s 0 else 1) := by
  induction act with
  | nil =>
    intro model pv lat hmem
    simp at hmem
  | cons p rest ih =>
    intro model pv lat hmem hnd huo hus hso
    by_cases hp : p = (o, s)
    · subst hp
      have hnotin : (o, s) ∉ rest := (List.nodup_cons.mp hnd).1
      have hrs : ∀ q ∈ rest, q.2 ≠ s := by
        intro q hq h2
        have := hus q (List.mem_cons_of_mem _ hq) h2
        exact hnotin (this ▸ hq)
      have hro : ∀ q ∈ rest, q.1 ≠ o := by
        intro q hq h2
        have := huo q (List.mem_cons_of_mem _ hq) h2
        exact hnotin (this ▸ hq)
      simp only [OrRef.loop]
      by_cases hc : mget model o 0 = mget pv o 0
      · simp only [if_pos hc]
        refine ⟨?_, ?_, ?_⟩
        · intro d
          rw [orRefLoop_pv_frame _ _ _ _ _ _ hro, mget_mset_self]
        · intro d
          rw [orRefLoop_lat_frame _ _ _ _ _ _ hrs]
        · intro d
          rw [orRefLoop_model_frame _ _ _ _ _ _ hrs, mget_mset_self]
      · simp only [if_neg hc]
        refine ⟨?_, ?_, ?_⟩
        · intro d
          rw [orRefLoop_pv_frame _ _ _ _ _ _ hro, mget_mset_self]
        · intro d
          rw [orRefLoop_lat_frame _ _ _ _ _ _ hrs, mget_mset_self]
        · intro d
          rw [orRefLoop_model_frame _ _ _ _ _ _ hrs, mget_mset_self]
    · obtain ⟨oid, sid⟩ := p
      have hmem2 : (o, s) ∈ rest := by
        rcases List.mem_cons.mp hmem with h1 | h2
        · exact absurd h1.symm hp
        · exact h2
      have hpo : oid ≠ o := by
        intro he
        exact hp (huo (oid, sid) (List.mem_cons_self _ _) he)
      have hps : sid ≠ s := by
        intro he
        exact hp (hus (oid, sid) (List.mem_cons_self _ _) he)
      have hpso : sid ≠ o := hso (oid, sid) (List.mem_cons_self _ _)
      have hnd2 : rest.Nodup := List.Nodup.of_cons hnd
      have huo2 : ∀ q ∈ rest, q.1 = o → q = (o, s) :=
        fun q hq => huo q (List.mem_cons_of_mem _ hq)
      have hus2 : ∀ q ∈ rest, q.2 = s → q = (o, s) :=
        fun q hq => hus q (List.mem_cons_of_mem _ hq)
      have hso2 : ∀ q ∈ rest, q.2 ≠ o :=
        fun q hq => hso q (List.mem_cons_of_mem _ hq)
      simp only [OrRef.loop]
      by_cases hc : mget model oid 0 = mget pv oid 0
      · simp only [if_pos hc]
        obtain ⟨ih1, ih2, ih3⟩ :=
          ih (mset model sid (mget lat sid 0)) (mset pv oid (mget model oid 0))
            lat hmem2 hnd2 huo2 hus2 hso2
        have hm : mget (mset model sid (mget lat sid 0)) o 0 = mget model o 0 :=
          mget_mset_ne _ _ _ _ _ (Ne.symm hpso)
        have hpv : mget (mset pv oid (mget model oid 0)) o 0 = mget pv o 0 :=
          mget_mset_ne _ _ _ _ _ (Ne.symm hpo)
        exact ⟨fun d => by rw [ih1 d, hm],
               fun d => by rw [ih2 d, hm, hpv],
               fun d => by rw [ih3 d, hm, hpv]⟩
      · simp only [if_neg hc]
        obtain ⟨ih1, ih2, ih3⟩ :=
          ih (mset model sid 1) (mset pv oid (mget model oid 0))
            (mset lat sid 1) hmem2 hnd2 huo2 hus2 hso2
        have hm : mget (mset model sid 1) o 0 = mget model o 0 :=
          mget_mset_ne _ _ _ _ _ (Ne.symm hpso)
        have hpv : mget (mset pv oid (mget model oid 0)) o 0 = mget pv o 0 :=
          mget_mset_ne _ _ _ _ _ (Ne.symm hpo)
        have hlat : ∀ d, mget (mset lat sid 1) s d = mget lat s d :=
          fun d => mget_mset_ne _ _ _ _ _ (Ne.symm hps)
        exact ⟨fun d => by rw [ih1 d, hm],
               fun d => by rw [ih2 d, hm, hpv, hlat d],
               fun d => by rw [ih3 d, hm, hpv, hlat 0]⟩

theorem andRefLoop_pv (act : PairTable) (model pv lat : Model) (k : NodeId)
    (d : Val) :
    mget (AndRef.loop act model pv lat).1 k d =
      if ∃ q ∈ act, q.1 = k then mget model k 0 else mget pv k d := by
  induction act generalizing pv lat with
  | nil => simp [AndRef.loop]
  | cons p rest ih =>
    obtain ⟨oid, sid⟩ := p
    simp only [AndRef.loop]
    rw [ih]
    by_cases hr : ∃ q ∈ rest, q.1 = k
    · have hex : ∃ q ∈ (oid, sid) :: rest, q.1 = k := by
        obtain ⟨q, hq, hq1⟩ := hr
        exact ⟨q, List.mem_cons_of_mem _ hq, hq1⟩
      simp [hr, hex]
    · by_cases ho : oid = k
      · have hex : ∃ q ∈ (oid, sid) :: rest, q.1 = k :=
          ⟨(oid, sid), List.mem_cons_self _ _, ho⟩
        simp only [if_neg hr, if_pos hex]
        rw [← ho, mget_mset_self, ho]
      · have hnone : ¬ ∃ q ∈ (oid, sid) :: rest, q.1 = k := by
          intro ⟨q, hq, hq1⟩
          rcases List.mem_cons.mp hq with h1 | h2
          · rw [h1] at hq1
            exact ho hq1
          · exact hr ⟨q, h2, hq1⟩
        simp only [if_neg hr, if_neg hnone]
        exact mget_mset_ne _ _ _ _ _ (Ne.symm ho)

theorem andRefLoop_lat_frame (act : PairTable) (model pv lat : Model)
    (k : NodeId) (d : Val) (h : ∀ q ∈ act, q.2 ≠ k) :
    mget (AndRef.loop act model pv lat).2 k d = mget lat k d := by
  induction act generalizing pv lat with
  | nil => rfl
  | cons p rest ih =>
    obtain ⟨oid, sid⟩ := p
    have hs : sid ≠ k := h (oid, sid) (List.mem_cons_self _ _)
    have hr : ∀ q ∈ rest, q.2 ≠ k := fun q hq => h q (List.mem_cons_of_mem _ hq)
    simp only [AndRef.loop]
    rw [ih _ _ hr]
    by_cases hc : mget model oid 0 = mget pv oid 0
    · simp [hc]
    · simp [hc, mget_mset_ne _ _ _ _ _ (Ne.symm hs)]

theorem andRefLoop_lat_nodup (act : PairTable) (model pv lat : Model)
    (h : NodupKeys lat) : NodupKeys (AndRef.loop act model pv lat).2 := by
  induction act generalizing pv lat with
  | nil => exact h
  | cons p rest ih =>
    obtain ⟨oid, sid⟩ := p
    simp only [AndRef.loop]
    refine ih _ _ ?_
    by_cases hc : mget model oid 0 = mget pv oid 0
    · simpa [hc]
    · simp only [if_neg hc]
      exact NodupKeys.mset _ _ _ h

theorem andRefLoop_lat_hasKey_mono (act : PairTable) (model pv lat : Model)
    (k : NodeId) (h : hasKey lat k = true) :
    hasKey (AndRef.loop act model pv lat).2 k = true := by
  induction act generalizing pv lat with
  | nil => exact h
  | cons p rest ih =>
    obtain ⟨oid, sid⟩ := p
    simp only [AndRef.loop]
    refine ih _ _ ?_
    by_cases hc : mget model oid 0 = mget pv oid 0
    · simpa [hc]
    · simp only [if_neg hc]
      rw [hasKey_mset]
      by_cases hk : k = sid <;> simp [hk, h]

/-- Complete effect of one all-pairs AND reference pass on a pair `(o, s)`
that alone owns its ids. -/
theorem andRefLoop_pair (act : PairTable) (o s : NodeId) :
    ∀ (model pv lat : Model),
    (o, s) ∈ act → act.Nodup →
    (∀ q ∈ act, q.1 = o → q = (o, s)) →
    (∀ q ∈ act, q.2 = s → q = (o, s)) →
    (∀ d, mget (AndRef.loop act model pv lat).2 s d =
      if mget model o 0 = mget pv o 0 then mget lat s d else 0) := by
  induction act with
  | nil =>
    intro model pv lat hmem
    simp at hmem
  | cons p rest ih =>
    intro model pv lat hmem hnd huo hus
    by_cases hp : p = (o, s)
    · subst hp
      have hnotin : (o, s) ∉ rest := (List.nodup_cons.mp hnd).1
      have hrs : ∀ q ∈ rest, q.2 ≠ s := by
        intro q hq h2
        have := hus q (List.mem_cons_of_mem _ hq) h2
        exact hnotin (this ▸ hq)
      simp only [AndRef.loop]
      intro d
      rw [andRefLoop_lat_frame _ _ _ _ _ _ hrs]
      by_cases hc : mget model o 0 = mget pv o 0
      · simp [hc]
      · simp [hc, mget_mset_self]
    · obtain ⟨oid, sid⟩ := p
      have hmem2 : (o, s) ∈ rest := by
        rcases List.mem_cons.mp hmem with h1 | h2
        · exact absurd h1.symm hp
        · exact h2
      have hpo : oid ≠ o := by
        intro he
        exact hp (huo (oid, sid) (List.mem_cons_self _ _) he)
      have hps : sid ≠ s := by
        intro he
        exact hp (hus (oid, sid) (List.mem_cons_self _ _) he)
      have hnd2 : rest.Nodup := List.Nodup.of_cons hnd
      have huo2 : ∀ q ∈ rest, q.1 = o → q = (o, s) :=
        fun q hq => huo q (List.mem_cons_of_mem _ hq)
      have hus2 : ∀ q ∈ rest, q.2 = s → q = (o, s) :=
        fun q hq => hus q (List.mem_cons_of_mem _ hq)
      simp only [AndRef.loop]
      intro d
      have ih1 := ih model (mset pv oid (mget model oid 0))
        (if mget model oid 0 = mget pv oid 0 then lat else mset lat sid 0)
        hmem2 hnd2 huo2 hus2 d
      have hpv : mget (mset pv oid (mget model oid 0)) o 0 = mget pv o 0 :=
        mget_mset_ne _ _ _ _ _ (Ne.symm hpo)
      have hlat : ∀ d',
          mget (if mget model oid 0 = mget pv oid 0 then lat else mset lat sid 0) s d' =
            mget lat s d' := by
        intro d'
        by_cases hc : mget model oid 0 = mget pv oid 0
        · rw [if_pos hc]
        · rw [if_neg hc, mget_mset_ne _ _ _ _ _ (Ne.symm hps)]
      rw [ih1, hpv, hlat d]

/-! ### Pure per-pair latch dynamics

The streams of per-snapshot shadow values that one pair produces, as pure
functions of the monitored id's raw value stream. -/

/-- OR transition: a latched pair stays 1; a watching pair latches 1 on a
change. -/
def orNext (l p v : Val) : Val := if v = p then l else 1

def orGoSeq (l p : Val) : List Val → List Val
  | [] => []
  | v :: vs => orNext l p v :: orGoSeq (orNext l p v) v vs

def orGoFinal (l p : Val) : List Val → Val
  | [] => l
  | v :: vs => orGoFinal (orNext l p v) v vs

/-- Entry stream of a fresh OR run: the first snapshot is forced to 0 and
seeds the preceding value. -/
def orSeq : List Val → List Val
  | [] => []
  | v :: vs => 0 :: orGoSeq 0 v vs

def orFinal : List Val → Val
  | [] => 0
  | v :: vs => orGoFinal 0 v vs

/-- AND steady-state transition: only a still-active (`l = 1`) pair compares;
any other latched value is frozen because the pair has left the active set. -/
def andNext (l p v : Val) : Val := if l = 1 then (if v = p then 1 else 0) else l

def andGoSeq (l p : Val) : List Val → List Val
  | [] => []
  | v :: vs => andNext l p v :: andGoSeq (andNext l p v) v vs

def andGoFinal (l p : Val) : List Val → Val
  | [] => l
  | v :: vs => andGoFinal (andNext l p v) v vs

/-- First-snapshot AND transition: every pair starts in the active set, so
the comparison happens regardless of the seeded value. -/
def andFirstVal (l p v : Val) : Val := if v = p then l else 0

def andSeq (l p : Val) : List Val → List Val
  | [] => []
  | v :: vs => andFirstVal l p v :: andGoSeq (andFirstVal l p v) v vs

def andFinal (l p : Val) : List Val → Val
  | [] => l
  | v :: vs => andGoFinal (andFirstVal l p v) v vs

/-- Reference AND transition (all pairs re-evaluated every snapshot): the
comparison happens at every step. -/
def andRefSeq (l p : Val) : List Val → List Val
  | [] => []
  | v :: vs => andFirstVal l p v :: andRefSeq (andFirstVal l p v) v vs

def andRefFinal (l p : Val) : List Val → Val
  | [] => l
  | v :: vs => andRefFinal (andFirstVal l p v) v vs

/-! ### Well-formed pair tables -/

/-- A table is separated when monitored ids are pairwise distinct (they are
the keys of the Python dict), shadow ids are pairwise distinct, and no
monitored id doubles as a shadow id. -/
def Separated (pairs : PairTable) : Prop :=
  (oids pairs).Nodup ∧ (sids pairs).Nodup ∧ ∀ k ∈ oids pairs, k ∉ sids pairs

theorem eq_of_nodup_map {α β : Type} (f : α → β) (l : List α)
    (h : (l.map f).Nodup) :
    ∀ p ∈ l, ∀ q ∈ l, f p = f q → p = q := by
  induction l with
  | nil => intro p hp; simp at hp
  | cons a rest ih =>
    intro p hp q hq hfq
    have hna : f a ∉ rest.map f := (List.nodup_cons.mp h).1
    have hrest := (List.nodup_cons.mp h).2
    rcases List.mem_cons.mp hp with hp1 | hp2 <;>
      rcases List.mem_cons.mp hq with hq1 | hq2
    · rw [hp1, hq1]
    · exfalso
      apply hna
      rw [hp1] at hfq
      exact List.mem_map.mpr ⟨q, hq2, hfq.symm⟩
    · exfalso
      apply hna
      rw [hq1] at hfq
      exact List.mem_map.mpr ⟨p, hp2, hfq⟩
    · exact ih hrest p hp2 q hq2 hfq

theorem sep_nodup (pairs : PairTable) (h : Separated pairs) : pairs.Nodup :=
  List.Nodup.of_map Prod.fst h.1

theorem sep_huo (pairs : PairTable) (o s : NodeId) (hsep : Separated pairs)
    (hmem : (o, s) ∈ pairs) : ∀ q ∈ pairs, q.1 = o → q = (o, s) := by
  intro q hq hq1
  exact eq_of_nodup_map Prod.fst pairs hsep.1 q hq (o, s) hmem hq1

theorem sep_hus (pairs : PairTable) (o s : NodeId) (hsep : Separated pairs)
    (hmem : (o, s) ∈ pairs) : ∀ q ∈ pairs, q.2 = s → q = (o, s) := by
  intro q hq hq2
  exact eq_of_nodup_map Prod.snd pairs hsep.2.1 q hq (o, s) hmem hq2

theorem sep_hso (pairs : PairTable) (o : NodeId) (hsep : Separated pairs)
    (ho : o ∈ oids pairs) : ∀ q ∈ pairs, q.2 ≠ o := by
  intro q hq hq2
  exact hsep.2.2 o ho (hq2 ▸ List.mem_map.mpr ⟨q, hq, rfl⟩)

theorem mem_oids (pairs : PairTable) (o s : NodeId) (hmem : (o, s) ∈ pairs) :
    o ∈ oids pairs :=
  List.mem_map.mpr ⟨(o, s), hmem, rfl⟩

theorem mem_sids (pairs : PairTable) (o s : NodeId) (hmem : (o, s) ∈ pairs) :
    s ∈ sids pairs :=
  List.mem_map.mpr ⟨(o, s), hmem, rfl⟩

theorem sublist_map_subset {α β : Type} (f : α → β) (l1 l2 : List α)
    (h : l1.Sublist l2) : ∀ b ∈ l1.map f, b ∈ l2.map f := by
  intro b hb
  obtain ⟨a, ha, rfl⟩ := List.mem_map.mp hb
  exact List.mem_map.mpr ⟨a, h.subset ha, rfl⟩

/-- The zero-write of the OR engine's first snapshot. -/
theorem zeroFold_mget (lat m : Model) (k : NodeId) (d : Val) :
    mget (lat.foldl (fun acc e => mset acc e.1 0) m) k d =
      if hasKey lat k = true then 0 else mget m k d := by
  have h := mget_foldl_mset lat Prod.fst (fun _ => 0) m k d
  rw [h]
  by_cases hk : hasKey lat k = true
  · rw [if_pos ((hasKey_iff_mem_keys _ _).mp hk), if_pos hk]
  · rw [if_neg (fun hm => hk ((hasKey_iff_mem_keys _ _).mpr hm)), if_neg hk]

/-! ### Run invariants of the OR engine -/

/-- Invariant carried by the OR engine's state along any run from the fresh
initial state: the latch map binds exactly the table's shadow ids, without
duplicates, to 0 or 1; the active list is a sublist of the table; and every
pair whose latch is still 0 is still active. -/
def OrInv (pairs : PairTable) (st : OrEngine.St) : Prop :=
  NodupKeys st.shadow_latched ∧
  (∀ k, hasKey st.shadow_latched k = true ↔ k ∈ sids pairs) ∧
  st.active.Sublist pairs ∧
  (∀ p ∈ pairs, mget st.shadow_latched p.2 0 = 0 → p ∈ st.active) ∧
  (∀ k, mget st.shadow_latched k 0 = 0 ∨ mget st.shadow_latched k 0 = 1)

theorem orInv_init (pairs : PairTable) :
    OrInv pairs ⟨[], initLatched pairs, pairs⟩ := by
  refine ⟨initLatched_nodup pairs, ?_, List.Sublist.refl _, ?_, ?_⟩
  · intro k
    rw [initLatched_hasKey]
    by_cases h : k ∈ sids pairs <;> simp [h]
  · intro p hp _
    exact hp
  · intro k
    rw [initLatched_mget]
    by_cases h : k ∈ sids pairs <;> simp [h]

theorem orInv_step (pairs : PairTable) (st : OrEngine.St) (m : Model)
    (hinv : OrInv pairs st) : OrInv pairs (OrEngine.step st m).2 := by
  obtain ⟨ndk, keys, sub, watch, bin⟩ := hinv
  simp only [OrEngine.step]
  refine ⟨orLoop_lat_nodup _ _ _ _ ndk, ?_,
    (orLoop_active_sublist _ _ _ _).trans sub, ?_, ?_⟩
  · intro k
    constructor
    · intro h
      rcases orLoop_lat_hasKey_cases _ _ _ _ _ h with h1 | h2
      · exact (keys k).mp h1
      · exact sublist_map_subset Prod.snd _ _ sub k h2
    · intro h
      exact orLoop_lat_hasKey_mono _ _ _ _ _ ((keys k).mpr h)
  · intro p hp h0
    obtain ⟨po, ps⟩ := p
    exact orLoop_keep _ _ _ _ _ _
      (watch (po, ps) hp (orLoop_lat_zero_of _ _ _ _ _ h0)) h0
  · intro k
    rcases orLoop_lat_cases st.active m st.prev_vals st.shadow_latched k with h | h
    · rw [h]; exact bin k
    · rw [h]; right; rfl

theorem orInv_firstSnap (pairs : PairTable) (st : OrEngine.St) (m : Model)
    (hinv : OrInv pairs st) :
    OrInv pairs (OrEngine.firstSnap pairs st m).2 := by
  obtain ⟨ndk, keys, sub, watch, bin⟩ := hinv
  exact ⟨ndk, keys, sub, watch, bin⟩

/-- After any snapshot of the OR engine, the value written into the output
model at a table shadow id equals the new latched value. -/
theorem orStep_entry (pairs : PairTable) (st : OrEngine.St) (m : Model)
    (s : NodeId) (hinv : OrInv pairs st) (hs : s ∈ sids pairs) (d : Val) :
    mget (OrEngine.step st m).1 s d =
      mget (OrEngine.step st m).2.shadow_latched s 0 := by
  obtain ⟨ndk, keys, sub, watch, bin⟩ := hinv
  simp only [OrEngine.step]
  have ndk1 :
      NodupKeys (OrEngine.loop st.active m st.prev_vals st.shadow_latched).2.2.1 :=
    orLoop_lat_nodup _ _ _ _ ndk
  have hk1 :
      hasKey (OrEngine.loop st.active m st.prev_vals st.shadow_latched).2.2.1 s = true :=
    orLoop_lat_hasKey_mono _ _ _ _ _ ((keys s).mpr hs)
  have hbin1 :
      mget (OrEngine.loop st.active m st.prev_vals st.shadow_latched).2.2.1 s 0 = 0 ∨
      mget (OrEngine.loop st.active m st.prev_vals st.shadow_latched).2.2.1 s 0 = 1 := by
    rcases orLoop_lat_cases st.active m st.prev_vals st.shadow_latched s with h | h
    · rw [h]; exact bin s
    · rw [h]; right; rfl
  rcases hbin1 with h0 | h1
  · have hcond :
        ¬(hasKey (OrEngine.loop st.active m st.prev_vals st.shadow_latched).2.2.1 s = true ∧
          mget (OrEngine.loop st.active m st.prev_vals st.shadow_latched).2.2.1 s 0 = 1) := by
      intro ⟨_, hx⟩
      rw [h0] at hx
      exact absurd hx (by decide)
    rw [forceOnes_mget_nodup _ _ _ _ ndk1, if_neg hcond, h0,
      orLoop_model_zero _ _ _ _ _ _ h0]
    have hlat0 : mget st.shadow_latched s 0 = 0 :=
      orLoop_lat_zero_of _ _ _ _ _ h0
    obtain ⟨p, hp, hps⟩ := List.mem_map.mp hs
    have hact : p ∈ st.active := watch p hp (by rw [hps]; exact hlat0)
    rw [if_pos ⟨p, hact, hps⟩]
  · rw [forceOnes_mget_nodup _ _ _ _ ndk1, if_pos ⟨hk1, h1⟩, h1]

/-- Once a table shadow id is latched to 1 in the OR engine's state, every
remaining output snapshot shows 1 for it. -/
theorem orRun_settled (pairs : PairTable) (s : NodeId) (hs : s ∈ sids pairs) :
    ∀ (snaps : List Snapshot) (st : OrEngine.St), OrInv pairs st →
    mget st.shadow_latched s 0 = 1 →
    ∀ t ∈ (OrEngine.runAux pairs false st snaps).1, ∀ d, mget t.model s d = 1 := by
  intro snaps
  induction snaps with
  | nil =>
    intro st _ _ t ht
    simp [OrEngine.runAux] at ht
  | cons snap rest ih =>
    intro st hinv h1 t ht d
    simp only [OrEngine.runAux] at ht
    have hlat1 :
        mget (OrEngine.step st snap.model).2.shadow_latched s 0 = 1 := by
      simp only [OrEngine.step]
      exact orLoop_lat_one _ _ _ _ _ h1
    rcases List.mem_cons.mp ht with h | h
    · rw [h]
      show mget (OrEngine.step st snap.model).1 s d = 1
      rw [orStep_entry pairs st snap.model s hinv hs d, hlat1]
    · exact ih (OrEngine.step st snap.model).2 (orInv_step _ _ _ hinv) hlat1 t h d

/-- One-way latch monotonicity of a value stream: once 1, always 1. -/
def OnceOne : List Val → Prop
  | [] => True
  | v :: vs => (v = 1 → ∀ w ∈ vs, w = 1) ∧ OnceOne vs

/-- One-way decay monotonicity of a value stream: once 0, always 0. -/
def OnceZero : List Val → Prop
  | [] => True
  | v :: vs => (v = 0 → ∀ w ∈ vs, w = 0) ∧ OnceZero vs

theorem onceOne_get (l : List Val) (h : OnceOne l) :
    ∀ i j (hj : j < l.length) (hij : i ≤ j),
    l.get ⟨i, lt_of_le_of_lt hij hj⟩ = 1 → l.get ⟨j, hj⟩ = 1 := by
  induction l with
  | nil =>
    intro i j hj
    simp at hj
  | cons v vs ih =>
    intro i j hj hij h1
    cases i with
    | zero =>
      cases j with
      | zero => exact h1
      | succ j' =>
        have hv : v = 1 := h1
        have hmem := List.get_mem vs j' (by simpa using hj)
        have := h.1 hv (vs.get ⟨j', by simpa using hj⟩) hmem
        simpa using this
    | succ i' =>
      cases j with
      | zero => omega
      | succ j' =>
        have := ih h.2 i' j' (by simpa using hj)
          (Nat.succ_le_succ_iff.mp hij) (by simpa using h1)
        simpa using this

theorem onceZero_get (l : List Val) (h : OnceZero l) :
    ∀ i j (hj : j < l.length) (hij : i ≤ j),
    l.get ⟨i, lt_of_le_of_lt hij hj⟩ = 0 → l.get ⟨j, hj⟩ = 0 := by
  induction l with
  | nil =>
    intro i j hj
    simp at hj
  | cons v vs ih =>
    intro i j hj hij h1
    cases i with
    | zero =>
      cases j with
      | zero => exact h1
      | succ j' =>
        have hv : v = 0 := h1
        have hmem := List.get_mem vs j' (by simpa using hj)
        have := h.1 hv (vs.get ⟨j', by simpa using hj⟩) hmem
        simpa using this
    | succ i' =>
      cases j with
      | zero => omega
      | succ j' =>
        have := ih h.2 i' j' (by simpa using hj)
          (Nat.succ_le_succ_iff.mp hij) (by simpa using h1)
        simpa using this

theorem orRun_onceOne (pairs : PairTable) (s : NodeId) (hs : s ∈ sids pairs) :
    ∀ (snaps : List Snapshot) (st : OrEngine.St), OrInv pairs st →
    OnceOne ((OrEngine.runAux pairs false st snaps).1.map
      (fun t => mget t.model s 0)) := by
  intro snaps
  induction snaps with
  | nil =>
    intro st _
    simp [OrEngine.runAux, OnceOne]
  | cons snap rest ih =>
    intro st hinv
    simp only [OrEngine.runAux, List.map_cons]
    refine ⟨?_, ih _ (orInv_step _ _ _ hinv)⟩
    intro h1 w hw
    have hlat1 : mget (OrEngine.step st snap.model).2.shadow_latched s 0 = 1 := by
      rw [← orStep_entry pairs st snap.model s hinv hs 0]
      exact h1
    obtain ⟨t, ht, rfl⟩ := List.mem_map.mp hw
    exact orRun_settled pairs s hs rest (OrEngine.step st snap.model).2
      (orInv_step _ _ _ hinv) hlat1 t ht 0

/-! ### Run invariants of the AND engine -/

/-- Invariant of the AND engine's state: the latch map binds exactly the
table's shadow ids without duplicates, and the active list is a sublist of
the table. -/
def AndInv (pairs : PairTable) (st : AndEngine.St) : Prop :=
  NodupKeys st.shadow_latched ∧
  (∀ k, hasKey st.shadow_latched k = true ↔ k ∈ sids pairs) ∧
  st.active.Sublist pairs

theorem andInv_init (pairs : PairTable) (prevModel : Model) :
    AndInv pairs
      ⟨(AndEngine.load_last_snapshot pairs prevModel).1,
       (AndEngine.load_last_snapshot pairs prevModel).2, pairs⟩ := by
  refine ⟨load_last_snapshot_snd_nodup pairs prevModel, ?_, List.Sublist.refl _⟩
  intro k
  show hasKey (AndEngine.load_last_snapshot pairs prevModel).2 k = true ↔ _
  rw [load_last_snapshot_snd_hasKey]
  by_cases h : k ∈ sids pairs <;> simp [h]

theorem andInv_step (pairs : PairTable) (st : AndEngine.St) (m : Model)
    (hinv : AndInv pairs st) : AndInv pairs (AndEngine.step st m).2 := by
  obtain ⟨ndk, keys, sub⟩ := hinv
  simp only [AndEngine.step]
  refine ⟨andLoop_lat_nodup _ _ _ _ ndk, ?_,
    (andLoop_active_sublist _ _ _ _).trans sub⟩
  intro k
  constructor
  · intro h
    rcases andLoop_lat_hasKey_cases _ _ _ _ _ h with h1 | h2
    · exact (keys k).mp h1
    · exact sublist_map_subset Prod.snd _ _ sub k h2
  · intro h
    exact andLoop_lat_hasKey_mono _ _ _ _ _ ((keys k).mpr h)

/-- After any snapshot of the AND engine, the output entry at a table shadow
id equals the new latched value (the unconditional force-write). -/
theorem andStep_entry (pairs : PairTable) (st : AndEngine.St) (m : Model)
    (s : NodeId) (hinv : AndInv pairs st) (hs : s ∈ sids pairs) (d : Val) :
    mget (AndEngine.step st m).1 s d =
      mget (AndEngine.step st m).2.shadow_latched s 1 := by
  obtain ⟨ndk, keys, sub⟩ := hinv
  simp only [AndEngine.step]
  exact forceAll_mget_nodup _ _ _ _ _
    (andLoop_lat_nodup _ _ _ _ ndk)
    (andLoop_lat_hasKey_mono _ _ _ _ _ ((keys s).mpr hs))

/-- Once a table shadow id is latched to 0 in the AND engine's state, every
remaining output snapshot shows 0 for it. -/
theorem andRun_settled (pairs : PairTable) (s : NodeId) (hs : s ∈ sids pairs) :
    ∀ (snaps : List Snapshot) (st : AndEngine.St), AndInv pairs st →
    mget st.shadow_latched s 1 = 0 →
    ∀ t ∈ (AndEngine.runAux st snaps).1, ∀ d, mget t.model s d = 0 := by
  intro snaps
  induction snaps with
  | nil =>
    intro st _ _ t ht
    simp [AndEngine.runAux] at ht
  | cons snap rest ih =>
    intro st hinv h0 t ht d
    simp only [AndEngine.runAux] at ht
    have hlat1 :
        mget (AndEngine.step st snap.model).2.shadow_latched s 1 = 0 := by
      simp only [AndEngine.step]
      exact andLoop_lat_zero _ _ _ _ _ h0
    rcases List.mem_cons.mp ht with h | h
    · rw [h]
      show mget (AndEngine.step st snap.model).1 s d = 0
      rw [andStep_entry pairs st snap.model s hinv hs d, hlat1]
    · exact ih (AndEngine.step st snap.model).2 (andInv_step _ _ _ hinv) hlat1 t h d

theorem andRun_onceZero (pairs : PairTable) (s : NodeId) (hs : s ∈ sids pairs) :
    ∀ (snaps : List Snapshot) (st : AndEngine.St), AndInv pairs st →
    OnceZero ((AndEngine.runAux st snaps).1.map (fun t => mget t.model s 1)) := by
  intro snaps
  induction snaps with
  | nil =>
    intro st _
    simp [AndEngine.runAux, OnceZero]
  | cons snap rest ih =>
    intro st hinv
    simp only [AndEngine.runAux, List.map_cons]
    refine ⟨?_, ih _ (andInv_step _ _ _ hinv)⟩
    intro h0 w hw
    have hlat1 : mget (AndEngine.step st snap.model).2.shadow_latched s 1 = 0 := by
      rw [← andStep_entry pairs st snap.model s hinv hs 1]
      exact h0
    obtain ⟨t, ht, rfl⟩ := List.mem_map.mp hw
    exact andRun_settled pairs s hs rest (AndEngine.step st snap.model).2
      (andInv_step _ _ _ hinv) hlat1 t ht 1

/-! ### Pass-through: the engines write only shadow-id entries -/

theorem orStep_pass (pairs : PairTable) (st : OrEngine.St) (m : Model)
    (k : NodeId) (d : Val) (hinv : OrInv pairs st) (hk : k ∉ sids pairs) :
    mget (OrEngine.step st m).1 k d = mget m k d := by
  obtain ⟨ndk, keys, sub, watch, bin⟩ := hinv
  have hact : ∀ q ∈ st.active, q.2 ≠ k := by
    intro q hq he
    exact hk (he ▸ sublist_map_subset Prod.snd _ _ sub _
      (List.mem_map.mpr ⟨q, hq, rfl⟩))
  simp only [OrEngine.step]
  rw [forceOnes_mget]
  have hcond :
      ¬ ∃ e ∈ (OrEngine.loop st.active m st.prev_vals st.shadow_latched).2.2.1,
        e.1 = k ∧ e.2 = 1 := by
    intro ⟨e, he, hek, _⟩
    have hkk :
        hasKey (OrEngine.loop st.active m st.prev_vals st.shadow_latched).2.2.1 k = true :=
      (hasKey_iff_mem_keys _ _).mpr (List.mem_map.mpr ⟨e, he, hek⟩)
    rcases orLoop_lat_hasKey_cases _ _ _ _ _ hkk with h1 | h2
    · exact hk ((keys k).mp h1)
    · exact hk (sublist_map_subset Prod.snd _ _ sub k h2)
  rw [if_neg hcond]
  exact orLoop_model_frame _ _ _ _ _ _ hact

theorem orFirst_pass (pairs : PairTable) (st : OrEngine.St) (m : Model)
    (k : NodeId) (d : Val) (hinv : OrInv pairs st) (hk : k ∉ sids pairs) :
    mget (OrEngine.firstSnap pairs st m).1 k d = mget m k d := by
  obtain ⟨ndk, keys, sub, watch, bin⟩ := hinv
  simp only [OrEngine.firstSnap]
  rw [zeroFold_mget]
  have : ¬ hasKey st.shadow_latched k = true := fun h => hk ((keys k).mp h)
  rw [if_neg this]

theorem orRun_pass (pairs : PairTable) (k : NodeId) (hk : k ∉ sids pairs) :
    ∀ (snaps : List Snapshot) (st : OrEngine.St), OrInv pairs st → ∀ d,
    (OrEngine.runAux pairs false st snaps).1.map (fun t => mget t.model k d) =
      snaps.map (fun t => mget t.model k d) := by
  intro snaps
  induction snaps with
  | nil =>
    intro st _ d
    simp [OrEngine.runAux]
  | cons snap rest ih =>
    intro st hinv d
    simp only [OrEngine.runAux, List.map_cons]
    rw [ih _ (orInv_step _ _ _ hinv) d]
    show mget (OrEngine.step st snap.model).1 k d :: _ = _
    rw [orStep_pass pairs st snap.model k d hinv hk]

theorem orRun_isStart (pairs : PairTable) :
    ∀ (snaps : List Snapshot) (first : Bool) (st : OrEngine.St),
    (OrEngine.runAux pairs first st snaps).1.map Snapshot.is_start =
      snaps.map Snapshot.is_start := by
  intro snaps
  induction snaps with
  | nil =>
    intro first st
    cases first <;> simp [OrEngine.runAux]
  | cons snap rest ih =>
    intro first st
    cases first <;> simp only [OrEngine.runAux, List.map_cons] <;>
      rw [ih false _]

theorem orProcess_pass (pairs : PairTable) (k : NodeId) (hk : k ∉ sids pairs)
    (snaps : List Snapshot) (d : Val) :
    (OrEngine.process_trace pairs snaps).1.map (fun t => mget t.model k d) =
      snaps.map (fun t => mget t.model k d) := by
  cases snaps with
  | nil => rfl
  | cons snap rest =>
    have hinv0 := orInv_init pairs
    show ((OrEngine.runAux pairs true ⟨[], initLatched pairs, pairs⟩
      (snap :: rest)).1.map _) = _
    simp only [OrEngine.runAux, List.map_cons]
    rw [orRun_pass pairs k hk rest _ (orInv_firstSnap _ _ _ hinv0) d]
    show mget (OrEngine.firstSnap pairs ⟨[], initLatched pairs, pairs⟩
      snap.model).1 k d :: _ = _
    rw [orFirst_pass pairs _ snap.model k d hinv0 hk]

theorem andStep_pass (pairs : PairTable) (st : AndEngine.St) (m : Model)
    (k : NodeId) (d : Val) (hinv : AndInv pairs st) (hk : k ∉ sids pairs) :
    mget (AndEngine.step st m).1 k d = mget m k d := by
  obtain ⟨ndk, keys, sub⟩ := hinv
  simp only [AndEngine.step]
  refine forceAll_mget_frame _ _ _ _ ?_
  by_contra hc
  have hkk :
      hasKey (AndEngine.loop st.active m st.prev_vals st.shadow_latched).2.1 k = true := by
    revert hc
    cases hasKey (AndEngine.loop st.active m st.prev_vals st.shadow_latched).2.1 k <;>
      simp
  rcases andLoop_lat_hasKey_cases _ _ _ _ _ hkk with h1 | h2
  · exact hk ((keys k).mp h1)
  · exact hk (sublist_map_subset Prod.snd _ _ sub k h2)

theorem andRun_pass (pairs : PairTable) (k : NodeId) (hk : k ∉ sids pairs) :
    ∀ (snaps : List Snapshot) (st : AndEngine.St), AndInv pairs st → ∀ d,
    (AndEngine.runAux st snaps).1.map (fun t => mget t.model k d) =
      snaps.map (fun t => mget t.model k d) := by
  intro snaps
  induction snaps with
  | nil =>
    intro st _ d
    simp [AndEngine.runAux]
  | cons snap rest ih =>
    intro st hinv d
    simp only [AndEngine.runAux, List.map_cons]
    rw [ih _ (andInv_step _ _ _ hinv) d]
    show mget (AndEngine.step st snap.model).1 k d :: _ = _
    rw [andStep_pass pairs st snap.model k d hinv hk]

theorem andRun_isStart :
    ∀ (snaps : List Snapshot) (st : AndEngine.St),
    (AndEngine.runAux st snaps).1.map Snapshot.is_start =
      snaps.map Snapshot.is_start := by
  intro snaps
  induction snaps with
  | nil =>
    intro st
    simp [AndEngine.runAux]
  | cons snap rest ih =>
    intro st
    simp only [AndEngine.runAux, List.map_cons]
    rw [ih _]

theorem andProcess_pass (pairs : PairTable) (k : NodeId) (hk : k ∉ sids pairs)
    (prevModel : Model) (snaps : List Snapshot) (d : Val) :
    (AndEngine.process_trace pairs prevModel snaps).1.map
      (fun t => mget t.model k d) = snaps.map (fun t => mget t.model k d) := by
  show (AndEngine.runAux _ snaps).1.map _ = _
  exact andRun_pass pairs k hk snaps _ (andInv_init pairs prevModel) d

/-! ### Per-pair characterization of the OR engine (separated tables) -/

theorem orRunAux_pairChar (pairs : PairTable) (o s : NodeId)
    (hsep : Separated pairs) (hmem : (o, s) ∈ pairs) :
    ∀ (snaps : List Snapshot) (st : OrEngine.St) (l p : Val),
    st.active.Sublist pairs →
    NodupKeys st.shadow_latched →
    hasKey st.shadow_latched s = true →
    mget st.shadow_latched s 0 = l →
    (l = 0 → (o, s) ∈ st.active ∧ mget st.prev_vals o 0 = p) →
    (l ≠ 0 → l = 1) →
    (∀ d, (OrEngine.runAux pairs false st snaps).1.map
        (fun t => mget t.model s d) = orGoSeq l p (vals o snaps)) ∧
    mget (OrEngine.runAux pairs false st snaps).2.shadow_latched s 0 =
      orGoFinal l p (vals o snaps) := by
  intro snaps
  induction snaps with
  | nil =>
    intro st l p _ _ _ hl _ _
    constructor
    · intro d
      simp [OrEngine.runAux, vals, orGoSeq]
    · simpa [OrEngine.runAux, vals, orGoFinal] using hl
  | cons snap rest ih =>
    intro st l p hsub ndk hk hl hw hb
    have hndact : st.active.Nodup := List.Nodup.sublist hsub (sep_nodup pairs hsep)
    have huoact : ∀ q ∈ st.active, q.1 = o → q = (o, s) :=
      fun q hq => sep_huo pairs o s hsep hmem q (hsub.subset hq)
    have husact : ∀ q ∈ st.active, q.2 = s → q = (o, s) :=
      fun q hq => sep_hus pairs o s hsep hmem q (hsub.subset hq)
    have hsoact : ∀ q ∈ st.active, q.2 ≠ o :=
      fun q hq => sep_hso pairs o hsep (mem_oids pairs o s hmem) q (hsub.subset hq)
    have ndk1 :
        NodupKeys (OrEngine.loop st.active snap.model st.prev_vals st.shadow_latched).2.2.1 :=
      orLoop_lat_nodup _ _ _ _ ndk
    have hk1 :
        hasKey (OrEngine.loop st.active snap.model st.prev_vals st.shadow_latched).2.2.1 s =
          true := orLoop_lat_hasKey_mono _ _ _ _ _ hk
    have hvals : vals o (snap :: rest) = mget snap.model o 0 :: vals o rest := rfl
    by_cases hl0 : l = 0
    · obtain ⟨hact, hpv⟩ := hw hl0
      obtain ⟨c1, c2, c3, c4⟩ :=
        orLoop_pair st.active o s snap.model st.prev_vals st.shadow_latched
          hact hndact huoact husact hsoact
      rw [hpv] at c2 c3 c4
      -- new latch value at s
      have hlat1 :
          mget (OrEngine.loop st.active snap.model st.prev_vals st.shadow_latched).2.2.1 s 0 =
            orNext l p (mget snap.model o 0) := by
        rw [c2 0, hl]
        rfl
      -- output entry at s
      have hent : ∀ d, mget (OrEngine.step st snap.model).1 s d =
          orNext l p (mget snap.model o 0) := by
        intro d
        simp only [OrEngine.step]
        rw [forceOnes_mget_nodup _ _ _ _ ndk1]
        by_cases hc : mget snap.model o 0 = p
        · have h0 : orNext l p (mget snap.model o 0) = 0 := by
            unfold orNext
            rw [if_pos hc, hl0]
          rw [h0]
          have hcond := hlat1
          rw [h0] at hcond
          rw [if_neg (fun hx => by rw [hcond] at hx; exact absurd hx.2 (by decide))]
          rw [c3 d, if_pos hc, hl, hl0]
        · have h1 : orNext l p (mget snap.model o 0) = 1 := by
            unfold orNext
            rw [if_neg hc]
          rw [h1]
          have hcond := hlat1
          rw [h1] at hcond
          rw [if_pos ⟨hk1, hcond⟩]
      -- invariants for the next state
      have hnext := ih (OrEngine.step st snap.model).2
        (orNext l p (mget snap.model o 0)) (mget snap.model o 0)
        ((orLoop_active_sublist _ _ _ _).trans hsub) ndk1 hk1 hlat1
        (by
          intro hz
          have hc : mget snap.model o 0 = p := by
            by_contra hcc
            unfold orNext at hz
            rw [if_neg hcc] at hz
            exact absurd hz (by decide)
          constructor
          · show (o, s) ∈ (OrEngine.loop st.active snap.model st.prev_vals
              st.shadow_latched).2.2.2
            rw [c4]
            refine ⟨hc, ?_⟩
            rw [hl]
            exact hl0
          · show mget (OrEngine.loop st.active snap.model st.prev_vals
              st.shadow_latched).2.1 o 0 = _
            rw [c1 0]
        )
        (by
          intro hz
          unfold orNext at hz ⊢
          by_cases hc : mget snap.model o 0 = p
          · rw [if_pos hc, hl0] at hz
            exact absurd rfl hz
          · rw [if_neg hc])
      constructor
      · intro d
        simp only [OrEngine.runAux, List.map_cons, hvals, orGoSeq]
        rw [hnext.1 d]
        show mget (OrEngine.step st snap.model).1 s d :: _ = _
        rw [hent d]
        rfl
      · simp only [OrEngine.runAux, hvals, orGoFinal]
        exact hnext.2
    · have hl1 : l = 1 := hb hl0
      have hlat1 :
          mget (OrEngine.loop st.active snap.model st.prev_vals st.shadow_latched).2.2.1 s 0 =
            1 := orLoop_lat_one _ _ _ _ _ (by rw [hl, hl1])
      have hone : orNext l p (mget snap.model o 0) = 1 := by
        unfold orNext
        rw [hl1]
        by_cases hc : mget snap.model o 0 = p <;> simp [hc]
      have hent : ∀ d, mget (OrEngine.step st snap.model).1 s d = 1 := by
        intro d
        simp only [OrEngine.step]
        rw [forceOnes_mget_nodup _ _ _ _ ndk1, if_pos ⟨hk1, hlat1⟩]
      have hnext := ih (OrEngine.step st snap.model).2
        (orNext l p (mget snap.model o 0)) (mget snap.model o 0)
        ((orLoop_active_sublist _ _ _ _).trans hsub) ndk1 hk1
        (by
          show mget (OrEngine.loop st.active snap.model st.prev_vals
            st.shadow_latched).2.2.1 s 0 = orNext l p (mget snap.model o 0)
          rw [hlat1, hone])
        (by
          intro hz
          rw [hone] at hz
          exact absurd hz (by decide))
        (by intro _; rw [hone])
      constructor
      · intro d
        simp only [OrEngine.runAux, List.map_cons, hvals, orGoSeq]
        rw [hnext.1 d]
        show mget (OrEngine.step st snap.model).1 s d :: _ = _
        rw [hent d, ← hone]
        rfl
      · simp only [OrEngine.runAux, hvals, orGoFinal]
        exact hnext.2

/-- Full per-pair characterization of `pex-shadow.py`'s `process_trace`:
for a separated table, the stream of values written at a pair's shadow id is
the pure OR-latch stream of the monitored id's raw values, and the final
latched value is its last state. -/
theorem orRun_char (pairs : PairTable) (o s : NodeId) (hsep : Separated pairs)
    (hmem : (o, s) ∈ pairs) (snaps : List Snapshot) :
    (∀ d, (OrEngine.process_trace pairs snaps).1.map
        (fun t => mget t.model s d) = orSeq (vals o snaps)) ∧
    mget (OrEngine.process_trace pairs snaps).2.shadow_latched s 0 =
      orFinal (vals o snaps) := by
  have hsids : s ∈ sids pairs := mem_sids pairs o s hmem
  have hkey0 : hasKey (initLatched pairs) s = true := by
    rw [initLatched_hasKey, if_pos hsids]
  cases snaps with
  | nil =>
    constructor
    · intro d
      rfl
    · show mget (initLatched pairs) s 0 = 0
      rw [initLatched_mget, if_pos hsids]
  | cons snap rest =>
    have hm1 : ∀ k d, mget (OrEngine.firstSnap pairs
        ⟨[], initLatched pairs, pairs⟩ snap.model).1 k d =
        if hasKey (initLatched pairs) k = true then 0 else mget snap.model k d := by
      intro k d
      simp only [OrEngine.firstSnap]
      exact zeroFold_mget _ _ _ _
    have hpv1 : mget (OrEngine.firstSnap pairs
        ⟨[], initLatched pairs, pairs⟩ snap.model).2.prev_vals o 0 =
        mget snap.model o 0 := by
      simp only [OrEngine.firstSnap]
      have hfold := mget_foldl_mset pairs Prod.fst
        (fun x => mget ((initLatched pairs).foldl
          (fun m e => mset m e.1 0) snap.model) x 0) [] o 0
      rw [hfold,
        if_pos (show o ∈ List.map Prod.fst pairs from mem_oids pairs o s hmem),
        zeroFold_mget]
      have hns : o ∉ sids pairs := hsep.2.2 o (mem_oids pairs o s hmem)
      rw [initLatched_hasKey, if_neg hns]
      simp
    have hrest := orRunAux_pairChar pairs o s hsep hmem rest
      (OrEngine.firstSnap pairs ⟨[], initLatched pairs, pairs⟩ snap.model).2
      0 (mget snap.model o 0)
      (by
        show List.Sublist pairs pairs
        exact List.Sublist.refl _)
      (initLatched_nodup pairs) hkey0
      (by
        show mget (initLatched pairs) s 0 = 0
        rw [initLatched_mget, if_pos hsids])
      (by
        intro _
        constructor
        · show (o, s) ∈ pairs
          exact hmem
        · exact hpv1)
      (by intro h; exact absurd rfl h)
    constructor
    · intro d
      show ((OrEngine.runAux pairs true ⟨[], initLatched pairs, pairs⟩
        (snap :: rest)).1.map _) = _
      simp only [OrEngine.runAux, List.map_cons]
      rw [hrest.1 d]
      show mget (OrEngine.firstSnap pairs ⟨[], initLatched pairs, pairs⟩
        snap.model).1 s d :: _ = _
      rw [hm1 s d, if_pos hkey0]
      rfl
    · show mget (OrEngine.runAux pairs true ⟨[], initLatched pairs, pairs⟩
        (snap :: rest)).2.shadow_latched s 0 = _
      simp only [OrEngine.runAux]
      exact hrest.2

/-! ### Per-pair characterization of the all-pairs OR reference (C9) -/

theorem orRefRunAux_pairChar (pairs : PairTable) (o s : NodeId)
    (hsep : Separated pairs) (hmem : (o, s) ∈ pairs) :
    ∀ (snaps : List Snapshot) (pv lat : Model) (l p : Val),
    NodupKeys lat → hasKey lat s = true →
    mget lat s 0 = l → mget pv o 0 = p →
    (∀ d, (OrRef.runAux pairs false pv lat snaps).1.map
        (fun t => mget t.model s d) = orGoSeq l p (vals o snaps)) ∧
    mget (OrRef.runAux pairs false pv lat snaps).2.2 s 0 =
      orGoFinal l p (vals o snaps) := by
  intro snaps
  induction snaps with
  | nil =>
    intro pv lat l p _ _ hl _
    constructor
    · intro d
      simp [OrRef.runAux, vals, orGoSeq]
    · simpa [OrRef.runAux, vals, orGoFinal] using hl
  | cons snap rest ih =>
    intro pv lat l p ndk hk hl hpv
    obtain ⟨c1, c2, c3⟩ :=
      orRefLoop_pair pairs o s snap.model pv lat hmem (sep_nodup pairs hsep)
        (sep_huo pairs o s hsep hmem) (sep_hus pairs o s hsep hmem)
        (sep_hso pairs o hsep (mem_oids pairs o s hmem))
    rw [hpv] at c2 c3
    have ndk1 : NodupKeys (OrRef.loop pairs snap.model pv lat).2.2 :=
      orRefLoop_lat_nodup _ _ _ _ ndk
    have hk1 : hasKey (OrRef.loop pairs snap.model pv lat).2.2 s = true :=
      orRefLoop_lat_hasKey_mono _ _ _ _ _ hk
    have hlat1 : mget (OrRef.loop pairs snap.model pv lat).2.2 s 0 =
        orNext l p (mget snap.model o 0) := by
      rw [c2 0, hl]
      rfl
    have hent : ∀ d, mget (OrRef.step pairs pv lat snap.model).1 s d =
        orNext l p (mget snap.model o 0) := by
      intro d
      simp only [OrRef.step]
      rw [forceOnes_mget_nodup _ _ _ _ ndk1]
      by_cases hc : mget snap.model o 0 = p
      · have horn : orNext l p (mget snap.model o 0) = l := by
          unfold orNext
          rw [if_pos hc]
        by_cases hone : l = 1
        · have : mget (OrRef.loop pairs snap.model pv lat).2.2 s 0 = 1 := by
            rw [hlat1, horn, hone]
          rw [if_pos ⟨hk1, this⟩, horn, hone]
        · have : ¬ mget (OrRef.loop pairs snap.model pv lat).2.2 s 0 = 1 := by
            rw [hlat1, horn]
            exact hone
          rw [if_neg (fun hx => this hx.2), c3 d, if_pos hc, hl, horn]
      · have horn : orNext l p (mget snap.model o 0) = 1 := by
          unfold orNext
          rw [if_neg hc]
        have : mget (OrRef.loop pairs snap.model pv lat).2.2 s 0 = 1 := by
          rw [hlat1, horn]
        rw [if_pos ⟨hk1, this⟩, horn]
    have hnext := ih (OrRef.step pairs pv lat snap.model).2.1
      (OrRef.step pairs pv lat snap.model).2.2
      (orNext l p (mget snap.model o 0)) (mget snap.model o 0)
      ndk1 hk1 hlat1 (c1 0)
    constructor
    · intro d
      simp only [OrRef.runAux, List.map_cons]
      show mget (OrRef.step pairs pv lat snap.model).1 s d :: _ = _
      rw [hent d]
      show _ = orGoSeq l p (vals o (snap :: rest))
      show _ = orNext l p (mget snap.model o 0) ::
        orGoSeq (orNext l p (mget snap.model o 0)) (mget snap.model o 0) (vals o rest)
      rw [← hnext.1 d]
    · show mget (OrRef.runAux pairs false _ _ rest).2.2 s 0 = _
      rw [hnext.2]
      rfl

theorem orRefRun_char (pairs : PairTable) (o s : NodeId) (hsep : Separated pairs)
    (hmem : (o, s) ∈ pairs) (snaps : List Snapshot) :
    (∀ d, (OrRef.process_trace pairs snaps).1.map
        (fun t => mget t.model s d) = orSeq (vals o snaps)) ∧
    mget (OrRef.process_trace pairs snaps).2.2 s 0 = orFinal (vals o snaps) := by
  have hsids : s ∈ sids pairs := mem_sids pairs o s hmem
  have hkey0 : hasKey (initLatched pairs) s = true := by
    rw [initLatched_hasKey, if_pos hsids]
  cases snaps with
  | nil =>
    constructor
    · intro d
      rfl
    · show mget (initLatched pairs) s 0 = 0
      rw [initLatched_mget, if_pos hsids]
  | cons snap rest =>
    have hpv1 : mget (pairs.foldl
        (fun pv p => mset pv p.1
          (mget ((initLatched pairs).foldl (fun m e => mset m e.1 0) snap.model) p.1 0)) [])
        o 0 = mget snap.model o 0 := by
      have hfold := mget_foldl_mset pairs Prod.fst
        (fun x => mget ((initLatched pairs).foldl
          (fun m e => mset m e.1 0) snap.model) x 0) [] o 0
      rw [hfold,
        if_pos (show o ∈ List.map Prod.fst pairs from mem_oids pairs o s hmem),
        zeroFold_mget]
      have hns : o ∉ sids pairs := hsep.2.2 o (mem_oids pairs o s hmem)
      rw [initLatched_hasKey, if_neg hns]
      simp
    have hrest := orRefRunAux_pairChar pairs o s hsep hmem rest _
      (initLatched pairs) 0 (mget snap.model o 0)
      (initLatched_nodup pairs) hkey0
      (by rw [initLatched_mget, if_pos hsids]) hpv1
    constructor
    · intro d
      show ((OrRef.runAux pairs true [] (initLatched pairs) (snap :: rest)).1.map _) = _
      simp only [OrRef.runAux, List.map_cons]
      rw [hrest.1 d]
      show mget ((initLatched pairs).foldl (fun m e => mset m e.1 0) snap.model) s d
        :: _ = _
      rw [zeroFold_mget, if_pos hkey0]
      rfl
    · show mget (OrRef.runAux pairs true [] (initLatched pairs)
        (snap :: rest)).2.2 s 0 = _
      simp only [OrRef.runAux]
      exact hrest.2

/-! ### Per-pair characterization of the AND engine (separated tables) -/

theorem andRunAux_pairChar (pairs : PairTable) (o s : NodeId)
    (hsep : Separated pairs) (hmem : (o, s) ∈ pairs) :
    ∀ (snaps : List Snapshot) (st : AndEngine.St) (l p : Val),
    st.active.Sublist pairs →
    NodupKeys st.shadow_latched →
    hasKey st.shadow_latched s = true →
    mget st.shadow_latched s 1 = l →
    (l = 1 → (o, s) ∈ st.active ∧ mget st.prev_vals o 0 = p) →
    (l ≠ 1 → (o, s) ∉ st.active) →
    (∀ d, (AndEngine.runAux st snaps).1.map
        (fun t => mget t.model s d) = andGoSeq l p (vals o snaps)) ∧
    mget (AndEngine.runAux st snaps).2.shadow_latched s 1 =
      andGoFinal l p (vals o snaps) := by
  intro snaps
  induction snaps with
  | nil =>
    intro st l p _ _ _ hl _ _
    constructor
    · intro d
      simp [AndEngine.runAux, vals, andGoSeq]
    · simpa [AndEngine.runAux, vals, andGoFinal] using hl
  | cons snap rest ih =>
    intro st l p hsub ndk hk hl hw hnw
    have hndact : st.active.Nodup := List.Nodup.sublist hsub (sep_nodup pairs hsep)
    have huoact : ∀ q ∈ st.active, q.1 = o → q = (o, s) :=
      fun q hq => sep_huo pairs o s hsep hmem q (hsub.subset hq)
    have husact : ∀ q ∈ st.active, q.2 = s → q = (o, s) :=
      fun q hq => sep_hus pairs o s hsep hmem q (hsub.subset hq)
    have ndk1 :
        NodupKeys (AndEngine.loop st.active snap.model st.prev_vals st.shadow_latched).2.1 :=
      andLoop_lat_nodup _ _ _ _ ndk
    have hk1 :
        hasKey (AndEngine.loop st.active snap.model st.prev_vals st.shadow_latched).2.1 s =
          true := andLoop_lat_hasKey_mono _ _ _ _ _ hk
    by_cases hl1 : l = 1
    · obtain ⟨hact, hpv⟩ := hw hl1
      obtain ⟨c2, c4⟩ :=
        andLoop_pair st.active o s snap.model st.prev_vals st.shadow_latched
          hact hndact huoact husact
      rw [hpv] at c2 c4
      have hpv1 :
          mget (AndEngine.loop st.active snap.model st.prev_vals st.shadow_latched).1 o 0 =
            mget snap.model o 0 := by
        rw [andLoop_pv, if_pos ⟨(o, s), hact, rfl⟩]
      have hlat1 :
          mget (AndEngine.loop st.active snap.model st.prev_vals st.shadow_latched).2.1 s 1 =
            andNext l p (mget snap.model o 0) := by
        rw [c2 1, hl]
        unfold andNext
        rw [if_pos hl1, hl1]
      have hent : ∀ d, mget (AndEngine.step st snap.model).1 s d =
          andNext l p (mget snap.model o 0) := by
        intro d
        simp only [AndEngine.step]
        rw [forceAll_mget_nodup _ _ _ _ 1 ndk1 hk1]
        exact hlat1
      have hmem1 :
          (o, s) ∈ (AndEngine.loop st.active snap.model st.prev_vals
            st.shadow_latched).2.2 ↔ andNext l p (mget snap.model o 0) = 1 := by
        rw [c4, hl]
        unfold andNext
        rw [if_pos hl1, hl1]
      have hnext := ih (AndEngine.step st snap.model).2
        (andNext l p (mget snap.model o 0)) (mget snap.model o 0)
        ((andLoop_active_sublist _ _ _ _).trans hsub) ndk1 hk1 hlat1
        (by
          intro hz
          constructor
          · show (o, s) ∈ (AndEngine.loop st.active snap.model st.prev_vals
              st.shadow_latched).2.2
            exact hmem1.mpr hz
          · show mget (AndEngine.loop st.active snap.model st.prev_vals
              st.shadow_latched).1 o 0 = _
            exact hpv1)
        (by
          intro hz hin
          exact hz (hmem1.mp hin))
      constructor
      · intro d
        simp only [AndEngine.runAux, List.map_cons]
        show mget (AndEngine.step st snap.model).1 s d :: _ = _
        rw [hent d, hnext.1 d]
        rfl
      · show mget (AndEngine.runAux (AndEngine.step st snap.model).2 rest).2.shadow_latched
          s 1 = _
        rw [hnext.2]
        rfl
    · have hnotin := hnw hl1
      have hframe : ∀ q ∈ st.active, q.2 ≠ s := by
        intro q hq he
        exact hnotin ((husact q hq he) ▸ hq)
      have hlat1 :
          mget (AndEngine.loop st.active snap.model st.prev_vals st.shadow_latched).2.1 s 1 =
            andNext l p (mget snap.model o 0) := by
        rw [andLoop_lat_frame _ _ _ _ _ _ hframe, hl]
        unfold andNext
        rw [if_neg hl1]
      have hent : ∀ d, mget (AndEngine.step st snap.model).1 s d =
          andNext l p (mget snap.model o 0) := by
        intro d
        simp only [AndEngine.step]
        rw [forceAll_mget_nodup _ _ _ _ 1 ndk1 hk1]
        exact hlat1
      have hnotin1 : (o, s) ∉ (AndEngine.loop st.active snap.model st.prev_vals
          st.shadow_latched).2.2 := by
        intro hin
        exact hnotin ((andLoop_active_sublist _ _ _ _).subset hin)
      have hnn : andNext l p (mget snap.model o 0) ≠ 1 := by
        unfold andNext
        rw [if_neg hl1]
        exact hl1
      have hnext := ih (AndEngine.step st snap.model).2
        (andNext l p (mget snap.model o 0)) (mget snap.model o 0)
        ((andLoop_active_sublist _ _ _ _).trans hsub) ndk1 hk1 hlat1
        (fun hz => absurd hz hnn)
        (fun _ => hnotin1)
      constructor
      · intro d
        simp only [AndEngine.runAux, List.map_cons]
        show mget (AndEngine.step st snap.model).1 s d :: _ = _
        rw [hent d, hnext.1 d]
        rfl
      · show mget (AndEngine.runAux (AndEngine.step st snap.model).2 rest).2.shadow_latched
          s 1 = _
        rw [hnext.2]
        rfl

/-- Full per-pair characterization of `pex_shadow_2.py`'s `process_trace`:
for a separated table, the stream of values written at a pair's shadow id is
the pure AND-decay stream seeded from the previous clip's last model. -/
theorem andRun_char (pairs : PairTable) (o s : NodeId) (hsep : Separated pairs)
    (hmem : (o, s) ∈ pairs) (prevModel : Model) (snaps : List Snapshot) :
    (∀ d, (AndEngine.process_trace pairs prevModel snaps).1.map
        (fun t => mget t.model s d) =
      andSeq (mget prevModel s 1) (mget prevModel o 0) (vals o snaps)) ∧
    mget (AndEngine.process_trace pairs prevModel snaps).2.shadow_latched s 1 =
      andFinal (mget prevModel s 1) (mget prevModel o 0) (vals o snaps) := by
  have hsids : s ∈ sids pairs := mem_sids pairs o s hmem
  have hlat0 : mget (AndEngine.load_last_snapshot pairs prevModel).2 s 1 =
      mget prevModel s 1 := by
    rw [load_last_snapshot_snd, if_pos hsids]
  have hpv0 : mget (AndEngine.load_last_snapshot pairs prevModel).1 o 0 =
      mget prevModel o 0 := by
    rw [load_last_snapshot_fst, if_pos (mem_oids pairs o s hmem)]
  have hndk0 : NodupKeys (AndEngine.load_last_snapshot pairs prevModel).2 :=
    load_last_snapshot_snd_nodup pairs prevModel
  have hk0 : hasKey (AndEngine.load_last_snapshot pairs prevModel).2 s = true := by
    rw [load_last_snapshot_snd_hasKey, if_pos hsids]
  cases snaps with
  | nil =>
    constructor
    · intro d
      rfl
    · show mget (AndEngine.load_last_snapshot pairs prevModel).2 s 1 = _
      exact hlat0
  | cons snap rest =>
    have hndact : pairs.Nodup := sep_nodup pairs hsep
    obtain ⟨c2, c4⟩ :=
      andLoop_pair pairs o s snap.model
        (AndEngine.load_last_snapshot pairs prevModel).1
        (AndEngine.load_last_snapshot pairs prevModel).2
        hmem hndact (sep_huo pairs o s hsep hmem) (sep_hus pairs o s hsep hmem)
    rw [hpv0] at c2 c4
    have hst0 :
        (⟨(AndEngine.load_last_snapshot pairs prevModel).1,
          (AndEngine.load_last_snapshot pairs prevModel).2, pairs⟩ : AndEngine.St).active =
          pairs := rfl
    have ndk1 : NodupKeys (AndEngine.loop pairs snap.model
        (AndEngine.load_last_snapshot pairs prevModel).1
        (AndEngine.load_last_snapshot pairs prevModel).2).2.1 :=
      andLoop_lat_nodup _ _ _ _ hndk0
    have hk1 : hasKey (AndEngine.loop pairs snap.model
        (AndEngine.load_last_snapshot pairs prevModel).1
        (AndEngine.load_last_snapshot pairs prevModel).2).2.1 s = true :=
      andLoop_lat_hasKey_mono _ _ _ _ _ hk0
    have hlat1 : mget (AndEngine.loop pairs snap.model
        (AndEngine.load_last_snapshot pairs prevModel).1
        (AndEngine.load_last_snapshot pairs prevModel).2).2.1 s 1 =
        andFirstVal (mget prevModel s 1) (mget prevModel o 0)
          (mget snap.model o 0) := by
      rw [c2 1, hlat0]
      rfl
    have hpv1 : mget (AndEngine.loop pairs snap.model
        (AndEngine.load_last_snapshot pairs prevModel).1
        (AndEngine.load_last_snapshot pairs prevModel).2).1 o 0 =
        mget snap.model o 0 := by
      rw [andLoop_pv, if_pos ⟨(o, s), hmem, rfl⟩]
    have hmem1 : (o, s) ∈ (AndEngine.loop pairs snap.model
        (AndEngine.load_last_snapshot pairs prevModel).1
        (AndEngine.load_last_snapshot pairs prevModel).2).2.2 ↔
        andFirstVal (mget prevModel s 1) (mget prevModel o 0)
          (mget snap.model o 0) = 1 := by
      rw [c4, hlat0]
      rfl
    have hrest := andRunAux_pairChar pairs o s hsep hmem rest
      (AndEngine.step
        ⟨(AndEngine.load_last_snapshot pairs prevModel).1,
         (AndEngine.load_last_snapshot pairs prevModel).2, pairs⟩ snap.model).2
      (andFirstVal (mget prevModel s 1) (mget prevModel o 0) (mget snap.model o 0))
      (mget snap.model o 0)
      ((andLoop_active_sublist _ _ _ _).trans (List.Sublist.refl _))
      ndk1 hk1 hlat1
      (by
        intro hz
        constructor
        · show (o, s) ∈ (AndEngine.loop pairs snap.model _ _).2.2
          exact hmem1.mpr hz
        · show mget (AndEngine.loop pairs snap.model _ _).1 o 0 = _
          exact hpv1)
      (by
        intro hz hin
        exact hz (hmem1.mp hin))
    have hent : ∀ d, mget (AndEngine.step
        ⟨(AndEngine.load_last_snapshot pairs prevModel).1,
         (AndEngine.load_last_snapshot pairs prevModel).2, pairs⟩ snap.model).1 s d =
        andFirstVal (mget prevModel s 1) (mget prevModel o 0)
          (mget snap.model o 0) := by
      intro d
      simp only [AndEngine.step]
      rw [forceAll_mget_nodup _ _ _ _ 1 ndk1 hk1]
      exact hlat1
    constructor
    · intro d
      show ((AndEngine.runAux ⟨(AndEngine.load_last_snapshot pairs prevModel).1,
        (AndEngine.load_last_snapshot pairs prevModel).2, pairs⟩ (snap :: rest)).1.map
        (fun t => mget t.model s d)) = _
      simp only [AndEngine.runAux, List.map_cons]
      rw [hrest.1 d]
      show mget (AndEngine.step _ snap.model).1 s d :: _ = _
      rw [hent d]
      rfl
    · show mget (AndEngine.runAux ⟨(AndEngine.load_last_snapshot pairs prevModel).1,
        (AndEngine.load_last_snapshot pairs prevModel).2, pairs⟩
        (snap :: rest)).2.shadow_latched s 1 = _
      simp only [AndEngine.runAux]
      rw [hrest.2]
      rfl

/-! ### Per-pair characterization of the all-pairs AND reference (C9) -/

theorem andRefRunAux_pairChar (pairs : PairTable) (o s : NodeId)
    (hsep : Separated pairs) (hmem : (o, s) ∈ pairs) :
    ∀ (snaps : List Snapshot) (pv lat : Model) (l p : Val),
    NodupKeys lat → hasKey lat s = true →
    mget lat s 1 = l → mget pv o 0 = p →
    (∀ d, (AndRef.runAux pairs pv lat snaps).1.map
        (fun t => mget t.model s d) = andRefSeq l p (vals o snaps)) ∧
    mget (AndRef.runAux pairs pv lat snaps).2.2 s 1 =
      andRefFinal l p (vals o snaps) := by
  intro snaps
  induction snaps with
  | nil =>
    intro pv lat l p _ _ hl _
    constructor
    · intro d
      simp [AndRef.runAux, vals, andRefSeq]
    · simpa [AndRef.runAux, vals, andRefFinal] using hl
  | cons snap rest ih =>
    intro pv lat l p ndk hk hl hpv
    have c2 := andRefLoop_pair pairs o s snap.model pv lat hmem
      (sep_nodup pairs hsep) (sep_huo pairs o s hsep hmem)
      (sep_hus pairs o s hsep hmem)
    rw [hpv] at c2
    have ndk1 : NodupKeys (AndRef.loop pairs snap.model pv lat).2 :=
      andRefLoop_lat_nodup _ _ _ _ ndk
    have hk1 : hasKey (AndRef.loop pairs snap.model pv lat).2 s = true :=
      andRefLoop_lat_hasKey_mono _ _ _ _ _ hk
    have hlat1 : mget (AndRef.loop pairs snap.model pv lat).2 s 1 =
        andFirstVal l p (mget snap.model o 0) := by
      rw [c2 1, hl]
      rfl
    have hpv1 : mget (AndRef.loop pairs snap.model pv lat).1 o 0 =
        mget snap.model o 0 := by
      rw [andRefLoop_pv, if_pos ⟨(o, s), hmem, rfl⟩]
    have hent : ∀ d, mget (AndRef.step pairs pv lat snap.model).1 s d =
        andFirstVal l p (mget snap.model o 0) := by
      intro d
      simp only [AndRef.step]
      rw [forceAll_mget_nodup _ _ _ _ 1 ndk1 hk1]
      exact hlat1
    have hnext := ih (AndRef.step pairs pv lat snap.model).2.1
      (AndRef.step pairs pv lat snap.model).2.2
      (andFirstVal l p (mget snap.model o 0)) (mget snap.model o 0)
      ndk1 hk1 hlat1 hpv1
    constructor
    · intro d
      simp only [AndRef.runAux, List.map_cons]
      show mget (AndRef.step pairs pv lat snap.model).1 s d :: _ = _
      rw [hent d, hnext.1 d]
      rfl
    · show mget (AndRef.runAux pairs _ _ rest).2.2 s 1 = _
      rw [hnext.2]
      rfl

theorem andRefRun_char (pairs : PairTable) (o s : NodeId)
    (hsep : Separated pairs) (hmem : (o, s) ∈ pairs) (prevModel : Model)
    (snaps : List Snapshot) :
    (∀ d, (AndRef.process_trace pairs prevModel snaps).1.map
        (fun t => mget t.model s d) =
      andRefSeq (mget prevModel s 1) (mget prevModel o 0) (vals o snaps)) ∧
    mget (AndRef.process_trace pairs prevModel snaps).2.2 s 1 =
      andRefFinal (mget prevModel s 1) (mget prevModel o 0) (vals o snaps) := by
  have hsids : s ∈ sids pairs := mem_sids pairs o s hmem
  have hrest := andRefRunAux_pairChar pairs o s hsep hmem snaps
    (AndEngine.load_last_snapshot pairs prevModel).1
    (AndEngine.load_last_snapshot pairs prevModel).2
    (mget prevModel s 1) (mget prevModel o 0)
    (load_last_snapshot_snd_nodup pairs prevModel)
    (by rw [load_last_snapshot_snd_hasKey, if_pos hsids])
    (by rw [load_last_snapshot_snd, if_pos hsids])
    (by rw [load_last_snapshot_fst, if_pos (mem_oids pairs o s hmem)])
  exact hrest

/-! ### Pure lemmas about the latch dynamics -/

theorem andGoSeq_eq_refSeq (vs : List Val) :
    ∀ l p : Val, l = 0 ∨ l = 1 → andGoSeq l p vs = andRefSeq l p vs := by
  induction vs with
  | nil => intro l p _; rfl
  | cons v rest ih =>
    intro l p hb
    rcases hb with h0 | h1
    · subst h0
      show andNext 0 p v :: andGoSeq (andNext 0 p v) v rest =
        andFirstVal 0 p v :: andRefSeq (andFirstVal 0 p v) v rest
      have hn : andNext 0 p v = 0 := by
        unfold andNext
        rw [if_neg (by decide)]
      have hf : andFirstVal 0 p v = 0 := by
        unfold andFirstVal
        by_cases hc : v = p <;> simp [hc]
      rw [hn, hf]
      rw [ih 0 v (Or.inl rfl)]
    · subst h1
      show andNext 1 p v :: andGoSeq (andNext 1 p v) v rest =
        andFirstVal 1 p v :: andRefSeq (andFirstVal 1 p v) v rest
      have he : andNext 1 p v = andFirstVal 1 p v := by
        unfold andNext andFirstVal
        rw [if_pos rfl]
      rw [he]
      have hb1 : andFirstVal 1 p v = 0 ∨ andFirstVal 1 p v = 1 := by
        unfold andFirstVal
        by_cases hc : v = p <;> simp [hc]
      rw [ih _ v hb1]

theorem andGoFinal_eq_refFinal (vs : List Val) :
    ∀ l p : Val, l = 0 ∨ l = 1 → andGoFinal l p vs = andRefFinal l p vs := by
  induction vs with
  | nil => intro l p _; rfl
  | cons v rest ih =>
    intro l p hb
    rcases hb with h0 | h1
    · subst h0
      show andGoFinal (andNext 0 p v) v rest = andRefFinal (andFirstVal 0 p v) v rest
      have hn : andNext 0 p v = 0 := by
        unfold andNext
        rw [if_neg (by decide)]
      have hf : andFirstVal 0 p v = 0 := by
        unfold andFirstVal
        by_cases hc : v = p <;> simp [hc]
      rw [hn, hf]
      exact ih 0 v (Or.inl rfl)
    · subst h1
      show andGoFinal (andNext 1 p v) v rest = andRefFinal (andFirstVal 1 p v) v rest
      have he : andNext 1 p v = andFirstVal 1 p v := by
        unfold andNext andFirstVal
        rw [if_pos rfl]
      rw [he]
      have hb1 : andFirstVal 1 p v = 0 ∨ andFirstVal 1 p v = 1 := by
        unfold andFirstVal
        by_cases hc : v = p <;> simp [hc]
      exact ih _ v hb1

theorem andSeq_eq_refSeq (l p : Val) (vs : List Val) (hb : l = 0 ∨ l = 1) :
    andSeq l p vs = andRefSeq l p vs := by
  cases vs with
  | nil => rfl
  | cons v rest =>
    show andFirstVal l p v :: andGoSeq (andFirstVal l p v) v rest =
      andFirstVal l p v :: andRefSeq (andFirstVal l p v) v rest
    have hb1 : andFirstVal l p v = 0 ∨ andFirstVal l p v = 1 := by
      unfold andFirstVal
      rcases hb with h | h <;> subst h <;> by_cases hc : v = p <;> simp [hc]
    rw [andGoSeq_eq_refSeq rest _ v hb1]

theorem andFinal_eq_refFinal (l p : Val) (vs : List Val) (hb : l = 0 ∨ l = 1) :
    andFinal l p vs = andRefFinal l p vs := by
  cases vs with
  | nil => rfl
  | cons v rest =>
    show andGoFinal (andFirstVal l p v) v rest =
      andRefFinal (andFirstVal l p v) v rest
    have hb1 : andFirstVal l p v = 0 ∨ andFirstVal l p v = 1 := by
      unfold andFirstVal
      rcases hb with h | h <;> subst h <;> by_cases hc : v = p <;> simp [hc]
    exact andGoFinal_eq_refFinal rest _ v hb1

theorem anyChange_cons_self (p v : Val) (vs : List Val) (hv : v = p) :
    anyChange p (v :: vs) = anyChange v vs := by
  show (v != p || anyChange v vs) = anyChange v vs
  rw [hv]
  simp

theorem anyChange_cons_ne (p v : Val) (vs : List Val) (hv : ¬ v = p) :
    anyChange p (v :: vs) = true := by
  show (v != p || anyChange v vs) = true
  simp [hv]

theorem andGoFinal_closed (vs : List Val) :
    ∀ l p : Val, l = 0 ∨ l = 1 →
    andGoFinal l p vs =
      if l = 0 then 0 else if anyChange p vs = true then 0 else 1 := by
  induction vs with
  | nil =>
    intro l p hb
    rcases hb with h | h <;> subst h <;> simp [andGoFinal, anyChange]
  | cons v rest ih =>
    intro l p hb
    show andGoFinal (andNext l p v) v rest = _
    rcases hb with h0 | h1
    · subst h0
      have hn : andNext 0 p v = 0 := by
        unfold andNext
        rw [if_neg (by decide)]
      rw [hn, ih 0 v (Or.inl rfl)]
      simp
    · subst h1
      by_cases hc : v = p
      · have hn : andNext 1 p v = 1 := by
          unfold andNext
          rw [if_pos rfl, if_pos hc]
        rw [hn, ih 1 v (Or.inr rfl), anyChange_cons_self p v rest hc]
      · have hn : andNext 1 p v = 0 := by
          unfold andNext
          rw [if_pos rfl, if_neg hc]
        rw [hn, ih 0 v (Or.inl rfl), anyChange_cons_ne p v rest hc]
        simp

theorem andFinal_closed (l p : Val) (vs : List Val) (hb : l = 0 ∨ l = 1) :
    andFinal l p vs =
      if l = 0 then 0 else if anyChange p vs = true then 0 else 1 := by
  cases vs with
  | nil =>
    rcases hb with h | h <;> subst h <;> simp [andFinal, anyChange]
  | cons v rest =>
    show andGoFinal (andFirstVal l p v) v rest = _
    rcases hb with h0 | h1
    · subst h0
      have hf : andFirstVal 0 p v = 0 := by
        unfold andFirstVal
        by_cases hc : v = p <;> simp [hc]
      rw [hf, andGoFinal_closed rest 0 v (Or.inl rfl)]
      simp
    · subst h1
      by_cases hc : v = p
      · have hf : andFirstVal 1 p v = 1 := by
          unfold andFirstVal
          rw [if_pos hc]
        rw [hf, andGoFinal_closed rest 1 v (Or.inr rfl), anyChange_cons_self p v rest hc]
      · have hf : andFirstVal 1 p v = 0 := by
          unfold andFirstVal
          rw [if_neg hc]
        rw [hf, andGoFinal_closed rest 0 v (Or.inl rfl), anyChange_cons_ne p v rest hc]
        simp

theorem andFinal_bin (l p : Val) (vs : List Val) (hb : l = 0 ∨ l = 1) :
    andFinal l p vs = 0 ∨ andFinal l p vs = 1 := by
  rw [andFinal_closed l p vs hb]
  by_cases h0 : l = 0
  · simp [h0]
  · rw [if_neg h0]
    by_cases hch : anyChange p vs = true <;> simp [hch]

theorem anyChange_append (vs1 : List Val) :
    ∀ (p : Val) (vs2 : List Val) (h : vs1 ≠ []),
    anyChange p (vs1 ++ vs2) =
      (anyChange p vs1 || anyChange (vs1.getLast h) vs2) := by
  induction vs1 with
  | nil =>
    intro p vs2 h
    exact absurd rfl h
  | cons v rest ih =>
    intro p vs2 _
    cases rest with
    | nil =>
      show (v != p || anyChange v vs2) =
        ((v != p || anyChange v []) || anyChange v vs2)
      show (v != p || anyChange v vs2) = ((v != p || false) || anyChange v vs2)
      rw [Bool.or_false]
    | cons w rest2 =>
      show (v != p || anyChange v (w :: rest2 ++ vs2)) = _
      rw [ih v vs2 (by simp)]
      have hgl : (v :: w :: rest2).getLast (by simp) = (w :: rest2).getLast (by simp) :=
        List.getLast_cons (by simp)
      show (v != p || (anyChange v (w :: rest2) ||
        anyChange ((w :: rest2).getLast (by simp)) vs2)) =
        (anyChange p (v :: w :: rest2) ||
          anyChange ((v :: w :: rest2).getLast (by simp)) vs2)
      rw [hgl]
      show _ = ((v != p || anyChange v (w :: rest2)) ||
        anyChange ((w :: rest2).getLast (by simp)) vs2)
      rw [Bool.or_assoc]

/-- Pure composability of the AND latch for binary seeds: folding a
concatenated value stream equals folding the second stream from the first
stream's final latch and last value. -/
theorem andFinal_append (l p : Val) (vs1 vs2 : List Val) (hb : l = 0 ∨ l = 1)
    (h1 : vs1 ≠ []) :
    andFinal l p (vs1 ++ vs2) =
      andFinal (andFinal l p vs1) (vs1.getLast h1) vs2 := by
  have hbin1 : andFinal l p vs1 = 0 ∨ andFinal l p vs1 = 1 := andFinal_bin l p vs1 hb
  rw [andFinal_closed l p _ hb, andFinal_closed _ _ _ hbin1,
    andFinal_closed l p vs1 hb, anyChange_append vs1 p vs2 h1]
  by_cases h0 : l = 0
  · simp [h0]
  · rw [if_neg h0, if_neg h0]
    by_cases hch1 : anyChange p vs1 = true
    · simp [hch1]
    · have hch1' : anyChange p vs1 = false := by
        revert hch1
        cases anyChange p vs1 <;> simp
      rw [hch1']
      simp

/-- The last entry of the AND-latch stream is its final latch value. -/
theorem andGoSeq_getLast (vs : List Val) :
    ∀ l p : Val, (l :: andGoSeq l p vs).getLast? = some (andGoFinal l p vs) := by
  induction vs with
  | nil => intro l p; rfl
  | cons v rest ih =>
    intro l p
    show (l :: andNext l p v :: andGoSeq (andNext l p v) v rest).getLast? = _
    rw [List.getLast?_cons_cons]
    exact ih (andNext l p v) v

theorem andSeq_getLast (l p : Val) (vs : List Val) (h : vs ≠ []) :
    (andSeq l p vs).getLast? = some (andFinal l p vs) := by
  cases vs with
  | nil => exact absurd rfl h
  | cons v rest =>
    show (andFirstVal l p v :: andGoSeq (andFirstVal l p v) v rest).getLast? = _
    exact andGoSeq_getLast rest (andFirstVal l p v) v

/-- Constant monitored stream: the OR latch never fires. -/
theorem orGoSeq_const (vs : List Val) :
    ∀ p : Val, (∀ v ∈ vs, v = p) → ∀ x ∈ orGoSeq 0 p vs, x = 0 := by
  induction vs with
  | nil =>
    intro p _ x hx
    simp [orGoSeq] at hx
  | cons v rest ih =>
    intro p hconst x hx
    have hv : v = p := hconst v (List.mem_cons_self _ _)
    have hn : orNext 0 p v = 0 := by
      unfold orNext
      rw [if_pos hv]
    rw [show orGoSeq 0 p (v :: rest) =
      orNext 0 p v :: orGoSeq (orNext 0 p v) v rest from rfl, hn] at hx
    rcases List.mem_cons.mp hx with h | h
    · exact h
    · refine ih v ?_ x h
      intro w hw
      rw [hconst w (List.mem_cons_of_mem _ hw), hv]

/-- Constant monitored stream: the AND latch keeps its seeded value when the
stream starts at the seeded preceding value. -/
theorem andGoSeq_const (vs : List Val) :
    ∀ l p : Val, (∀ v ∈ vs, v = p) → ∀ x ∈ andGoSeq l p vs, x = l := by
  induction vs with
  | nil =>
    intro l p _ x hx
    simp [andGoSeq] at hx
  | cons v rest ih =>
    intro l p hconst x hx
    have hv : v = p := hconst v (List.mem_cons_self _ _)
    have hn : andNext l p v = l := by
      unfold andNext
      by_cases h1 : l = 1
      · rw [if_pos h1, if_pos hv, h1]
      · rw [if_neg h1]
    rw [show andGoSeq l p (v :: rest) =
      andNext l p v :: andGoSeq (andNext l p v) v rest from rfl, hn] at hx
    rcases List.mem_cons.mp hx with h | h
    · exact h
    · refine ih l v ?_ x h
      intro w hw
      rw [hconst w (List.mem_cons_of_mem _ hw), hv]

theorem andSeq_const (l p : Val) (vs : List Val) (hconst : ∀ v ∈ vs, v = p) :
    ∀ x ∈ andSeq l p vs, x = l := by
  cases vs with
  | nil =>
    intro x hx
    simp [andSeq] at hx
  | cons v rest =>
    intro x hx
    have hv : v = p := hconst v (List.mem_cons_self _ _)
    have hf : andFirstVal l p v = l := by
      unfold andFirstVal
      rw [if_pos hv]
    rw [show andSeq l p (v :: rest) =
      andFirstVal l p v :: andGoSeq (andFirstVal l p v) v rest from rfl, hf] at hx
    rcases List.mem_cons.mp hx with h | h
    · exact h
    · refine andGoSeq_const rest l v ?_ x h
      intro w hw
      rw [hconst w (List.mem_cons_of_mem _ hw), hv]

theorem orSeq_const (p : Val) (vs : List Val) (hconst : ∀ v ∈ vs, v = p) :
    ∀ x ∈ orSeq vs, x = 0 := by
  cases vs with
  | nil =>
    intro x hx
    simp [orSeq] at hx
  | cons v rest =>
    intro x hx
    have hv : v = p := hconst v (List.mem_cons_self _ _)
    rw [show orSeq (v :: rest) = 0 :: orGoSeq 0 v rest from rfl] at hx
    rcases List.mem_cons.mp hx with h | h
    · exact h
    · refine orGoSeq_const rest v ?_ x h
      intro w hw
      rw [hconst w (List.mem_cons_of_mem _ hw), hv]

/-! ### Pass-through for the all-pairs reference engines -/

theorem orRefLoop_lat_hasKey_cases (act : PairTable) (model pv lat : Model)
    (k : NodeId) (h : hasKey (OrRef.loop act model pv lat).2.2 k = true) :
    hasKey lat k = true ∨ k ∈ act.map Prod.snd := by
  induction act generalizing model pv lat with
  | nil => exact Or.inl h
  | cons p rest ih =>
    obtain ⟨oid, sid⟩ := p
    simp only [OrRef.loop] at h
    by_cases hc : mget model oid 0 = mget pv oid 0
    · simp only [if_pos hc] at h
      rcases ih _ _ _ h with h1 | h2
      · exact Or.inl h1
      · exact Or.inr (List.mem_cons_of_mem _ h2)
    · simp only [if_neg hc] at h
      rcases ih _ _ _ h with h1 | h2
      · rw [hasKey_mset] at h1
        by_cases hk : k = sid
        · exact Or.inr (by simp [hk])
        · rw [if_neg hk] at h1
          exact Or.inl h1
      · exact Or.inr (List.mem_cons_of_mem _ h2)

theorem andRefLoop_lat_hasKey_cases (act : PairTable) (model pv lat : Model)
    (k : NodeId) (h : hasKey (AndRef.loop act model pv lat).2 k = true) :
    hasKey lat k = true ∨ k ∈ act.map Prod.snd := by
  induction act generalizing pv lat with
  | nil => exact Or.inl h
  | cons p rest ih =>
    obtain ⟨oid, sid⟩ := p
    simp only [AndRef.loop] at h
    rcases ih _ _ h with h1 | h2
    · by_cases hc : mget model oid 0 = mget pv oid 0
      · rw [if_pos hc] at h1
        exact Or.inl h1
      · rw [if_neg hc, hasKey_mset] at h1
        by_cases hk : k = sid
        · exact Or.inr (by simp [hk])
        · rw [if_neg hk] at h1
          exact Or.inl h1
    · exact Or.inr (List.mem_cons_of_mem _ h2)

theorem orRefStep_pass (pairs : PairTable) (pv lat : Model) (m : Model)
    (k : NodeId) (d : Val) (hk : k ∉ sids pairs)
    (hlatk : ∀ k', hasKey lat k' = true → k' ∈ sids pairs) :
    mget (OrRef.step pairs pv lat m).1 k d = mget m k d := by
  have hact : ∀ q ∈ pairs, q.2 ≠ k := by
    intro q hq he
    exact hk (he ▸ List.mem_map.mpr ⟨q, hq, rfl⟩)
  simp only [OrRef.step]
  rw [forceOnes_mget]
  have hcond : ¬ ∃ e ∈ (OrRef.loop pairs m pv lat).2.2, e.1 = k ∧ e.2 = 1 := by
    intro ⟨e, he, hek, _⟩
    have hkk : hasKey (OrRef.loop pairs m pv lat).2.2 k = true :=
      (hasKey_iff_mem_keys _ _).mpr (List.mem_map.mpr ⟨e, he, hek⟩)
    rcases orRefLoop_lat_hasKey_cases _ _ _ _ _ hkk with h1 | h2
    · exact hk (hlatk k h1)
    · exact hk h2
  rw [if_neg hcond]
  exact orRefLoop_model_frame _ _ _ _ _ _ hact

theorem orRefRun_latKeys (pairs : PairTable) :
    ∀ (snaps : List Snapshot) (pv lat : Model),
    (∀ k', hasKey lat k' = true → k' ∈ sids pairs) →
    ∀ k', hasKey (OrRef.runAux pairs false pv lat snaps).2.2 k' = true →
      k' ∈ sids pairs := by
  intro snaps
  induction snaps with
  | nil =>
    intro pv lat h k' hk'
    exact h k' hk'
  | cons snap rest ih =>
    intro pv lat h k' hk'
    refine ih _ _ ?_ k' hk'
    intro k2 hk2
    rcases orRefLoop_lat_hasKey_cases _ _ _ _ _ hk2 with h1 | h2
    · exact h k2 h1
    · exact h2

theorem orRefRun_pass (pairs : PairTable) (k : NodeId) (hk : k ∉ sids pairs) :
    ∀ (snaps : List Snapshot) (pv lat : Model),
    (∀ k', hasKey lat k' = true → k' ∈ sids pairs) → ∀ d,
    (OrRef.runAux pairs false pv lat snaps).1.map (fun t => mget t.model k d) =
      snaps.map (fun t => mget t.model k d) := by
  intro snaps
  induction snaps with
  | nil =>
    intro pv lat _ d
    simp [OrRef.runAux]
  | cons snap rest ih =>
    intro pv lat hlatk d
    simp only [OrRef.runAux, List.map_cons]
    rw [ih _ _ (by
      intro k2 hk2
      rcases orRefLoop_lat_hasKey_cases _ _ _ _ _ hk2 with h1 | h2
      · exact hlatk k2 h1
      · exact h2) d]
    show mget (OrRef.step pairs pv lat snap.model).1 k d :: _ = _
    rw [orRefStep_pass pairs pv lat snap.model k d hk hlatk]

theorem orRefRun_isStart (pairs : PairTable) :
    ∀ (snaps : List Snapshot) (first : Bool) (pv lat : Model),
    (OrRef.runAux pairs first pv lat snaps).1.map Snapshot.is_start =
      snaps.map Snapshot.is_start := by
  intro snaps
  induction snaps with
  | nil =>
    intro first pv lat
    cases first <;> simp [OrRef.runAux]
  | cons snap rest ih =>
    intro first pv lat
    cases first <;> simp only [OrRef.runAux, List.map_cons] <;> rw [ih false]

theorem orRefProcess_pass (pairs : PairTable) (k : NodeId) (hk : k ∉ sids pairs)
    (snaps : List Snapshot) (d : Val) :
    (OrRef.process_trace pairs snaps).1.map (fun t => mget t.model k d) =
      snaps.map (fun t => mget t.model k d) := by
  have hlatk : ∀ k', hasKey (initLatched pairs) k' = true → k' ∈ sids pairs := by
    intro k' hk'
    rw [initLatched_hasKey] at hk'
    by_cases h : k' ∈ sids pairs
    · exact h
    · rw [if_neg h] at hk'
      exact absurd hk' (by decide)
  cases snaps with
  | nil => rfl
  | cons snap rest =>
    show ((OrRef.runAux pairs true [] (initLatched pairs) (snap :: rest)).1.map _) = _
    simp only [OrRef.runAux, List.map_cons]
    rw [orRefRun_pass pairs k hk rest _ _ hlatk d]
    show mget ((initLatched pairs).foldl (fun m e => mset m e.1 0) snap.model) k d
      :: _ = _
    rw [zeroFold_mget]
    have hko : ¬ hasKey (initLatched pairs) k = true := fun h => hk (hlatk k h)
    rw [if_neg hko]

theorem andRefStep_pass (pairs : PairTable) (pv lat : Model) (m : Model)
    (k : NodeId) (d : Val) (hk : k ∉ sids pairs)
    (hlatk : ∀ k', hasKey lat k' = true → k' ∈ sids pairs) :
    mget (AndRef.step pairs pv lat m).1 k d = mget m k d := by
  simp only [AndRef.step]
  refine forceAll_mget_frame _ _ _ _ ?_
  by_contra hc
  have hkk : hasKey (AndRef.loop pairs m pv lat).2 k = true := by
    revert hc
    cases hasKey (AndRef.loop pairs m pv lat).2 k <;> simp
  rcases andRefLoop_lat_hasKey_cases _ _ _ _ _ hkk with h1 | h2
  · exact hk (hlatk k h1)
  · exact hk h2

theorem andRefRun_pass (pairs : PairTable) (k : NodeId) (hk : k ∉ sids pairs) :
    ∀ (snaps : List Snapshot) (pv lat : Model),
    (∀ k', hasKey lat k' = true → k' ∈ sids pairs) → ∀ d,
    (AndRef.runAux pairs pv lat snaps).1.map (fun t => mget t.model k d) =
      snaps.map (fun t => mget t.model k d) := by
  intro snaps
  induction snaps with
  | nil =>
    intro pv lat _ d
    simp [AndRef.runAux]
  | cons snap rest ih =>
    intro pv lat hlatk d
    simp only [AndRef.runAux, List.map_cons]
    rw [ih _ _ (by
      intro k2 hk2
      rcases andRefLoop_lat_hasKey_cases _ _ _ _ _ hk2 with h1 | h2
      · exact hlatk k2 h1
      · exact h2) d]
    show mget (AndRef.step pairs pv lat snap.model).1 k d :: _ = _
    rw [andRefStep_pass pairs pv lat snap.model k d hk hlatk]

theorem andRefRun_isStart (pairs : PairTable) :
    ∀ (snaps : List Snapshot) (pv lat : Model),
    (AndRef.runAux pairs pv lat snaps).1.map Snapshot.is_start =
      snaps.map Snapshot.is_start := by
  intro snaps
  induction snaps with
  | nil =>
    intro pv lat
    simp [AndRef.runAux]
  | cons snap rest ih =>
    intro pv lat
    simp only [AndRef.runAux, List.map_cons]
    rw [ih]

theorem andRefProcess_pass (pairs : PairTable) (k : NodeId) (hk : k ∉ sids pairs)
    (prevModel : Model) (snaps : List Snapshot) (d : Val) :
    (AndRef.process_trace pairs prevModel snaps).1.map (fun t => mget t.model k d) =
      snaps.map (fun t => mget t.model k d) := by
  show (AndRef.runAux pairs _ _ snaps).1.map _ = _
  refine andRefRun_pass pairs k hk snaps _ _ ?_ d
  intro k' hk'
  rw [load_last_snapshot_snd_hasKey] at hk'
  by_cases h : k' ∈ sids pairs
  · exact h
  · rw [if_neg h] at hk'
    exact absurd hk' (by decide)

/-! ### Freshness of the preceding-value store for active pairs (C7) -/

theorem orLoop_pv_fresh (act : PairTable) :
    ∀ (model pv lat : Model) (o : NodeId),
    (∀ q ∈ act, q.2 ≠ o) → (∃ q ∈ act, q.1 = o) →
    mget (OrEngine.loop act model pv lat).2.1 o 0 = mget model o 0 := by
  induction act with
  | nil =>
    intro model pv lat o _ hex
    obtain ⟨q, hq, _⟩ := hex
    simp at hq
  | cons p rest ih =>
    intro model pv lat o hso hex
    obtain ⟨oid, sid⟩ := p
    have hs : sid ≠ o := hso (oid, sid) (List.mem_cons_self _ _)
    have hso2 : ∀ q ∈ rest, q.2 ≠ o := fun q hq => hso q (List.mem_cons_of_mem _ hq)
    simp only [OrEngine.loop]
    by_cases hr : ∃ q ∈ rest, q.1 = o
    · by_cases hc : mget model oid 0 = mget pv oid 0
      · simp only [if_pos hc]
        rw [ih _ _ _ o hso2 hr, mget_mset_ne _ _ _ _ _ (Ne.symm hs)]
      · simp only [if_neg hc]
        rw [ih _ _ _ o hso2 hr, mget_mset_ne _ _ _ _ _ (Ne.symm hs)]
    · have ho : oid = o := by
        obtain ⟨q, hq, hq1⟩ := hex
        rcases List.mem_cons.mp hq with h1 | h2
        · rw [h1] at hq1
          exact hq1
        · exact absurd ⟨q, h2, hq1⟩ hr
      have hro : ∀ q ∈ rest, q.1 ≠ o := by
        intro q hq he
        exact hr ⟨q, hq, he⟩
      by_cases hc : mget model oid 0 = mget pv oid 0
      · simp only [if_pos hc]
        rw [orLoop_pv_frame _ _ _ _ _ _ hro, ← ho, mget_mset_self]
      · simp only [if_neg hc]
        rw [orLoop_pv_frame _ _ _ _ _ _ hro, ← ho, mget_mset_self]

/-! ### Presence and indexed entry/latch correspondence (C10) -/

theorem orLoop_model_hasKey_mono (act : PairTable) (model pv lat : Model)
    (k : NodeId) (h : hasKey model k = true) :
    hasKey (OrEngine.loop act model pv lat).1 k = true := by
  induction act generalizing model pv lat with
  | nil => exact h
  | cons p rest ih =>
    obtain ⟨oid, sid⟩ := p
    simp only [OrEngine.loop]
    by_cases hc : mget model oid 0 = mget pv oid 0
    · simp only [if_pos hc]
      refine ih _ _ _ ?_
      rw [hasKey_mset]
      by_cases hk : k = sid <;> simp [hk, h]
    · simp only [if_neg hc]
      refine ih _ _ _ ?_
      rw [hasKey_mset]
      by_cases hk : k = sid <;> simp [hk, h]

theorem orLoop_model_hasKey (act : PairTable) :
    ∀ (model pv lat : Model) (s : NodeId), (∃ q ∈ act, q.2 = s) →
    hasKey (OrEngine.loop act model pv lat).1 s = true := by
  induction act with
  | nil =>
    intro model pv lat s hex
    obtain ⟨q, hq, _⟩ := hex
    simp at hq
  | cons p rest ih =>
    intro model pv lat s hex
    obtain ⟨oid, sid⟩ := p
    simp only [OrEngine.loop]
    by_cases hsid : sid = s
    · subst hsid
      have hkey : ∀ v : Val, hasKey (mset model sid v) sid = true := by
        intro v
        rw [hasKey_mset]
        simp
      by_cases hc : mget model oid 0 = mget pv oid 0
      · simp only [if_pos hc]
        exact orLoop_model_hasKey_mono _ _ _ _ _ (hkey _)
      · simp only [if_neg hc]
        exact orLoop_model_hasKey_mono _ _ _ _ _ (hkey _)
    · have hr : ∃ q ∈ rest, q.2 = s := by
        obtain ⟨q, hq, hq2⟩ := hex
        rcases List.mem_cons.mp hq with h1 | h2
        · rw [h1] at hq2
          exact absurd hq2 hsid
        · exact ⟨q, h2, hq2⟩
      by_cases hc : mget model oid 0 = mget pv oid 0
      · simp only [if_pos hc]
        exact ih _ _ _ s hr
      · simp only [if_neg hc]
        exact ih _ _ _ s hr

theorem forceOnes_hasKey_mono (lat m : Model) (k : NodeId)
    (h : hasKey m k = true) : hasKey (OrEngine.forceOnes lat m) k = true := by
  rw [forceOnes_hasKey]
  by_cases hex : ∃ e ∈ lat, e.1 = k ∧ e.2 = 1 <;> simp [hex, h]

/-- The output model written at a table shadow id by one OR snapshot has an
entry there, whose value is the new latch value. -/
theorem orStep_entry_hasKey (pairs : PairTable) (st : OrEngine.St) (m : Model)
    (s : NodeId) (hinv : OrInv pairs st) (hs : s ∈ sids pairs) :
    hasKey (OrEngine.step st m).1 s = true := by
  obtain ⟨ndk, keys, sub, watch, bin⟩ := hinv
  simp only [OrEngine.step]
  have ndk1 :
      NodupKeys (OrEngine.loop st.active m st.prev_vals st.shadow_latched).2.2.1 :=
    orLoop_lat_nodup _ _ _ _ ndk
  have hk1 :
      hasKey (OrEngine.loop st.active m st.prev_vals st.shadow_latched).2.2.1 s = true :=
    orLoop_lat_hasKey_mono _ _ _ _ _ ((keys s).mpr hs)
  have hbin1 :
      mget (OrEngine.loop st.active m st.prev_vals st.shadow_latched).2.2.1 s 0 = 0 ∨
      mget (OrEngine.loop st.active m st.prev_vals st.shadow_latched).2.2.1 s 0 = 1 := by
    rcases orLoop_lat_cases st.active m st.prev_vals st.shadow_latched s with h | h
    · rw [h]; exact bin s
    · rw [h]; right; rfl
  rcases hbin1 with h0 | h1
  · have hlat0 : mget st.shadow_latched s 0 = 0 :=
      orLoop_lat_zero_of _ _ _ _ _ h0
    obtain ⟨p, hp, hps⟩ := List.mem_map.mp hs
    have hact : p ∈ st.active := watch p hp (by rw [hps]; exact hlat0)
    exact forceOnes_hasKey_mono _ _ _
      (orLoop_model_hasKey st.active m st.prev_vals st.shadow_latched s ⟨p, hact, hps⟩)
  · rw [forceOnes_hasKey]
    have hex : ∃ e ∈ (OrEngine.loop st.active m st.prev_vals st.shadow_latched).2.2.1,
        e.1 = s ∧ e.2 = 1 :=
      (exists_one_iff_nodup _ _ ndk1).mpr ⟨hk1, h1⟩
    rw [if_pos hex]

theorem orRunAux_entry (pairs : PairTable) (s : NodeId) (hs : s ∈ sids pairs) :
    ∀ (snaps : List Snapshot) (st : OrEngine.St), OrInv pairs st →
    ∀ i (hi : i < (OrEngine.runAux pairs false st snaps).1.length),
    hasKey ((OrEngine.runAux pairs false st snaps).1.get ⟨i, hi⟩).model s = true ∧
    mget ((OrEngine.runAux pairs false st snaps).1.get ⟨i, hi⟩).model s 0 =
      mget (OrEngine.runAux pairs false st (snaps.take (i + 1))).2.shadow_latched s 0 := by
  intro snaps
  induction snaps with
  | nil =>
    intro st _ i hi
    simp [OrEngine.runAux] at hi
  | cons snap rest ih =>
    intro st hinv i hi
    cases i with
    | zero =>
      constructor
      · show hasKey (OrEngine.step st snap.model).1 s = true
        exact orStep_entry_hasKey pairs st snap.model s hinv hs
      · show mget (OrEngine.step st snap.model).1 s 0 =
          mget (OrEngine.runAux pairs false st [snap]).2.shadow_latched s 0
        rw [orStep_entry pairs st snap.model s hinv hs 0]
        rfl
    | succ i' =>
      have hi' : i' < (OrEngine.runAux pairs false
          (OrEngine.step st snap.model).2 rest).1.length := by
        have : (OrEngine.runAux pairs false st (snap :: rest)).1.length =
            ((⟨(OrEngine.step st snap.model).1, snap.is_start⟩ : Snapshot) ::
              (OrEngine.runAux pairs false (OrEngine.step st snap.model).2 rest).1).length :=
          rfl
        rw [this] at hi
        simpa using hi
      have := ih (OrEngine.step st snap.model).2 (orInv_step _ _ _ hinv) i' hi'
      exact this

theorem andStep_entry_hasKey (pairs : PairTable) (st : AndEngine.St) (m : Model)
    (s : NodeId) (hinv : AndInv pairs st) (hs : s ∈ sids pairs) :
    hasKey (AndEngine.step st m).1 s = true := by
  obtain ⟨ndk, keys, sub⟩ := hinv
  simp only [AndEngine.step]
  rw [forceAll_hasKey,
    if_pos (andLoop_lat_hasKey_mono _ _ _ _ _ ((keys s).mpr hs))]

theorem andRunAux_entry (pairs : PairTable) (s : NodeId) (hs : s ∈ sids pairs) :
    ∀ (snaps : List Snapshot) (st : AndEngine.St), AndInv pairs st →
    ∀ i (hi : i < (AndEngine.runAux st snaps).1.length),
    hasKey ((AndEngine.runAux st snaps).1.get ⟨i, hi⟩).model s = true ∧
    mget ((AndEngine.runAux st snaps).1.get ⟨i, hi⟩).model s 1 =
      mget (AndEngine.runAux st (snaps.take (i + 1))).2.shadow_latched s 1 := by
  intro snaps
  induction snaps with
  | nil =>
    intro st _ i hi
    simp [AndEngine.runAux] at hi
  | cons snap rest ih =>
    intro st hinv i hi
    cases i with
    | zero =>
      constructor
      · show hasKey (AndEngine.step st snap.model).1 s = true
        exact andStep_entry_hasKey pairs st snap.model s hinv hs
      · show mget (AndEngine.step st snap.model).1 s 1 =
          mget (AndEngine.runAux st [snap]).2.shadow_latched s 1
        rw [andStep_entry pairs st snap.model s hinv hs 1]
        rfl
    | succ i' =>
      have hi' : i' < (AndEngine.runAux (AndEngine.step st snap.model).2 rest).1.length := by
        have : (AndEngine.runAux st (snap :: rest)).1.length =
            ((⟨(AndEngine.step st snap.model).1, snap.is_start⟩ : Snapshot) ::
              (AndEngine.runAux (AndEngine.step st snap.model).2 rest).1).length :=
          rfl
        rw [this] at hi
        simpa using hi
      exact ih (AndEngine.step st snap.model).2 (andInv_step _ _ _ hinv) i' hi'

theorem getD_eq_get {α : Type} (l : List α) (d : α) (i : Nat) (h : i < l.length) :
    l.getD i d = l.get ⟨i, h⟩ := by
  induction l generalizing i with
  | nil => simp at h
  | cons a t ih =>
    cases i with
    | zero => rfl
    | succ j => exact ih j (by simpa using h)

theorem zeroFold_hasKey (lat m : Model) (k : NodeId) :
    hasKey (lat.foldl (fun acc e => mset acc e.1 0) m) k =
      (hasKey lat k || hasKey m k) := by
  have h := hasKey_foldl_mset lat Prod.fst (fun _ => (0 : Val)) m k
  rw [h]
  by_cases hk : hasKey lat k = true
  · rw [if_pos ((hasKey_iff_mem_keys _ _).mp hk), hk, Bool.true_or]
  · rw [if_neg (fun hm => hk ((hasKey_iff_mem_keys _ _).mpr hm))]
    have hk' : hasKey lat k = false := by
      revert hk
      cases hasKey lat k <;> simp
    rw [hk', Bool.false_or]

theorem orProcess_entry (pairs : PairTable) (s : NodeId) (hs : s ∈ sids pairs)
    (snaps : List Snapshot) :
    ∀ i, i < (OrEngine.process_trace pairs snaps).1.length →
    hasKey ((OrEngine.process_trace pairs snaps).1.getD i ⟨[], false⟩).model s = true ∧
    (i = 0 →
      mget ((OrEngine.process_trace pairs snaps).1.getD i ⟨[], false⟩).model s 0 = 0) ∧
    (i ≠ 0 →
      mget ((OrEngine.process_trace pairs snaps).1.getD i ⟨[], false⟩).model s 0 =
        mget (OrEngine.process_trace pairs (snaps.take (i + 1))).2.shadow_latched s 0) := by
  cases snaps with
  | nil =>
    intro i hi
    simp [OrEngine.process_trace, OrEngine.runAux] at hi
  | cons snap rest =>
    intro i hi
    cases i with
    | zero =>
      have hmodel :
          (OrEngine.process_trace pairs (snap :: rest)).1.getD 0 ⟨[], false⟩ =
          ⟨(OrEngine.firstSnap pairs ⟨[], initLatched pairs, pairs⟩ snap.model).1,
            snap.is_start⟩ := rfl
      rw [hmodel]
      refine ⟨?_, fun _ => ?_, fun h => absurd rfl h⟩
      · show hasKey
          ((initLatched pairs).foldl (fun acc e => mset acc e.1 0) snap.model) s = true
        rw [zeroFold_hasKey, initLatched_hasKey, if_pos hs, Bool.true_or]
      · show mget
          ((initLatched pairs).foldl (fun acc e => mset acc e.1 0) snap.model) s 0 = 0
        rw [zeroFold_mget, if_pos (by rw [initLatched_hasKey, if_pos hs])]
    | succ i' =>
      have hi' : i' < (OrEngine.runAux pairs false
          (OrEngine.firstSnap pairs ⟨[], initLatched pairs, pairs⟩
            snap.model).2 rest).1.length := by
        have hlen : (OrEngine.process_trace pairs (snap :: rest)).1.length =
            (OrEngine.runAux pairs false
              (OrEngine.firstSnap pairs ⟨[], initLatched pairs, pairs⟩
                snap.model).2 rest).1.length + 1 := rfl
        rw [hlen] at hi
        omega
      have hgd : (OrEngine.process_trace pairs (snap :: rest)).1.getD (i' + 1)
            ⟨[], false⟩ =
          (OrEngine.runAux pairs false
            (OrEngine.firstSnap pairs ⟨[], initLatched pairs, pairs⟩
              snap.model).2 rest).1.get ⟨i', hi'⟩ := by
        show ((OrEngine.runAux pairs false
          (OrEngine.firstSnap pairs ⟨[], initLatched pairs, pairs⟩
            snap.model).2 rest).1).getD i' ⟨[], false⟩ = _
        exact getD_eq_get _ _ _ hi'
      have hmain := orRunAux_entry pairs s hs rest
        (OrEngine.firstSnap pairs ⟨[], initLatched pairs, pairs⟩ snap.model).2
        (orInv_firstSnap pairs _ snap.model (orInv_init pairs)) i' hi'
      refine ⟨?_, fun h => absurd h (Nat.succ_ne_zero i'), fun _ => ?_⟩
      · rw [hgd]
        exact hmain.1
      · rw [hgd]
        exact hmain.2

theorem andProcess_entry (pairs : PairTable) (s : NodeId) (hs : s ∈ sids pairs)
    (prevModel : Model) (snaps : List Snapshot) :
    ∀ i, i < (AndEngine.process_trace pairs prevModel snaps).1.length →
    hasKey ((AndEngine.process_trace pairs prevModel snaps).1.getD i
      ⟨[], false⟩).model s = true ∧
    mget ((AndEngine.process_trace pairs prevModel snaps).1.getD i
        ⟨[], false⟩).model s 1 =
      mget (AndEngine.process_trace pairs prevModel
        (snaps.take (i + 1))).2.shadow_latched s 1 := by
  intro i hi
  have hi2 : i < (AndEngine.runAux
      ⟨(AndEngine.load_last_snapshot pairs prevModel).1,
       (AndEngine.load_last_snapshot pairs prevModel).2, pairs⟩ snaps).1.length := hi
  have hmain := andRunAux_entry pairs s hs snaps _ (andInv_init pairs prevModel) i hi2
  have hgd := getD_eq_get ((AndEngine.runAux
      ⟨(AndEngine.load_last_snapshot pairs prevModel).1,
       (AndEngine.load_last_snapshot pairs prevModel).2, pairs⟩ snaps).1)
    (⟨[], false⟩ : Snapshot) i hi2
  constructor
  · show hasKey ((AndEngine.runAux
      ⟨(AndEngine.load_last_snapshot pairs prevModel).1,
       (AndEngine.load_last_snapshot pairs prevModel).2, pairs⟩ snaps).1.getD i
        ⟨[], false⟩).model s = true
    rw [hgd]
    exact hmain.1
  · show mget ((AndEngine.runAux
      ⟨(AndEngine.load_last_snapshot pairs prevModel).1,
       (AndEngine.load_last_snapshot pairs prevModel).2, pairs⟩ snaps).1.getD i
        ⟨[], false⟩).model s 1 = _
    rw [hgd]
    exact hmain.2

/-! ### The v2 decay script's silent default seeding (C8) -/

theorem foldl_pair {α β γ : Type} (l : List γ) (f : α → γ → α) (g : β → γ → β) :
    ∀ (a : α) (b : β),
    l.foldl (fun acc p => (f acc.1 p, g acc.2 p)) (a, b) = (l.foldl f a, l.foldl g b) := by
  induction l with
  | nil =>
    intro a b
    rfl
  | cons x t ih =>
    intro a b
    exact ih (f a x) (g b x)

/-- A missing previous file makes `pex_shadow2_v2.py` seed exactly as if the
previous clip's last model were empty: monitored ids default to 0, shadow ids
to 1. -/
theorem v2_defaults_eq_empty_seed (pairs : PairTable) :
    V2.load_last_snapshot pairs none = AndEngine.load_last_snapshot pairs [] := by
  show V2.defaultSeeds pairs = _
  unfold V2.defaultSeeds AndEngine.load_last_snapshot
  exact (foldl_pair pairs (fun m p => mset m p.1 (mget [] p.1 0))
    (fun m p => mset m p.2 (mget [] p.2 1)) [] []).symm

/-! ## The claims -/

/-- C1: One-way latch monotonicity.  In the annotated output sequence, once a
snapshot shows a table pair's shadow value equal to 1 under the OR policy,
every subsequent snapshot shows 1 for that shadow id; and once a snapshot
shows the shadow value 0 under the AND policy, every subsequent snapshot
shows 0, for every pair table, seed model and trace segment. -/
theorem C1_latch_monotonic (pairs : PairTable) (s : NodeId) (hs : s ∈ sids pairs)
    (prevModel : Model) (snaps : List Snapshot) :
    OnceOne ((OrEngine.process_trace pairs snaps).1.map
      (fun t => mget t.model s 0)) ∧
    OnceZero ((AndEngine.process_trace pairs prevModel snaps).1.map
      (fun t => mget t.model s 1)) := by
  constructor
  · cases snaps with
    | nil => exact True.intro
    | cons snap rest =>
      show OnceOne ((OrEngine.runAux pairs true ⟨[], initLatched pairs, pairs⟩
        (snap :: rest)).1.map _)
      simp only [OrEngine.runAux, List.map_cons]
      constructor
      · intro h1
        have h0 : mget (OrEngine.firstSnap pairs ⟨[], initLatched pairs, pairs⟩
            snap.model).1 s 0 = 0 := by
          show mget ((initLatched pairs).foldl
            (fun acc e => mset acc e.1 0) snap.model) s 0 = 0
          rw [zeroFold_mget, if_pos (by rw [initLatched_hasKey, if_pos hs])]
        rw [h0] at h1
        exact absurd h1 (by decide)
      · exact orRun_onceOne pairs s hs rest _
          (orInv_firstSnap pairs _ snap.model (orInv_init pairs))
  · exact andRun_onceZero pairs s hs snaps _ (andInv_init pairs prevModel)

theorem C1_latch_monotonic_witness :
    OnceOne ((OrEngine.process_trace [(10, 20)]
      [⟨[(10, 0)], true⟩, ⟨[(10, 1)], false⟩]).1.map
      (fun t => mget t.model 20 0)) ∧
    OnceZero ((AndEngine.process_trace [(10, 20)] []
      [⟨[(10, 0)], true⟩, ⟨[(10, 1)], false⟩]).1.map
      (fun t => mget t.model 20 1)) :=
  C1_latch_monotonic [(10, 20)] 20 (by decide) []
    [⟨[(10, 0)], true⟩, ⟨[(10, 1)], false⟩]

/-- C2 counterexample: with pair table `[(2, 4)]` and a previous clip whose
last model holds the non-binary shadow value 2, running the AND engine over
the concatenation of the clips `[{}]` and `[{2: 1}]` ends with shadow latch 2,
while running the first clip, seeding the second clip from the first's last
output snapshot, and running the second ends with 0: clip composability fails
on a non-binary seeded shadow value. -/
theorem C2_composability_binary_seed_cex :
    mget (AndEngine.process_trace [(2, 4)] [(4, 2)]
      ([⟨[], false⟩] ++ [⟨[(2, 1)], false⟩])).2.shadow_latched 4 1 = 2 ∧
    (AndEngine.process_trace [(2, 4)] [(4, 2)] [⟨[], false⟩]).1.getLast? =
      some ⟨[(4, 2)], false⟩ ∧
    mget (AndEngine.process_trace [(2, 4)]
      (⟨[(4, 2)], false⟩ : Snapshot).model
      [⟨[(2, 1)], false⟩]).2.shadow_latched 4 1 = 0 ∧
    (2 : Val) ≠ 0 := by decide

/-- C2 (amended): clip composability for the AND engine holds for every
separated pair table, previous model and pair of clips, provided the seeded
shadow value of the pair is binary (0 or 1); re-running the engine on the
second clip seeded from the last snapshot of the first clip's annotated
output yields the same final shadow latch as one run over the
concatenation. -/
theorem C2_composability_binary_seed (pairs : PairTable) (o s : NodeId)
    (hsep : Separated pairs) (hmem : (o, s) ∈ pairs) (prevModel : Model)
    (c1 c2 : List Snapshot)
    (hbin : mget prevModel s 1 = 0 ∨ mget prevModel s 1 = 1)
    (last1 : Snapshot)
    (hlast : (AndEngine.process_trace pairs prevModel c1).1.getLast? =
      some last1) :
    mget (AndEngine.process_trace pairs last1.model c2).2.shadow_latched s 1 =
      mget (AndEngine.process_trace pairs prevModel
        (c1 ++ c2)).2.shadow_latched s 1 := by
  have hc1ne : c1 ≠ [] := by
    intro h
    rw [h] at hlast
    exact Option.noConfusion hlast
  have hVne : vals o c1 ≠ [] := by
    intro h
    apply hc1ne
    cases c1 with
    | nil => rfl
    | cons a t => simp [vals] at h
  have ho : o ∉ sids pairs := hsep.2.2 o (mem_oids pairs o s hmem)
  have h1 := andRun_char pairs o s hsep hmem prevModel c1
  have hsv : mget last1.model s 1 =
      andFinal (mget prevModel s 1) (mget prevModel o 0) (vals o c1) := by
    have hq : (andSeq (mget prevModel s 1) (mget prevModel o 0)
        (vals o c1)).getLast? = some (mget last1.model s 1) := by
      rw [← h1.1 1, List.getLast?_map, hlast]
      rfl
    rw [andSeq_getLast _ _ _ hVne] at hq
    exact (Option.some.inj hq).symm
  have hoe : mget last1.model o 0 = (vals o c1).getLast hVne := by
    have hov : vals o c1 = (AndEngine.process_trace pairs prevModel c1).1.map
        (fun t => mget t.model o 0) := (andProcess_pass pairs o ho prevModel c1 0).symm
    have hq : (vals o c1).getLast? = some (mget last1.model o 0) := by
      rw [hov, List.getLast?_map, hlast]
      rfl
    rw [List.getLast?_eq_getLast _ hVne] at hq
    exact (Option.some.inj hq).symm
  have hL := andRun_char pairs o s hsep hmem last1.model c2
  have hR := andRun_char pairs o s hsep hmem prevModel (c1 ++ c2)
  rw [hL.2, hR.2, hsv, hoe]
  have hvapp : vals o (c1 ++ c2) = vals o c1 ++ vals o c2 := by
    simp [vals]
  rw [hvapp, andFinal_append _ _ _ _ hbin hVne]

theorem C2_composability_binary_seed_witness :
    (AndEngine.process_trace [(10, 20)] [(20, 1)] [⟨[(10, 0)], false⟩]).1.getLast? =
      some ⟨[(10, 0), (20, 1)], false⟩ ∧
    mget (AndEngine.process_trace [(10, 20)]
        (⟨[(10, 0), (20, 1)], false⟩ : Snapshot).model
        [⟨[(10, 1)], false⟩]).2.shadow_latched 20 1 =
      mget (AndEngine.process_trace [(10, 20)] [(20, 1)]
        ([⟨[(10, 0)], false⟩] ++ [⟨[(10, 1)], false⟩])).2.shadow_latched 20 1 :=
  ⟨by decide,
   C2_composability_binary_seed [(10, 20)] 10 20
     (by refine ⟨?_, ?_, ?_⟩ <;> decide) (by decide) [(20, 1)]
     [⟨[(10, 0)], false⟩] [⟨[(10, 1)], false⟩] (Or.inr (by decide))
     ⟨[(10, 0), (20, 1)], false⟩ (by decide)⟩

/-- C3: Scenario A of the spec.  Under the OR policy with a fresh initial
state and pair table `[(10, 20)]`, the four-snapshot trace
`[{10: 0}, {10: 0}, {10: 1}, {10: 1}]` produces shadow values `[0, 0, 1, 1]`
for shadow id 20, in order. -/
theorem C3_scenario_A :
    (OrEngine.process_trace [(10, 20)]
      [⟨[(10, 0)], true⟩, ⟨[(10, 0)], false⟩, ⟨[(10, 1)], false⟩,
       ⟨[(10, 1)], false⟩]).1.map (fun t => mget t.model 20 0) =
      [0, 0, 1, 1] := by decide

/-- C4: Scenario B of the spec.  Under the AND policy with pair table
`[(10, 20)]` and continuity seeded from a previous clip whose last snapshot
is `{10: 5, 20: 1}`, the trace `[{10: 5}, {10: 6}, {10: 6}]` produces shadow
values `[1, 0, 0]` for shadow id 20: the seeded 1 is kept at the first
snapshot, the change from 5 to 6 latches 0 at the second, and 0 persists. -/
theorem C4_scenario_B :
    (AndEngine.process_trace [(10, 20)] [(10, 5), (20, 1)]
      [⟨[(10, 5)], false⟩, ⟨[(10, 6)], false⟩, ⟨[(10, 6)], false⟩]).1.map
      (fun t => mget t.model 20 1) = [1, 0, 0] := by decide

/-- C5 counterexample: with the AND policy, continuity seeded from
`{10: 5, 20: 1}`, and the one-snapshot clip `[{10: 6}]`, the monitored id 10
is constant (value 6) across the entire clip, yet the clip's shadow values
are `[0]`: neither the policy's initial value 1 nor the carried-in seed 1.
The boundary change from the seeded preceding value 5 latches the shadow even
though the value never changes within the clip. -/
theorem C5_no_change_stability_cex :
    vals 10 [⟨[(10, 6)], false⟩] = [6] ∧
    (AndEngine.process_trace [(10, 20)] [(10, 5), (20, 1)]
      [⟨[(10, 6)], false⟩]).1.map (fun t => mget t.model 20 1) = [0] ∧
    mget [(10, 5), (20, 1)] 20 1 = 1 ∧ (0 : Val) ≠ 1 := by decide

/-- C5 (amended): no-change stability.  If the monitored id's value is
constant across an entire clip then under the OR policy (fresh run) every
shadow value written for the pair is the initial value 0; under the AND
policy with continuity the same holds with the carried-in seed shadow value,
provided the constant value also equals the seeded preceding value (the
continuity boundary must not itself be a change). -/
theorem C5_no_change_stability (pairs : PairTable) (o s : NodeId)
    (hsep : Separated pairs) (hmem : (o, s) ∈ pairs) (prevModel : Model)
    (snaps : List Snapshot) (c : Val) (hconst : ∀ v ∈ vals o snaps, v = c) :
    (∀ t ∈ (OrEngine.process_trace pairs snaps).1, mget t.model s 0 = 0) ∧
    (c = mget prevModel o 0 →
      ∀ t ∈ (AndEngine.process_trace pairs prevModel snaps).1,
        mget t.model s 1 = mget prevModel s 1) := by
  constructor
  · intro t ht
    have hx : mget t.model s 0 ∈ orSeq (vals o snaps) := by
      rw [← (orRun_char pairs o s hsep hmem snaps).1 0]
      exact List.mem_map_of_mem _ ht
    exact orSeq_const c (vals o snaps) hconst _ hx
  · intro hc t ht
    have hx : mget t.model s 1 ∈
        andSeq (mget prevModel s 1) (mget prevModel o 0) (vals o snaps) := by
      rw [← (andRun_char pairs o s hsep hmem prevModel snaps).1 1]
      exact List.mem_map_of_mem _ ht
    refine andSeq_const _ _ _ ?_ _ hx
    intro v hv
    rw [hconst v hv, hc]

theorem C5_no_change_stability_witness :
    mget (⟨[(10, 4), (20, 0)], false⟩ : Snapshot).model 20 0 = 0 ∧
    mget (⟨[(10, 4), (20, 1)], false⟩ : Snapshot).model 20 1 =
      mget [(10, 4), (20, 1)] 20 1 := by
  have h := C5_no_change_stability [(10, 20)] 10 20
    (by refine ⟨?_, ?_, ?_⟩ <;> decide) (by decide)
    [(10, 4), (20, 1)] [⟨[(10, 4)], false⟩] 4 (by decide)
  exact ⟨h.1 ⟨[(10, 4), (20, 0)], false⟩ (by decide),
    h.2 (by decide) ⟨[(10, 4), (20, 1)], false⟩ (by decide)⟩

/-- C6: pass-through fidelity.  For every input trace segment, under both
engines every output snapshot's `is_start` equals the corresponding input
snapshot's `is_start`, and every key that is not a shadow id of the pair
table reads the same value (any default) in the output snapshot as in the
input snapshot: the engines write only shadow-id entries. -/
theorem C6_pass_through (pairs : PairTable) (k : NodeId) (hk : k ∉ sids pairs)
    (prevModel : Model) (snaps : List Snapshot) (d : Val) :
    (OrEngine.process_trace pairs snaps).1.map Snapshot.is_start =
      snaps.map Snapshot.is_start ∧
    (OrEngine.process_trace pairs snaps).1.map (fun t => mget t.model k d) =
      snaps.map (fun t => mget t.model k d) ∧
    (AndEngine.process_trace pairs prevModel snaps).1.map Snapshot.is_start =
      snaps.map Snapshot.is_start ∧
    (AndEngine.process_trace pairs prevModel snaps).1.map
        (fun t => mget t.model k d) =
      snaps.map (fun t => mget t.model k d) :=
  ⟨orRun_isStart pairs snaps true _, orProcess_pass pairs k hk snaps d,
   andRun_isStart snaps _, andProcess_pass pairs k hk prevModel snaps d⟩

theorem C6_pass_through_witness :
    (OrEngine.process_trace [(10, 20)] [⟨[(5, 9)], true⟩]).1.map
        Snapshot.is_start = ([⟨[(5, 9)], true⟩] : List Snapshot).map Snapshot.is_start ∧
    (OrEngine.process_trace [(10, 20)] [⟨[(5, 9)], true⟩]).1.map
        (fun t => mget t.model 5 0) =
      ([⟨[(5, 9)], true⟩] : List Snapshot).map (fun t => mget t.model 5 0) ∧
    (AndEngine.process_trace [(10, 20)] [] [⟨[(5, 9)], true⟩]).1.map
        Snapshot.is_start = ([⟨[(5, 9)], true⟩] : List Snapshot).map Snapshot.is_start ∧
    (AndEngine.process_trace [(10, 20)] [] [⟨[(5, 9)], true⟩]).1.map
        (fun t => mget t.model 5 0) =
      ([⟨[(5, 9)], true⟩] : List Snapshot).map (fun t => mget t.model 5 0) :=
  C6_pass_through [(10, 20)] 5 (by decide) [] [⟨[(5, 9)], true⟩] 0

/-- C7 counterexample: OR policy, pair table `[(10, 20)]`, trace values
`[0, 1, 2]` for the monitored id 10.  The change from 0 to 1 settles the pair
at the second snapshot, after which it leaves the active set; processing the
third snapshot (monitored value 2) leaves the stored preceding value frozen
at 1, so the claim that the preceding value is updated every snapshot
regardless of settlement fails. -/
theorem C7_prev_value_freshness_cex :
    mget (OrEngine.process_trace [(10, 20)]
      [⟨[(10, 0)], true⟩, ⟨[(10, 1)], false⟩,
       ⟨[(10, 2)], false⟩]).2.prev_vals 10 0 = 1 ∧
    mget (⟨[(10, 2)], false⟩ : Snapshot).model 10 0 = 2 ∧ (1 : Val) ≠ 2 := by
  decide

/-- C7 (amended): preceding-value freshness while WATCHING.  Under both
policies, processing one snapshot updates the stored preceding value of a
pair that is still in the active set to that snapshot's monitored value
(default 0 if absent); and once a pair is SETTLED (latch 1 under OR, latch 0
under AND) its shadow output no longer changes for the remainder of the
run.  After settlement the pair leaves the active set and its stored
preceding value is frozen, not refreshed. -/
theorem C7_prev_value_freshness (pairs : PairTable) (o s : NodeId)
    (hs : s ∈ sids pairs) (stO : OrEngine.St) (mO : Model)
    (hso : ∀ q ∈ stO.active, q.2 ≠ o) (hwatch : ∃ q ∈ stO.active, q.1 = o)
    (stA : AndEngine.St) (mA : Model) (hwatchA : ∃ q ∈ stA.active, q.1 = o)
    (stO2 : OrEngine.St) (hinvO : OrInv pairs stO2)
    (hlatO : mget stO2.shadow_latched s 0 = 1) (snapsO : List Snapshot)
    (stA2 : AndEngine.St) (hinvA : AndInv pairs stA2)
    (hlatA : mget stA2.shadow_latched s 1 = 0) (snapsA : List Snapshot) :
    mget (OrEngine.step stO mO).2.prev_vals o 0 = mget mO o 0 ∧
    mget (AndEngine.step stA mA).2.prev_vals o 0 = mget mA o 0 ∧
    (∀ t ∈ (OrEngine.runAux pairs false stO2 snapsO).1, mget t.model s 0 = 1) ∧
    (∀ t ∈ (AndEngine.runAux stA2 snapsA).1, mget t.model s 1 = 0) := by
  refine ⟨?_, ?_, ?_, ?_⟩
  · show mget (OrEngine.loop stO.active mO stO.prev_vals
      stO.shadow_latched).2.1 o 0 = _
    exact orLoop_pv_fresh stO.active mO stO.prev_vals stO.shadow_latched o
      hso hwatch
  · show mget (AndEngine.loop stA.active mA stA.prev_vals
      stA.shadow_latched).1 o 0 = _
    rw [andLoop_pv, if_pos hwatchA]
  · intro t ht
    exact orRun_settled pairs s hs snapsO stO2 hinvO hlatO t ht 0
  · intro t ht
    exact andRun_settled pairs s hs snapsA stA2 hinvA hlatA t ht 1

theorem C7_prev_value_freshness_witness :
    mget (OrEngine.step ⟨[], [(20, 0)], [(10, 20)]⟩ [(10, 7)]).2.prev_vals 10 0 =
      mget [(10, 7)] 10 0 ∧
    mget (AndEngine.step ⟨[], [(20, 1)], [(10, 20)]⟩ [(10, 9)]).2.prev_vals 10 0 =
      mget [(10, 9)] 10 0 ∧
    mget (⟨[(10, 5), (20, 1)], false⟩ : Snapshot).model 20 0 = 1 ∧
    mget (⟨[(10, 5), (20, 0)], false⟩ : Snapshot).model 20 1 = 0 := by
  have h := C7_prev_value_freshness [(10, 20)] 10 20 (by decide)
    ⟨[], [(20, 0)], [(10, 20)]⟩ [(10, 7)] (by decide) (by decide)
    ⟨[], [(20, 1)], [(10, 20)]⟩ [(10, 9)] (by decide)
    (OrEngine.step ⟨[], initLatched [(10, 20)], [(10, 20)]⟩ [(10, 5)]).2
    (orInv_step _ _ _ (orInv_init _)) (by decide) [⟨[(10, 5)], false⟩]
    (AndEngine.step ⟨(AndEngine.load_last_snapshot [(10, 20)] []).1,
      (AndEngine.load_last_snapshot [(10, 20)] []).2, [(10, 20)]⟩ [(10, 5)]).2
    (andInv_step _ _ _ (andInv_init [(10, 20)] [])) (by decide)
    [⟨[(10, 5)], false⟩]
  exact ⟨h.1, h.2.1, h.2.2.1 ⟨[(10, 5), (20, 1)], false⟩ (by decide),
    h.2.2.2 ⟨[(10, 5), (20, 0)], false⟩ (by decide)⟩

/-- C8 counterexample: `pex_shadow2_v2.py` with a missing previous clip
(`None`) and the one-snapshot clip `[{10: 3}]` silently produces the
annotated output `[{10: 3, 20: 0}]` from default seeds (monitored 0,
shadow 1) instead of failing: the missing seed state IS silently replaced by
default values in that script. -/
theorem C8_and_without_continuity_cex :
    (V2.process_trace [(10, 20)] none [⟨[(10, 3)], false⟩]).1 =
      [⟨[(10, 3), (20, 0)], false⟩] := by decide

/-- C8 (amended): the pipeline orchestrator rejects every run whose first
clip uses the AND policy, surfacing the configuration error "AND-decay used
on first clip" to the caller; but the standalone decay script
`pex_shadow2_v2.py` does not share this guarantee: on a missing previous
file it silently seeds exactly as if the previous clip's last model were
empty (monitored ids default 0, shadow ids default 1). -/
theorem C8_and_without_continuity (pairs : PairTable) (pol : Nat)
    (hpol : pol ≠ 0) (pols : List Nat) (clip : List Snapshot)
    (rest : List (List Snapshot)) (hlen : pols.length = rest.length)
    (snaps : List Snapshot) :
    Pipeline.main pairs (pol :: pols) (clip :: rest) =
      Except.error "AND-decay used on first clip" ∧
    V2.process_trace pairs none snaps =
      AndEngine.process_trace pairs [] snaps := by
  constructor
  · show (if (pol :: pols).length = (clip :: rest).length then
        Pipeline.runClips pairs none ((pol :: pols).zip (clip :: rest))
      else Except.error "shadow-policy length must equal number of clips") = _
    rw [if_pos (by simp [hlen])]
    show Pipeline.runClips pairs none ((pol, clip) :: pols.zip rest) = _
    simp only [Pipeline.runClips]
    rw [if_neg hpol]
  · show AndEngine.runAux ⟨(V2.load_last_snapshot pairs none).1,
      (V2.load_last_snapshot pairs none).2, pairs⟩ snaps = _
    rw [v2_defaults_eq_empty_seed]
    rfl

theorem C8_and_without_continuity_witness :
    Pipeline.main [(10, 20)] [1, 0]
        [[⟨[(10, 0)], false⟩], [⟨[(10, 0)], false⟩]] =
      Except.error "AND-decay used on first clip" ∧
    V2.process_trace [(10, 20)] none [⟨[(10, 5)], false⟩] =
      AndEngine.process_trace [(10, 20)] [] [⟨[(10, 5)], false⟩] :=
  C8_and_without_continuity [(10, 20)] 1 (by decide) [0] [⟨[(10, 0)], false⟩]
    [[⟨[(10, 0)], false⟩]] (by decide) [⟨[(10, 5)], false⟩]

/-- C9 counterexample: AND policy, pair table `[(10, 20)]`, previous model
`{20: 2}` (a non-binary seeded shadow value), trace `[{10: 0}, {10: 1}]`.
The active-set implementation drops the pair after the first snapshot (its
latch 2 is not 1), so the change at the second snapshot goes unseen and the
output shadow values are `[2, 2]`; the reference behavior that evaluates
every pair at every snapshot latches 0 and outputs `[2, 0]`. -/
theorem C9_active_set_refinement_cex :
    (AndEngine.process_trace [(10, 20)] [(20, 2)]
      [⟨[(10, 0)], false⟩, ⟨[(10, 1)], false⟩]).1.map
      (fun t => mget t.model 20 1) = [2, 2] ∧
    (AndRef.process_trace [(10, 20)] [(20, 2)]
      [⟨[(10, 0)], false⟩, ⟨[(10, 1)], false⟩]).1.map
      (fun t => mget t.model 20 1) = [2, 0] := by decide

/-- C9 (amended): active-set refinement.  For every separated pair table and
trace segment the OR engine with its shrinking active set produces, snapshot
by snapshot, the same `is_start` flags, the same values at every non-shadow
key, the same values at the pair's shadow id and the same final latch as the
reference behavior that evaluates every pair at every snapshot; the AND
engine does the same provided the pair's seeded shadow value is binary
(0 or 1). -/
theorem C9_active_set_refinement (pairs : PairTable) (o s : NodeId)
    (hsep : Separated pairs) (hmem : (o, s) ∈ pairs) (prevModel : Model)
    (snaps : List Snapshot)
    (hbin : mget prevModel s 1 = 0 ∨ mget prevModel s 1 = 1) :
    ((OrEngine.process_trace pairs snaps).1.map Snapshot.is_start =
      (OrRef.process_trace pairs snaps).1.map Snapshot.is_start) ∧
    (∀ k, k ∉ sids pairs → ∀ d,
      (OrEngine.process_trace pairs snaps).1.map (fun t => mget t.model k d) =
      (OrRef.process_trace pairs snaps).1.map (fun t => mget t.model k d)) ∧
    (∀ d, (OrEngine.process_trace pairs snaps).1.map
        (fun t => mget t.model s d) =
      (OrRef.process_trace pairs snaps).1.map (fun t => mget t.model s d)) ∧
    (mget (OrEngine.process_trace pairs snaps).2.shadow_latched s 0 =
      mget (OrRef.process_trace pairs snaps).2.2 s 0) ∧
    ((AndEngine.process_trace pairs prevModel snaps).1.map Snapshot.is_start =
      (AndRef.process_trace pairs prevModel snaps).1.map Snapshot.is_start) ∧
    (∀ k, k ∉ sids pairs → ∀ d,
      (AndEngine.process_trace pairs prevModel snaps).1.map
        (fun t => mget t.model k d) =
      (AndRef.process_trace pairs prevModel snaps).1.map
        (fun t => mget t.model k d)) ∧
    (∀ d, (AndEngine.process_trace pairs prevModel snaps).1.map
        (fun t => mget t.model s d) =
      (AndRef.process_trace pairs prevModel snaps).1.map
        (fun t => mget t.model s d)) ∧
    (mget (AndEngine.process_trace pairs prevModel snaps).2.shadow_latched s 1 =
      mget (AndRef.process_trace pairs prevModel snaps).2.2 s 1) := by
  refine ⟨?_, ?_, ?_, ?_, ?_, ?_, ?_, ?_⟩
  · exact (orRun_isStart pairs snaps true _).trans
      (orRefRun_isStart pairs snaps true _ _).symm
  · intro k hk d
    exact (orProcess_pass pairs k hk snaps d).trans
      (orRefProcess_pass pairs k hk snaps d).symm
  · intro d
    exact ((orRun_char pairs o s hsep hmem snaps).1 d).trans
      ((orRefRun_char pairs o s hsep hmem snaps).1 d).symm
  · exact (orRun_char pairs o s hsep hmem snaps).2.trans
      (orRefRun_char pairs o s hsep hmem snaps).2.symm
  · exact (andRun_isStart snaps _).trans
      (andRefRun_isStart pairs snaps _ _).symm
  · intro k hk d
    exact (andProcess_pass pairs k hk prevModel snaps d).trans
      (andRefProcess_pass pairs k hk prevModel snaps d).symm
  · intro d
    exact (((andRun_char pairs o s hsep hmem prevModel snaps).1 d).trans
      (andSeq_eq_refSeq _ _ _ hbin)).trans
      ((andRefRun_char pairs o s hsep hmem prevModel snaps).1 d).symm
  · exact ((andRun_char pairs o s hsep hmem prevModel snaps).2.trans
      (andFinal_eq_refFinal _ _ _ hbin)).trans
      (andRefRun_char pairs o s hsep hmem prevModel snaps).2.symm

theorem C9_active_set_refinement_witness :
    (OrEngine.process_trace [(10, 20)]
        [⟨[(10, 0)], false⟩, ⟨[(10, 1)], false⟩]).1.map
        (fun t => mget t.model 20 0) =
      (OrRef.process_trace [(10, 20)]
        [⟨[(10, 0)], false⟩, ⟨[(10, 1)], false⟩]).1.map
        (fun t => mget t.model 20 0) ∧
    mget (AndEngine.process_trace [(10, 20)] [(20, 1)]
        [⟨[(10, 0)], false⟩, ⟨[(10, 1)], false⟩]).2.shadow_latched 20 1 =
      mget (AndRef.process_trace [(10, 20)] [(20, 1)]
        [⟨[(10, 0)], false⟩, ⟨[(10, 1)], false⟩]).2.2 20 1 := by
  have h := C9_active_set_refinement [(10, 20)] 10 20
    (by refine ⟨?_, ?_, ?_⟩ <;> decide) (by decide)
    [(20, 1)] [⟨[(10, 0)], false⟩, ⟨[(10, 1)], false⟩] (Or.inr (by decide))
  exact ⟨h.2.2.1 0, h.2.2.2.2.2.2.2⟩

/-- C10: annotation totality.  For every pair table, every shadow id of the
table and every trace segment, every snapshot of the annotated output holds
an entry for that shadow id, even when the input snapshot had none; under OR
the first output snapshot's value is 0 and each later snapshot's value is
the latch state after processing the snapshots so far, and under AND every
output snapshot's value is the latch state after processing the snapshots so
far. -/
theorem C10_annotation_totality (pairs : PairTable) (s : NodeId)
    (hs : s ∈ sids pairs) (prevModel : Model) (snaps : List Snapshot) :
    (∀ i, i < (OrEngine.process_trace pairs snaps).1.length →
      hasKey ((OrEngine.process_trace pairs snaps).1.getD i
        ⟨[], false⟩).model s = true ∧
      (i = 0 → mget ((OrEngine.process_trace pairs snaps).1.getD i
        ⟨[], false⟩).model s 0 = 0) ∧
      (i ≠ 0 → mget ((OrEngine.process_trace pairs snaps).1.getD i
          ⟨[], false⟩).model s 0 =
        mget (OrEngine.process_trace pairs
          (snaps.take (i + 1))).2.shadow_latched s 0)) ∧
    (∀ i, i < (AndEngine.process_trace pairs prevModel snaps).1.length →
      hasKey ((AndEngine.process_trace pairs prevModel snaps).1.getD i
        ⟨[], false⟩).model s = true ∧
      mget ((AndEngine.process_trace pairs prevModel snaps).1.getD i
          ⟨[], false⟩).model s 1 =
        mget (AndEngine.process_trace pairs prevModel
          (snaps.take (i + 1))).2.shadow_latched s 1) :=
  ⟨orProcess_entry pairs s hs snaps, andProcess_entry pairs s hs prevModel snaps⟩

theorem C10_annotation_totality_witness :
    hasKey ((OrEngine.process_trace [(10, 20)] [⟨[], false⟩]).1.getD 0
      ⟨[], false⟩).model 20 = true ∧
    hasKey ((AndEngine.process_trace [(10, 20)] [] [⟨[], false⟩]).1.getD 0
      ⟨[], false⟩).model 20 = true := by
  have h := C10_annotation_totality [(10, 20)] 20 (by decide) [] [⟨[], false⟩]
  exact ⟨(h.1 0 (by decide)).1, (h.2 0 (by decide)).1⟩

end PexShadow
